import Mathlib

/-!
btc-info: Base58 and hexadecimal codecs, PKH address check, digests and
elliptic-curve keys.

A shallow embedding of

* `lib/btc/encode/src/base58.cpp` and `base58.openssl.cpp` (Base58 codec),
* `lib/btc/encode/src/hex.cpp` (hexadecimal codec),
* `lib/btc/crypto/src/digest.openssl.cpp`, `digest.cpp` (one-shot digests),
* `lib/btc/crypto/src/digester.openssl.cpp` (streaming digester),
* `lib/btc/crypto/src/ecc_key.openssl.cpp`, `ecc_key.openssl.hpp` (the classes
  `EccNativeKey`, `EccPublicKey`, `EccPrivateKey`),
* `lib/btc/wallet/src/address.cpp` and `address.hpp` (the class `PkhAddress`).

Conventions.  `uint8_t` is `Fin 256`; `std::vector<uint8_t>` is `List Byte`;
`std::string` is `List Char`.  A `const uint8_t *` is the memory behind the
pointer, a function from offsets to bytes, so that a read past the end of a
buffer has a value the caller does not control; an output buffer is the list of
bytes it holds.  `size_t` and `int` lengths are natural numbers; the product the
buffer variant of `HexDecode` takes of its `size_t` argument is reduced modulo
2^64 (`size_t_mul`).

External collaborators.  The OpenSSL big-number backend is exact arithmetic on
`Nat` and its allocations succeed.  The OpenSSL hash primitives `SHA256` and
`RIPEMD160` are parameters (`Primitives`): functions from the bytes read to the
digest written, which may fail.  An `EVP_MD_CTX` is the list of bytes it has
absorbed, and finalising it yields what the one-shot primitive yields on them.
An OpenSSL `EC_KEY` is a record of curve, public point, private scalar and flags;
the curve arithmetic, the codecs and ECDSA are parameters (`EccBackend`), and what
the proofs assume of them is `EccBackend.Lawful`.
An OpenSSL call on a context that fails for a reason of its own is a
`NativeFault` given to the `_faulty` variants of the digester.
Logging has no counterpart; of the debug-only assertions (`DASSERT`) only those
on private keys are modelled, as the conditions they check.
-/

namespace btc

/-- The type `uint8_t`. -/
abbrev Byte := Fin 256

/-- The conversion `static_cast<uint8_t>(n)`. -/
def toByte (n : Nat) : Byte := ⟨n % 256, Nat.mod_lt n (by decide)⟩

/-- The memory behind `v.data()`: the elements of `v`, then `past`. -/
def vecData (v : List Byte) (past : Byte) : Nat → Byte := fun i => v.getD i past

/-- The `n` bytes a callee reads from the pointer `p`. -/
def bytesAt (p : Nat → Byte) (n : Nat) : List Byte := (List.range n).map p

/-! ## OpenSSL `BIGNUM` backend, modelled on `Nat` -/

namespace bn

/-- `BN_bin2bn(s, len, ret)`: the first `len` bytes at `s`, read big-endian. -/
def BN_bin2bn (s : Nat → Byte) (len : Nat) : Nat :=
  (bytesAt s len).foldl (fun acc b => acc * 256 + b.val) 0

/-- `BN_is_zero(a)`. -/
def BN_is_zero (a : Nat) : Bool := a == 0

/-- `BN_div(dv, rem, a, d, ctx)`: quotient and remainder. -/
def BN_div (a d : Nat) : Nat × Nat := (a / d, a % d)

/-- `BN_get_word(a)`: the value when it fits an `unsigned long`, else all ones. -/
def BN_get_word (a : Nat) : Nat := if a < 2 ^ 64 then a else 2 ^ 64 - 1

/-- `BN_mul(r, a, b, ctx)`. -/
def BN_mul (a b : Nat) : Nat := a * b

/-- `BN_add(r, a, b)`. -/
def BN_add (a b : Nat) : Nat := a + b

/-- Loop behind `BN_num_bytes`: count base-256 digits (fuel `a` always suffices). -/
def numBytesLoop : Nat → Nat → Nat
  | 0, _ => 0
  | fuel + 1, a => if a = 0 then 0 else numBytesLoop fuel (a / 256) + 1

/-- `BN_num_bytes(a)`: the number of bytes needed to hold `a` (0 for 0). -/
def BN_num_bytes (a : Nat) : Nat := numBytesLoop a a

/-- The `len` low-order base-256 digits of `a`, most significant first. -/
def bn2bin : Nat → Nat → List Byte
  | 0, _ => []
  | len + 1, a => bn2bin len (a / 256) ++ [toByte a]

/-- `BN_bn2binpad(a, out, tolen)`: returns `-1` and writes nothing when `a` needs
more than `tolen` bytes; otherwise writes `a` big-endian, zero padded on the
left to `tolen` bytes, over the start of `out` and returns `tolen`. -/
def BN_bn2binpad (a : Nat) (out : List Byte) (tolen : Nat) : Int × List Byte :=
  if tolen < BN_num_bytes a then (-1, out)
  else ((tolen : Int), bn2bin tolen a ++ out.drop tolen)

end bn

/-! ## `btc::encode` : Base58 -/

namespace encode

open bn

/-- The array `kBase58CharSet` (without its terminating NUL). -/
def kBase58CharSet : List Char :=
  "123456789ABCDEFGHJKLMNPQRSTUVWXYZabcdefghijkmnopqrstuvwxyz".toList

/-- `ToBase58Char(v)` of `base58.openssl.cpp`. -/
def ToBase58Char (v : Byte) : Char :=
  if v.val < 58 then kBase58CharSet.getD v.val (Char.ofNat 0) else '-'

/-- `IsBase58Character(c)`. -/
def IsBase58Character (c : Char) : Bool :=
  if '1' ≤ c ∧ c ≤ '9' then true
  else if 'A' ≤ c ∧ c ≤ 'Z' then decide (c ≠ 'I' ∧ c ≠ 'O')
  else if 'a' ≤ c ∧ c ≤ 'z' then decide (c ≠ 'l')
  else false

/-- `Base58CharToValue(c)`. -/
def Base58CharToValue (c : Char) : Byte :=
  if '1' ≤ c ∧ c ≤ '9' then toByte (c.toNat - '1'.toNat)
  else if 'A' ≤ c ∧ c ≤ 'H' then toByte ((c.toNat - 'A'.toNat) + 9)
  else if 'J' ≤ c ∧ c ≤ 'N' then toByte ((c.toNat - 'J'.toNat) + 17)
  else if 'P' ≤ c ∧ c ≤ 'Z' then toByte ((c.toNat - 'P'.toNat) + 22)
  else if 'a' ≤ c ∧ c ≤ 'k' then toByte ((c.toNat - 'a'.toNat) + 33)
  else if 'm' ≤ c ∧ c ≤ 'z' then toByte ((c.toNat - 'm'.toNat) + 44)
  else toByte 0xff

/-- `ValueToBase58Char(v)`. -/
def ValueToBase58Char (v : Byte) : Char :=
  if v.val ≥ 58 then Char.ofNat 0 else kBase58CharSet.getD v.val (Char.ofNat 0)

/-- `IsBase58String(b58)`. -/
def IsBase58String (b58 : List Char) : Bool :=
  if b58.isEmpty then true else b58.all IsBase58Character

/-- The loop `while (data[leading_zeros] == 0 && leading_zeros < size) leading_zeros++;`
of `Base58Encode`; the byte is read before the bound is tested. -/
def encodeLeadingZeros (data : Nat → Byte) (size : Nat) : Nat → Nat → Nat
  | 0, leading_zeros => leading_zeros
  | fuel + 1, leading_zeros =>
    if data leading_zeros = 0 ∧ leading_zeros < size then
      encodeLeadingZeros data size fuel (leading_zeros + 1)
    else leading_zeros

/-- The loop `while (!BN_is_zero(acc)) { BN_div(acc, rem, acc, 58); values.push_back(rem); }`
of `Base58Encode`. -/
def encodeDivLoop : Nat → Nat → List Byte → List Byte
  | 0, _, values => values
  | fuel + 1, acc, values =>
    if BN_is_zero acc then values
    else
      let value := BN_get_word (BN_div acc 58).2 % 2 ^ 32
      encodeDivLoop fuel (BN_div acc 58).1 (values ++ [toByte value])

/-- `Base58Encode(const uint8_t *data, size_t size)`.  The first loop runs at
most `size + 1` times and the second at most `acc` times, which is the fuel
they get. -/
def Base58Encode_ptr (data : Nat → Byte) (size : Nat) : List Char :=
  if size = 0 then []
  else
    let leading_zeros := encodeLeadingZeros data size (size + 1) 0
    if leading_zeros = size then List.replicate size '1'
    else
      let acc := BN_bin2bn data size
      let values := encodeDivLoop acc acc []
      List.replicate leading_zeros '1' ++ values.reverse.map ToBase58Char

/-- `Base58Encode(const std::vector<uint8_t> &data)`.  `past` is the byte that
lies behind the vector's storage. -/
def Base58Encode (data : List Byte) (past : Byte) : List Char :=
  if data.isEmpty then [] else Base58Encode_ptr (vecData data past) data.length

/-- The loop `while (b58[leading_zeros] == '1' && leading_zeros < b58.size()) leading_zeros++;`
of `Base58Decode`; `b58[b58.size()]` is the string's terminating NUL. -/
def decodeLeadingZeros (b58 : List Char) : Nat → Nat → Nat
  | 0, leading_zeros => leading_zeros
  | fuel + 1, leading_zeros =>
    if b58.getD leading_zeros (Char.ofNat 0) = '1' ∧ leading_zeros < b58.length then
      decodeLeadingZeros b58 fuel (leading_zeros + 1)
    else leading_zeros

/-- The loop `for (const uint8_t v : values) { acc = acc * 58; acc = acc + v; }`
of `Base58Decode`. -/
def decodeAccumulate (values : List Byte) : Nat :=
  values.foldl (fun acc v => BN_add (BN_mul acc 58) (v.val % 2 ^ 32)) 0

/-- `Base58Decode(const std::string &b58)`, the vector-returning overload. -/
def Base58Decode (b58 : List Char) : List Byte :=
  if !IsBase58String b58 then []
  else if b58.isEmpty then []
  else
    let leading_zeros := decodeLeadingZeros b58 (b58.length + 1) 0
    if leading_zeros = b58.length then List.replicate leading_zeros 0
    else
      let values := b58.map Base58CharToValue
      let acc := decodeAccumulate values
      let actual_length := BN_num_bytes acc
      let pad_length := leading_zeros
      let total_length := actual_length + pad_length
      let res := BN_bn2binpad acc (List.replicate total_length 0) total_length
      if res.1 = 0 then [] else res.2

/-- Calls into the big-number backend. -/
inductive BnCall
  | BN_CTX_new | BN_new | BN_zero | BN_set_word | BN_mul | BN_add
  | BN_num_bytes | BN_bn2binpad
  deriving DecidableEq, Repr

/-- The big-number calls `Base58Decode(const std::string &)` makes, in order. -/
def Base58Decode_bnCalls (b58 : List Char) : List BnCall :=
  if !IsBase58String b58 then []
  else if b58.isEmpty then []
  else
    let leading_zeros := decodeLeadingZeros b58 (b58.length + 1) 0
    if leading_zeros = b58.length then []
    else
      let values := b58.map Base58CharToValue
      [.BN_CTX_new, .BN_new, .BN_zero, .BN_new, .BN_new, .BN_set_word]
        ++ (values.map (fun _ => [BnCall.BN_mul, .BN_set_word, .BN_add])).flatten
        ++ [.BN_num_bytes, .BN_bn2binpad]

/-- `std::copy_n(first, count, result)` into the memory `result`. -/
def copy_n : List Byte → Nat → List Byte → List Byte
  | x :: first, count + 1, _ :: result => x :: copy_n first count result
  | _, _, result => result

/-- `Base58Decode(const std::string &b58, uint8_t *buffer, size_t buffer_size)`:
the returned size and the memory at `buffer` afterwards. -/
def Base58Decode_buf (b58 : List Char) (buffer : List Byte) (buffer_size : Nat) :
    Nat × List Byte :=
  let res := Base58Decode b58
  if buffer_size = 0 then (res.length, buffer)
  else if res.isEmpty then (0, buffer)
  else
    let copy_size := min buffer_size res.length
    (res.length, copy_n res copy_size buffer)

end encode

/-! ## `btc::crypto` : one-shot digests -/

namespace crypto

/-- A hash primitive of type `digester_t`, `uint8_t *(*)(const uint8_t *, size_t, uint8_t *)`:
from the bytes read to the bytes written to the output, `none` for a null result. -/
abbrev digester_t := List Byte → Option (List Byte)

/-- The OpenSSL primitives `SHA256` and `RIPEMD160`, with their output sizes. -/
structure Primitives where
  SHA256 : digester_t
  RIPEMD160 : digester_t
  SHA256_length : ∀ x d, SHA256 x = some d → d.length = 32
  RIPEMD160_length : ∀ x d, RIPEMD160 x = some d → d.length = 20

/-- The enum `DigestAlgorithm`, by its underlying integer value. -/
abbrev DigestAlgorithm := Int

/-- Enumerator `kUnknownDigestAlgorithm`. -/
def kUnknownDigestAlgorithm : DigestAlgorithm := 0
/-- Enumerator `kSha256`. -/
def kSha256 : DigestAlgorithm := 2001256
/-- Enumerator `kRipeMd160`. -/
def kRipeMd160 : DigestAlgorithm := 1992160
/-- Enumerator `kSha256Sha256`. -/
def kSha256Sha256 : DigestAlgorithm := 2001256256
/-- Enumerator `kSha256RipeMd160`. -/
def kSha256RipeMd160 : DigestAlgorithm := 1992160256

/-- Constant `kSha256DigestLength`. -/
def kSha256DigestLength : Nat := 32
/-- Constant `kRipeMd160DigestLength`. -/
def kRipeMd160DigestLength : Nat := 20

/-- The pointer `kNullByteFill`, which points at the zero byte `kSpareByte`. -/
def kNullByteFill : Nat → Byte := fun _ => 0

/-- An output buffer `buf` after a callee wrote `d` over its start. -/
def written (buf d : List Byte) : List Byte := d ++ buf.drop d.length

/-- `DigestImpl<Digester>(const uint8_t *data, size_t data_size, uint8_t *digest)`;
`data = none` is the null pointer, the result is the digest written, `none` for `false`. -/
def DigestImpl_ptr (Digester : digester_t) (data : Option (Nat → Byte)) (data_size : Nat) :
    Option (List Byte) :=
  if data.isNone ∧ data_size > 0 then none
  else Digester (bytesAt (data.getD kNullByteFill) data_size)

/-- `DigestImpl<Digester, kDigestLength>(const std::vector<uint8_t> &data)`. -/
def DigestImpl (Digester : digester_t) (kDigestLength : Nat) (data : List Byte) : List Byte :=
  let digest := List.replicate kDigestLength (0 : Byte)
  match Digester (bytesAt (if data.isEmpty then kNullByteFill else vecData data 0) data.length) with
  | none => []
  | some d => written digest d

/-- `DoubleDigestImpl<FirstDigester, kFirstDigestLength, SecondDigester>(const uint8_t *data,
size_t data_size, uint8_t *digest)`. -/
def DoubleDigestImpl_ptr (FirstDigester : digester_t) (kFirstDigestLength : Nat)
    (SecondDigester : digester_t) (data : Option (Nat → Byte)) (data_size : Nat) :
    Option (List Byte) :=
  if data.isNone ∧ data_size > 0 then none
  else
    match FirstDigester (bytesAt (data.getD kNullByteFill) data_size) with
    | none => none
    | some d =>
      let first_digest := written (List.replicate kFirstDigestLength (0 : Byte)) d
      SecondDigester (bytesAt (vecData first_digest 0) kFirstDigestLength)

/-- `DoubleDigestImpl<FirstDigester, kFirstDigestLength, SecondDigester, kSecondDigestLength>(
const std::vector<uint8_t> &data)`. -/
def DoubleDigestImpl (FirstDigester : digester_t) (kFirstDigestLength : Nat)
    (SecondDigester : digester_t) (kSecondDigestLength : Nat) (data : List Byte) : List Byte :=
  match FirstDigester
      (bytesAt (if data.isEmpty then kNullByteFill else vecData data 0) data.length) with
  | none => []
  | some d =>
    let first_digest := written (List.replicate kFirstDigestLength (0 : Byte)) d
    let digest := List.replicate kSecondDigestLength (0 : Byte)
    match SecondDigester (bytesAt (vecData first_digest 0) kFirstDigestLength) with
    | none => []
    | some e => written digest e

/-- `Sha256(const uint8_t *data, size_t data_size, uint8_t *digest)`. -/
def Sha256_ptr (P : Primitives) (data : Option (Nat → Byte)) (data_size : Nat) :
    Option (List Byte) :=
  DigestImpl_ptr P.SHA256 data data_size

/-- `Sha256(const std::vector<uint8_t> &data)`. -/
def Sha256 (P : Primitives) (data : List Byte) : List Byte :=
  DigestImpl P.SHA256 kSha256DigestLength data

/-- `Sha256Sha256(const uint8_t *data, size_t data_size, uint8_t *digest)`. -/
def Sha256Sha256_ptr (P : Primitives) (data : Option (Nat → Byte)) (data_size : Nat) :
    Option (List Byte) :=
  DoubleDigestImpl_ptr P.SHA256 kSha256DigestLength P.SHA256 data data_size

/-- `Sha256Sha256(const std::vector<uint8_t> &data)`. -/
def Sha256Sha256 (P : Primitives) (data : List Byte) : List Byte :=
  DoubleDigestImpl P.SHA256 kSha256DigestLength P.SHA256 kSha256DigestLength data

/-- `Sha256RipeMd160(const std::vector<uint8_t> &data)`. -/
def Sha256RipeMd160 (P : Primitives) (data : List Byte) : List Byte :=
  DoubleDigestImpl P.SHA256 kSha256DigestLength P.RIPEMD160 kRipeMd160DigestLength data

/-- Modelled from the spec: `RipeMd160(const uint8_t *, size_t, uint8_t *)` is declared in
`digest.hpp` and has no definition in the sources; single-pass digests are the "direct
application of the named primitive", as `Sha256` is. -/
def RipeMd160_ptr (P : Primitives) (data : Option (Nat → Byte)) (data_size : Nat) :
    Option (List Byte) :=
  DigestImpl_ptr P.RIPEMD160 data data_size

/-- Modelled from the spec: `RipeMd160(const std::vector<uint8_t> &)` is declared in
`digest.hpp` and has no definition in the sources; single-pass digests are the "direct
application of the named primitive", as `Sha256` is. -/
def RipeMd160 (P : Primitives) (data : List Byte) : List Byte :=
  DigestImpl P.RIPEMD160 kRipeMd160DigestLength data

/-- `Digest(DigestAlgorithm algorithm, const std::vector<uint8_t> &data)`. -/
def Digest (P : Primitives) (algorithm : DigestAlgorithm) (data : List Byte) : List Byte :=
  if algorithm = kSha256 then Sha256 P data
  else if algorithm = kRipeMd160 then RipeMd160 P data
  else if algorithm = kSha256Sha256 then Sha256Sha256 P data
  else if algorithm = kSha256RipeMd160 then Sha256RipeMd160 P data
  else []

/-! ### The other overloads of the one-shot digests -/

/-- The memory behind `data.data()` of a `std::string`, read as bytes: the
characters, then the terminating NUL. -/
def strData (s : List Char) : Nat → Byte :=
  fun i => toByte (s.getD i (Char.ofNat 0)).toNat

/-- `DigestImpl<Digester>(const std::string &data, uint8_t *digest)`. -/
def DigestImpl_string_out (Digester : digester_t) (data : List Char) : Option (List Byte) :=
  Digester (bytesAt (if data.isEmpty then kNullByteFill else strData data) data.length)

/-- `DigestImpl<Digester>(const std::vector<uint8_t> &data, uint8_t *digest)`. -/
def DigestImpl_vector_out (Digester : digester_t) (data : List Byte) : Option (List Byte) :=
  Digester (bytesAt (if data.isEmpty then kNullByteFill else vecData data 0) data.length)

/-- `DigestImpl<Digester, kDigestLength>(const uint8_t *data, size_t data_size)`. -/
def DigestImpl_ptr_vec (Digester : digester_t) (kDigestLength : Nat)
    (data : Option (Nat → Byte)) (data_size : Nat) : List Byte :=
  if data.isNone ∧ data_size > 0 then []
  else
    let digest := List.replicate kDigestLength (0 : Byte)
    match Digester (bytesAt (data.getD kNullByteFill) data_size) with
    | none => []
    | some d => written digest d

/-- `DigestImpl<Digester, kDigestLength>(const std::string &data)`. -/
def DigestImpl_string (Digester : digester_t) (kDigestLength : Nat) (data : List Char) :
    List Byte :=
  let digest := List.replicate kDigestLength (0 : Byte)
  match Digester (bytesAt (if data.isEmpty then kNullByteFill else strData data) data.length) with
  | none => []
  | some d => written digest d

/-- `DoubleDigestImpl<FirstDigester, kFirstDigestLength, SecondDigester>(const std::string &data,
uint8_t *digest)`. -/
def DoubleDigestImpl_string_out (FirstDigester : digester_t) (kFirstDigestLength : Nat)
    (SecondDigester : digester_t) (data : List Char) : Option (List Byte) :=
  match FirstDigester
      (bytesAt (if data.isEmpty then kNullByteFill else strData data) data.length) with
  | none => none
  | some d =>
    let first_digest := written (List.replicate kFirstDigestLength (0 : Byte)) d
    SecondDigester (bytesAt (vecData first_digest 0) kFirstDigestLength)

/-- `DoubleDigestImpl<FirstDigester, kFirstDigestLength, SecondDigester>(
const std::vector<uint8_t> &data, uint8_t *digest)`. -/
def DoubleDigestImpl_vector_out (FirstDigester : digester_t) (kFirstDigestLength : Nat)
    (SecondDigester : digester_t) (data : List Byte) : Option (List Byte) :=
  match FirstDigester
      (bytesAt (if data.isEmpty then kNullByteFill else vecData data 0) data.length) with
  | none => none
  | some d =>
    let first_digest := written (List.replicate kFirstDigestLength (0 : Byte)) d
    SecondDigester (bytesAt (vecData first_digest 0) kFirstDigestLength)

/-- `DoubleDigestImpl<FirstDigester, kFirstDigestLength, SecondDigester, kSecondDigestLength>(
const uint8_t *data, size_t data_size)`. -/
def DoubleDigestImpl_ptr_vec (FirstDigester : digester_t) (kFirstDigestLength : Nat)
    (SecondDigester : digester_t) (kSecondDigestLength : Nat)
    (data : Option (Nat → Byte)) (data_size : Nat) : List Byte :=
  if data.isNone ∧ data_size > 0 then []
  else
    match FirstDigester (bytesAt (data.getD kNullByteFill) data_size) with
    | none => []
    | some d =>
      let first_digest := written (List.replicate kFirstDigestLength (0 : Byte)) d
      let digest := List.replicate kSecondDigestLength (0 : Byte)
      match SecondDigester (bytesAt (vecData first_digest 0) kFirstDigestLength) with
      | none => []
      | some e => written digest e

/-- `DoubleDigestImpl<FirstDigester, kFirstDigestLength, SecondDigester, kSecondDigestLength>(
const std::string &data)`. -/
def DoubleDigestImpl_string (FirstDigester : digester_t) (kFirstDigestLength : Nat)
    (SecondDigester : digester_t) (kSecondDigestLength : Nat) (data : List Char) : List Byte :=
  match FirstDigester
      (bytesAt (if data.isEmpty then kNullByteFill else strData data) data.length) with
  | none => []
  | some d =>
    let first_digest := written (List.replicate kFirstDigestLength (0 : Byte)) d
    let digest := List.replicate kSecondDigestLength (0 : Byte)
    match SecondDigester (bytesAt (vecData first_digest 0) kFirstDigestLength) with
    | none => []
    | some e => written digest e

/-- How many times `DigestImpl<Digester>(const uint8_t *data, size_t data_size, ...)`,
in either of its two forms, calls the primitive. -/
def DigestImpl_ptr_calls (data : Option (Nat → Byte)) (data_size : Nat) : Nat :=
  if data.isNone ∧ data_size > 0 then 0 else 1

/-- How many times `DoubleDigestImpl<...>(const uint8_t *data, size_t data_size, ...)`,
in either of its two forms, calls a primitive. -/
def DoubleDigestImpl_ptr_calls (FirstDigester : digester_t) (data : Option (Nat → Byte))
    (data_size : Nat) : Nat :=
  if data.isNone ∧ data_size > 0 then 0
  else
    match FirstDigester (bytesAt (data.getD kNullByteFill) data_size) with
    | none => 1
    | some _ => 2

/-- `Sha256(const std::string &data, uint8_t *digest)`. -/
def Sha256_string_out (P : Primitives) (data : List Char) : Option (List Byte) :=
  DigestImpl_string_out P.SHA256 data

/-- `Sha256(const std::vector<uint8_t> &data, uint8_t *digest)`. -/
def Sha256_vector_out (P : Primitives) (data : List Byte) : Option (List Byte) :=
  DigestImpl_vector_out P.SHA256 data

/-- `Sha256(const uint8_t *data, size_t data_size)`. -/
def Sha256_ptr_vec (P : Primitives) (data : Option (Nat → Byte)) (data_size : Nat) :
    List Byte :=
  DigestImpl_ptr_vec P.SHA256 kSha256DigestLength data data_size

/-- `Sha256(const std::string &data)`. -/
def Sha256_string (P : Primitives) (data : List Char) : List Byte :=
  DigestImpl_string P.SHA256 kSha256DigestLength data

/-- `Sha256Sha256(const std::string &data, uint8_t *digest)`. -/
def Sha256Sha256_string_out (P : Primitives) (data : List Char) : Option (List Byte) :=
  DoubleDigestImpl_string_out P.SHA256 kSha256DigestLength P.SHA256 data

/-- `Sha256Sha256(const std::vector<uint8_t> &data, uint8_t *digest)`. -/
def Sha256Sha256_vector_out (P : Primitives) (data : List Byte) : Option (List Byte) :=
  DoubleDigestImpl_vector_out P.SHA256 kSha256DigestLength P.SHA256 data

/-- `Sha256Sha256(const uint8_t *data, size_t data_size)`. -/
def Sha256Sha256_ptr_vec (P : Primitives) (data : Option (Nat → Byte)) (data_size : Nat) :
    List Byte :=
  DoubleDigestImpl_ptr_vec P.SHA256 kSha256DigestLength P.SHA256 kSha256DigestLength
    data data_size

/-- `Sha256Sha256(const std::string &data)`. -/
def Sha256Sha256_string (P : Primitives) (data : List Char) : List Byte :=
  DoubleDigestImpl_string P.SHA256 kSha256DigestLength P.SHA256 kSha256DigestLength data

/-- `Sha256RipeMd160(const uint8_t *data, size_t data_size, uint8_t *digest)`. -/
def Sha256RipeMd160_ptr (P : Primitives) (data : Option (Nat → Byte)) (data_size : Nat) :
    Option (List Byte) :=
  DoubleDigestImpl_ptr P.SHA256 kSha256DigestLength P.RIPEMD160 data data_size

/-- `Sha256RipeMd160(const std::string &data, uint8_t *digest)`. -/
def Sha256RipeMd160_string_out (P : Primitives) (data : List Char) : Option (List Byte) :=
  DoubleDigestImpl_string_out P.SHA256 kSha256DigestLength P.RIPEMD160 data

/-- `Sha256RipeMd160(const std::vector<uint8_t> &data, uint8_t *digest)`. -/
def Sha256RipeMd160_vector_out (P : Primitives) (data : List Byte) : Option (List Byte) :=
  DoubleDigestImpl_vector_out P.SHA256 kSha256DigestLength P.RIPEMD160 data

/-- `Sha256RipeMd160(const uint8_t *data, size_t data_size)`. -/
def Sha256RipeMd160_ptr_vec (P : Primitives) (data : Option (Nat → Byte))
    (data_size : Nat) : List Byte :=
  DoubleDigestImpl_ptr_vec P.SHA256 kSha256DigestLength P.RIPEMD160 kRipeMd160DigestLength
    data data_size

/-- `Sha256RipeMd160(const std::string &data)`. -/
def Sha256RipeMd160_string (P : Primitives) (data : List Char) : List Byte :=
  DoubleDigestImpl_string P.SHA256 kSha256DigestLength P.RIPEMD160 kRipeMd160DigestLength data

/-- Modelled from the spec: `RipeMd160(const std::string &, uint8_t *)` is declared in
`digest.hpp` and has no definition in the sources; single-pass digests are the "direct
application of the named primitive", as `Sha256` is. -/
def RipeMd160_string_out (P : Primitives) (data : List Char) : Option (List Byte) :=
  DigestImpl_string_out P.RIPEMD160 data

/-- Modelled from the spec: `RipeMd160(const std::vector<uint8_t> &, uint8_t *)` is
declared in `digest.hpp` and has no definition in the sources; single-pass digests are the
"direct application of the named primitive", as `Sha256` is. -/
def RipeMd160_vector_out (P : Primitives) (data : List Byte) : Option (List Byte) :=
  DigestImpl_vector_out P.RIPEMD160 data

/-- Modelled from the spec: `RipeMd160(const uint8_t *, size_t)` is declared in
`digest.hpp` and has no definition in the sources; single-pass digests are the "direct
application of the named primitive", as `Sha256` is. -/
def RipeMd160_ptr_vec (P : Primitives) (data : Option (Nat → Byte)) (data_size : Nat) :
    List Byte :=
  DigestImpl_ptr_vec P.RIPEMD160 kRipeMd160DigestLength data data_size

/-- Modelled from the spec: `RipeMd160(const std::string &)` is declared in `digest.hpp`
and has no definition in the sources; single-pass digests are the "direct application of
the named primitive", as `Sha256` is. -/
def RipeMd160_string (P : Primitives) (data : List Char) : List Byte :=
  DigestImpl_string P.RIPEMD160 kRipeMd160DigestLength data

/-- `Digest(DigestAlgorithm algorithm, const uint8_t *data, size_t data_size)`. -/
def Digest_ptr (P : Primitives) (algorithm : DigestAlgorithm) (data : Option (Nat → Byte))
    (data_size : Nat) : List Byte :=
  if algorithm = kSha256 then Sha256_ptr_vec P data data_size
  else if algorithm = kRipeMd160 then RipeMd160_ptr_vec P data data_size
  else if algorithm = kSha256Sha256 then Sha256Sha256_ptr_vec P data data_size
  else if algorithm = kSha256RipeMd160 then Sha256RipeMd160_ptr_vec P data data_size
  else []

/-- `Digest(DigestAlgorithm algorithm, const std::string &data)`. -/
def Digest_string (P : Primitives) (algorithm : DigestAlgorithm) (data : List Char) :
    List Byte :=
  if algorithm = kSha256 then Sha256_string P data
  else if algorithm = kRipeMd160 then RipeMd160_string P data
  else if algorithm = kSha256Sha256 then Sha256Sha256_string P data
  else if algorithm = kSha256RipeMd160 then Sha256RipeMd160_string P data
  else []

/-! ## `btc::crypto` : streaming digester -/

/-- An OpenSSL `EVP_MD_CTX`: `none` when no digest is set up in it (fresh, or
cleaned up by `EVP_DigestFinal`), `some m` for a SHA-256 context that has
absorbed the bytes `m`. -/
abbrev EVP_MD_CTX := Option (List Byte)

/-- `EVP_DigestInit(ctx, EVP_sha256())`: success flag and the context afterwards. -/
def EVP_DigestInit (_ctx : EVP_MD_CTX) : Bool × EVP_MD_CTX := (true, some [])

/-- `EVP_MD_CTX_copy(out, src)`: fails when `src` has no digest set up. -/
def EVP_MD_CTX_copy (out src : EVP_MD_CTX) : Bool × EVP_MD_CTX :=
  match src with
  | none => (false, out)
  | some m => (true, some m)

/-- `EVP_DigestUpdate(ctx, data, data_size)`. -/
def EVP_DigestUpdate (ctx : EVP_MD_CTX) (data : Nat → Byte) (data_size : Nat) :
    Bool × EVP_MD_CTX :=
  match ctx with
  | none => (false, none)
  | some m => (true, some (m ++ bytesAt data data_size))

/-- `EVP_DigestFinal(ctx, digest, nullptr)`: the digest written (that of the
one-shot primitive on the bytes absorbed) and the cleaned-up context. -/
def EVP_DigestFinal (P : Primitives) (ctx : EVP_MD_CTX) : Option (List Byte) × EVP_MD_CTX :=
  match ctx with
  | none => (none, none)
  | some m => (P.SHA256 m, none)

/-- The class `internal::NativeDigester`. -/
structure NativeDigester where
  ctx : EVP_MD_CTX
  backup_ctx : EVP_MD_CTX
  ready : Bool
  has_backup : Bool
  deriving DecidableEq, Repr

namespace NativeDigester

/-- `NativeDigester::Init()`. -/
def Init (d : NativeDigester) : Bool × NativeDigester :=
  let r := EVP_DigestInit d.ctx
  if !r.1 then (false, { d with ctx := r.2 })
  else (true, { d with ctx := r.2, ready := true })

/-- `NativeDigester::New()`: `none` is the null pointer. -/
def New : Option NativeDigester :=
  let r := Init ⟨none, none, false, false⟩
  if !r.1 then none else some r.2

/-- `NativeDigester::Save()`. -/
def Save (d : NativeDigester) : Bool × NativeDigester :=
  let r := EVP_MD_CTX_copy d.backup_ctx d.ctx
  if !r.1 then (false, { d with backup_ctx := r.2, has_backup := false })
  else (true, { d with backup_ctx := r.2, has_backup := true })

/-- `NativeDigester::Restore()`. -/
def Restore (d : NativeDigester) : Bool × NativeDigester :=
  if !d.has_backup then (false, d)
  else
    let r := EVP_MD_CTX_copy d.ctx d.backup_ctx
    if !r.1 then (false, { d with ctx := r.2 })
    else (true, { d with ctx := r.2, ready := true, has_backup := false })

/-- `NativeDigester::Reset()`. -/
def Reset (d : NativeDigester) : Bool × NativeDigester :=
  let r := EVP_DigestInit d.ctx
  if !r.1 then (false, { d with ctx := r.2, ready := false, has_backup := false })
  else (true, { d with ctx := r.2, ready := true, has_backup := false })

/-- `NativeDigester::Update(const uint8_t *data, size_t data_size)`. -/
def Update (d : NativeDigester) (data : Nat → Byte) (data_size : Nat) : Bool × NativeDigester :=
  let r :=
    if !d.ready && d.has_backup then Restore d
    else if !d.ready then Reset d
    else (true, d)
  if !r.1 then (false, r.2)
  else
    let d := r.2
    if data_size = 0 then (true, d)
    else
      let u := EVP_DigestUpdate d.ctx data data_size
      if !u.1 then (false, { d with ctx := u.2, ready := false })
      else (true, { d with ctx := u.2 })

/-- `NativeDigester::Finalize(uint8_t *digest)`: the digest written (`none` for
`false`) and the object afterwards. -/
def Finalize (P : Primitives) (d : NativeDigester) : Option (List Byte) × NativeDigester :=
  let r :=
    if !d.ready && d.has_backup then Restore d
    else if !d.ready then Reset d
    else (true, (Save d).2)
  if !r.1 then (none, r.2)
  else
    let d := { r.2 with ready := false }
    let f := EVP_DigestFinal P d.ctx
    (f.1, { d with ctx := f.2 })

end NativeDigester

/-- `IsSupportedDigestAlgorithm(algorithm)`. -/
def IsSupportedDigestAlgorithm (algorithm : DigestAlgorithm) : Bool :=
  if algorithm = kSha256 ∨ algorithm = kSha256Sha256 ∨ algorithm = kSha256RipeMd160 then true
  else if algorithm = kRipeMd160 ∨ algorithm = kUnknownDigestAlgorithm then false
  else false

/-- `GetDigestLength(algorithm)`. -/
def GetDigestLength (algorithm : DigestAlgorithm) : Nat :=
  if algorithm = kSha256 ∨ algorithm = kSha256Sha256 then kSha256DigestLength
  else if algorithm = kSha256RipeMd160 then kRipeMd160DigestLength
  else if algorithm = kRipeMd160 ∨ algorithm = kUnknownDigestAlgorithm then 0
  else 0

/-- The class `Digester`. -/
structure Digester where
  algorithm : DigestAlgorithm
  digest_length : Nat
  byte_count : Nat
  digester : NativeDigester
  deriving DecidableEq, Repr

namespace Digester

/-- `Digester::New(algorithm)`: `none` is the null pointer. -/
def New (algorithm : DigestAlgorithm) : Option Digester :=
  if !IsSupportedDigestAlgorithm algorithm then none
  else
    match NativeDigester.New with
    | none => none
    | some native_digester => some ⟨algorithm, GetDigestLength algorithm, 0, native_digester⟩

/-- `Digester::Count()`. -/
def Count (d : Digester) : Nat := d.byte_count

/-- `Digester::Reset()`. -/
def Reset (d : Digester) : Digester :=
  { d with digester := (NativeDigester.Reset d.digester).2, byte_count := 0 }

/-- `Digester::Update(uint8_t datum)`. -/
def Update_datum (d : Digester) (datum : Byte) : Bool × Digester :=
  let r := NativeDigester.Update d.digester (vecData [datum] 0) 1
  if !r.1 then (false, { d with digester := r.2 })
  else (true, { d with digester := r.2, byte_count := d.byte_count + 1 })

/-- `Digester::Update(const std::vector<uint8_t> &data)`. -/
def Update (d : Digester) (data : List Byte) : Bool × Digester :=
  if data.isEmpty then (true, d)
  else
    let r := NativeDigester.Update d.digester (vecData data 0) data.length
    if !r.1 then (false, { d with digester := r.2 })
    else (true, { d with digester := r.2, byte_count := d.byte_count + data.length })

/-- `Digester::Update(const uint8_t *data, size_t data_size)`; `data = none`
is the null pointer. -/
def Update_ptr (d : Digester) (data : Option (Nat → Byte)) (data_size : Nat) :
    Bool × Digester :=
  if data_size = 0 then (true, d)
  else
    match data with
    | none => (false, d)
    | some p =>
      let r := NativeDigester.Update d.digester p data_size
      if !r.1 then (false, { d with digester := r.2 })
      else (true, { d with digester := r.2, byte_count := d.byte_count + data_size })

/-- `Digester::Finalize(uint8_t *digest)` with a non-null `digest`: the digest
written (`none` for `false`) and the object afterwards. -/
def Finalize_ptr (P : Primitives) (d : Digester) : Option (List Byte) × Digester :=
  if d.algorithm = kSha256 then
    let f := NativeDigester.Finalize P d.digester
    (f.1, { d with digester := f.2 })
  else
    let f := NativeDigester.Finalize P d.digester
    let d := { d with digester := f.2 }
    match f.1 with
    | none => (none, d)
    | some i =>
      let intermediate_digest := written (List.replicate kSha256DigestLength (0 : Byte)) i
      if d.algorithm = kSha256Sha256 then
        (Sha256_ptr P (some (vecData intermediate_digest 0)) kSha256DigestLength, d)
      else (RipeMd160_ptr P (some (vecData intermediate_digest 0)) kSha256DigestLength, d)

/-- `Digester::Finalize()`, the vector-returning overload. -/
def Finalize (P : Primitives) (d : Digester) : List Byte × Digester :=
  let f := NativeDigester.Finalize P d.digester
  let d := { d with digester := f.2 }
  match f.1 with
  | none => ([], d)
  | some w =>
    let digest := written (List.replicate kSha256DigestLength (0 : Byte)) w
    if d.algorithm = kSha256 then (digest, d)
    else if d.algorithm = kSha256Sha256 then (Sha256 P digest, d)
    else (RipeMd160 P digest, d)

end Digester

/-- A call made on a `Digester` by its owner. -/
inductive Call
  | Update (data : List Byte)
  | Finalize
  | Reset
  deriving DecidableEq, Repr

/-- What a call on a `Digester` returned. -/
inductive Ret
  | bool (b : Bool)
  | digest (d : List Byte)
  | void
  deriving DecidableEq, Repr

/-- One call on a digester: the object afterwards and what the call returned. -/
def Digester.call (P : Primitives) (d : Digester) : Call → Digester × Ret
  | .Update data => ((d.Update data).2, .bool (d.Update data).1)
  | .Finalize => ((d.Finalize P).2, .digest (d.Finalize P).1)
  | .Reset => (d.Reset, .void)

/-- A sequence of calls on a digester: the object afterwards and the results in order. -/
def Digester.run (P : Primitives) : Digester → List Call → Digester × List Ret
  | d, [] => (d, [])
  | d, c :: cs =>
    let r := Digester.call P d c
    let rest := Digester.run P r.1 cs
    (rest.1, r.2 :: rest.2)

/-- What `Digester::Finalize()` makes of the result `w` of the native finalize. -/
def Digester.finish (P : Primitives) (algorithm : DigestAlgorithm) :
    Option (List Byte) → List Byte
  | none => []
  | some w =>
    if algorithm = kSha256 then written (List.replicate kSha256DigestLength 0) w
    else if algorithm = kSha256Sha256 then
      Sha256 P (written (List.replicate kSha256DigestLength 0) w)
    else RipeMd160 P (written (List.replicate kSha256DigestLength 0) w)

/-- What `Digester::Finalize(uint8_t *)` makes of the result `w` of the native finalize. -/
def Digester.finish_ptr (P : Primitives) (algorithm : DigestAlgorithm)
    (w : Option (List Byte)) : Option (List Byte) :=
  if algorithm = kSha256 then w
  else
    match w with
    | none => none
    | some i =>
      if algorithm = kSha256Sha256 then
        Sha256_ptr P (some (vecData (written (List.replicate kSha256DigestLength 0) i) 0))
          kSha256DigestLength
      else
        RipeMd160_ptr P (some (vecData (written (List.replicate kSha256DigestLength 0) i) 0))
          kSha256DigestLength

/-- The `Update` calls `chunks` made in order on `d`: whether all of them
returned `true`, and the object afterwards. -/
def Digester.updates : Digester → List (List Byte) → Bool × Digester
  | d, [] => (true, d)
  | d, c :: cs =>
    let r := d.Update c
    let rest := Digester.updates r.2 cs
    (r.1 && rest.1, rest.2)

/-- A stand-in for the hash primitives, used to evaluate the model on concrete
inputs: it pads or cuts its input to the output size. -/
def standIn : Primitives where
  SHA256 := fun x => some ((x ++ List.replicate 32 0).take 32)
  RIPEMD160 := fun x => some ((x ++ List.replicate 20 0).take 20)
  SHA256_length := by intro x d h; cases h; simp
  RIPEMD160_length := by intro x d h; cases h; simp

/-! ## `btc::crypto` : elliptic-curve keys

An OpenSSL `EC_KEY` is modelled by a record of what it holds.  The arithmetic of the
curves, the octet codecs of points, the ASN.1 parsers and ECDSA itself are not part of
this code base: they are the fields of `EccBackend`, and the OpenSSL calls the code makes
are stated on the record in terms of them.  Allocation (`BN_CTX_new`, `EC_POINT_new`)
always succeeds.  Randomness is an explicit argument (`seed`, `entropy`). -/

/-- `NID_secp256k1`. -/
def NID_secp256k1 : Int := 714
/-- `EVP_PKEY_EC`. -/
def EVP_PKEY_EC : Int := 408
/-- `POINT_CONVERSION_COMPRESSED`. -/
def POINT_CONVERSION_COMPRESSED : Int := 2
/-- `POINT_CONVERSION_UNCOMPRESSED`. -/
def POINT_CONVERSION_UNCOMPRESSED : Int := 4
/-- `OPENSSL_EC_NAMED_CURVE`. -/
def OPENSSL_EC_NAMED_CURVE : Int := 1

/-- An `EC_POINT`: the point at infinity or a point given by its affine coordinates. -/
inductive EC_POINT
  | infinity
  | affine (x y : Nat)
  deriving DecidableEq, Repr

/-- An `EC_KEY`: the curve (by its NID), the public point, the private scalar, and the
two encoding flags.  `none` is a null member. -/
structure EC_KEY where
  group : Option Int
  pub_key : Option EC_POINT
  priv_key : Option Nat
  conv_form : Int
  asn1_flag : Int
  deriving DecidableEq, Repr

/-- An `EVP_PKEY` as far as this code looks at it: its base type id and the `EC_KEY` it
holds, if it holds one. -/
structure EVP_PKEY where
  base_id : Int
  ec_key : Option EC_KEY
  deriving DecidableEq, Repr

/-- The elliptic-curve backend: what OpenSSL computes on curves (given by NID), points,
scalars and byte strings. -/
structure EccBackend where
  /-- The scalar and the point `EC_KEY_generate_key` draws on a curve from the
  randomness `seed`; `none` when it fails. -/
  generate_key : Int → Nat → Option (Nat × EC_POINT)
  /-- Whether `EC_KEY_check_key` accepts a public point, with the private scalar if the
  key has one, on a curve. -/
  check_key : Int → EC_POINT → Option Nat → Bool
  /-- The point `n * G` for the generator `G` of a curve; `none` when the computation
  fails. -/
  mul_generator : Int → Nat → Option EC_POINT
  /-- `EC_GROUP_order_bits`. -/
  order_bits : Int → Nat
  /-- `EC_POINT_point2buf`: the encoding of a point in the given conversion form, empty
  when it fails. -/
  point2oct : Int → EC_POINT → Int → List Byte
  /-- `EC_POINT_oct2point`: the point an octet string encodes, if it encodes one. -/
  oct2point : Int → List Byte → Option EC_POINT
  /-- `d2i_PUBKEY` on the bytes given. -/
  d2i_PUBKEY : List Byte → Option EVP_PKEY
  /-- `d2i_AutoPrivateKey` on the bytes given. -/
  d2i_AutoPrivateKey : List Byte → Option EVP_PKEY
  /-- `ECDSA_size` on a curve. -/
  ecdsa_size : Int → Nat
  /-- The DER signature ECDSA computes on a curve with a private scalar over a digest,
  from the randomness `entropy`; `none` when it fails. -/
  ecdsa_sign : Int → Nat → List Byte → Nat → Option (List Byte)
  /-- The result of ECDSA verification on a curve with a public point of a digest and a
  signature: 1 valid, 0 invalid, -1 error. -/
  ecdsa_verify : Int → EC_POINT → List Byte → List Byte → Int

/-- What the proofs about signatures and serialised keys use of the backend: facts of
elliptic-curve cryptography and of the encodings on secp256k1. -/
structure EccBackend.Lawful (E : EccBackend) : Prop where
  /-- A key accepted with its private scalar is accepted without it. -/
  check_key_public : ∀ g Q d, E.check_key g Q (some d) = true → E.check_key g Q none = true
  /-- A key is accepted with a private scalar only if its point is scalar times generator. -/
  check_key_mul : ∀ g Q d, E.check_key g Q (some d) = true → E.mul_generator g d = some Q
  /-- An accepted private scalar is below the order of the curve. -/
  check_key_scalar : ∀ g Q d, E.check_key g Q (some d) = true → d < 2 ^ E.order_bits g
  /-- The order of secp256k1 has 256 bits. -/
  order_bits_secp256k1 : E.order_bits NID_secp256k1 = 256
  /-- On secp256k1 a compressed point takes 33 bytes and an uncompressed one 65. -/
  point2oct_length : ∀ Q p, E.check_key NID_secp256k1 Q p = true →
    (E.point2oct NID_secp256k1 Q POINT_CONVERSION_COMPRESSED).length = 33 ∧
    (E.point2oct NID_secp256k1 Q POINT_CONVERSION_UNCOMPRESSED).length = 65
  /-- Decoding the encoding of an accepted point gives the point back. -/
  oct2point_point2oct : ∀ g Q p form, E.check_key g Q p = true →
    form = POINT_CONVERSION_COMPRESSED ∨ form = POINT_CONVERSION_UNCOMPRESSED →
    E.oct2point g (E.point2oct g Q form) = some Q
  /-- ECDSA is correct: a signature made with the private scalar of an accepted key
  verifies under its public point. -/
  ecdsa_verify_sign : ∀ g Q d dgst entropy sig, E.check_key g Q (some d) = true →
    E.ecdsa_sign g d dgst entropy = some sig → E.ecdsa_verify g Q dgst sig = 1
  /-- A signature is not empty and fits the size `ECDSA_size` announces. -/
  ecdsa_sign_length : ∀ g d dgst entropy sig, E.ecdsa_sign g d dgst entropy = some sig →
    0 < sig.length ∧ sig.length ≤ E.ecdsa_size g
  /-- `ECDSA_size` returns an `int`. -/
  ecdsa_size_int : ∀ g, E.ecdsa_size g ≤ 2147483647

/-- OpenSSL `EC_KEY_new_by_curve_name(nid)`: a key on the curve, with no point and no
scalar yet. -/
def EC_KEY_new_by_curve_name (nid : Int) : Option EC_KEY :=
  some ⟨some nid, none, none, POINT_CONVERSION_UNCOMPRESSED, OPENSSL_EC_NAMED_CURVE⟩

/-- OpenSSL `EC_KEY_generate_key(key)`: sets a fresh scalar and its point; `none` is the
return value 0. -/
def EC_KEY_generate_key (E : EccBackend) (key : EC_KEY) (seed : Nat) : Option EC_KEY :=
  match key.group with
  | none => none
  | some g =>
    match E.generate_key g seed with
    | none => none
    | some (d, Q) => some { key with priv_key := some d, pub_key := some Q }

/-- OpenSSL `EC_KEY_check_key(key)`: 1 when the key is valid, 0 otherwise (also when the
curve or the public point is missing). -/
def EC_KEY_check_key (E : EccBackend) (key : EC_KEY) : Int :=
  match key.group, key.pub_key with
  | some g, some Q => if E.check_key g Q key.priv_key then 1 else 0
  | _, _ => 0

/-- OpenSSL `EC_KEY_set_conv_form(key, cform)`. -/
def EC_KEY_set_conv_form (key : EC_KEY) (cform : Int) : EC_KEY :=
  { key with conv_form := cform }

/-- OpenSSL `EC_KEY_set_asn1_flag(key, asn1_flag)`. -/
def EC_KEY_set_asn1_flag (key : EC_KEY) (asn1_flag : Int) : EC_KEY :=
  { key with asn1_flag := asn1_flag }

/-- OpenSSL `d2i_PUBKEY(nullptr, &pp, length)`. -/
def d2i_PUBKEY (E : EccBackend) (pp : Nat → Byte) (length : Nat) : Option EVP_PKEY :=
  E.d2i_PUBKEY (bytesAt pp length)

/-- OpenSSL `d2i_AutoPrivateKey(nullptr, &pp, length)`. -/
def d2i_AutoPrivateKey (E : EccBackend) (pp : Nat → Byte) (length : Nat) : Option EVP_PKEY :=
  E.d2i_AutoPrivateKey (bytesAt pp length)

/-- OpenSSL `EVP_PKEY_base_id(pkey)`. -/
def EVP_PKEY_base_id (pkey : EVP_PKEY) : Int := pkey.base_id

/-- OpenSSL `EVP_PKEY_get1_EC_KEY(pkey)`. -/
def EVP_PKEY_get1_EC_KEY (pkey : EVP_PKEY) : Option EC_KEY := pkey.ec_key

/-- OpenSSL `EC_KEY_get0_group(key)`. -/
def EC_KEY_get0_group (key : EC_KEY) : Option Int := key.group

/-- OpenSSL `EC_GROUP_get_curve_name(group)`. -/
def EC_GROUP_get_curve_name (group : Int) : Int := group

/-- OpenSSL `EC_KEY_oct2key(key, buf, len, ctx)`: sets the public point decoded from the
octets, and the conversion form from their first byte; `none` is the return value 0. -/
def EC_KEY_oct2key (E : EccBackend) (key : EC_KEY) (buf : Nat → Byte) (len : Nat) :
    Option EC_KEY :=
  match key.group with
  | none => none
  | some g =>
    match E.oct2point g (bytesAt buf len) with
    | none => none
    | some Q => some { key with pub_key := some Q, conv_form := ((buf 0).val / 2 * 2 : Nat) }

/-- OpenSSL `EC_KEY_oct2priv(key, buf, len)`: sets the private scalar read big-endian
from the octets; `none` is the return value 0. -/
def EC_KEY_oct2priv (key : EC_KEY) (buf : Nat → Byte) (len : Nat) : Option EC_KEY :=
  match key.group with
  | none => none
  | some _ => some { key with priv_key := some (bn.BN_bin2bn buf len) }

/-- OpenSSL `EC_KEY_get0_private_key(key)`. -/
def EC_KEY_get0_private_key (key : EC_KEY) : Option Nat := key.priv_key

/-- OpenSSL `EC_POINT_mul(group, r, n, nullptr, nullptr, ctx)`: `r = n * G`; `none` is
the return value 0. -/
def EC_POINT_mul (E : EccBackend) (group : Int) (n : Nat) : Option EC_POINT :=
  E.mul_generator group n

/-- OpenSSL `EC_KEY_set_public_key(key, pub)`; `none` is the return value 0. -/
def EC_KEY_set_public_key (key : EC_KEY) (pub : EC_POINT) : Option EC_KEY :=
  some { key with pub_key := some pub }

/-- OpenSSL `EC_KEY_key2buf(key, form, &data, ctx)`: the bytes allocated at `data`;
their number is the return value, 0 on failure. -/
def EC_KEY_key2buf (E : EccBackend) (key : Option EC_KEY) (form : Int) : List Byte :=
  match key with
  | none => []
  | some key =>
    match key.group, key.pub_key with
    | some g, some Q => E.point2oct g Q form
    | _, _ => []

/-- OpenSSL `EC_KEY_priv2buf(key, &data)`: the private scalar big-endian, padded to the
byte length of the order of the curve; the number of bytes is the return value, 0 on
failure. -/
def EC_KEY_priv2buf (E : EccBackend) (key : Option EC_KEY) : List Byte :=
  match key with
  | none => []
  | some key =>
    match key.group, key.priv_key with
    | some g, some d =>
      let buf_len := (E.order_bits g + 7) / 8
      let r := bn.BN_bn2binpad d (List.replicate buf_len 0) buf_len
      if r.1 = -1 then [] else r.2
    | _, _ => []

/-- OpenSSL `ECDSA_size(key)`. -/
def ECDSA_size (E : EccBackend) (key : Option EC_KEY) : Nat :=
  match key with
  | none => 0
  | some key =>
    match key.group with
    | none => 0
    | some g => E.ecdsa_size g

/-- OpenSSL `ECDSA_sign(0, dgst, dgst_len, sig, &sig_len, key)`: the `sig_len` bytes
written at `sig`; `none` is the return value 0. -/
def ECDSA_sign (E : EccBackend) (dgst : List Byte) (key : Option EC_KEY) (entropy : Nat) :
    Option (List Byte) :=
  match key with
  | none => none
  | some key =>
    match key.group, key.priv_key with
    | some g, some d => E.ecdsa_sign g d dgst entropy
    | _, _ => none

/-- OpenSSL `ECDSA_verify(0, dgst, dgst_len, sig, sig_len, key)`: 1 for a valid
signature, 0 for an invalid one, -1 on error. -/
def ECDSA_verify (E : EccBackend) (dgst sig : List Byte) (key : Option EC_KEY) : Int :=
  match key with
  | none => -1
  | some key =>
    match key.group, key.pub_key with
    | some g, some Q => E.ecdsa_verify g Q dgst sig
    | _, _ => -1

/-- Constant `kSecp256k1Id`. -/
def kSecp256k1Id : Int := NID_secp256k1

/-- Constant `kMaxInt`, `std::numeric_limits<int>::max()`. -/
def kMaxInt : Nat := 2147483647

/-- `CheckEcKey(key)`. -/
def CheckEcKey (E : EccBackend) (key : EC_KEY) : Bool :=
  EC_KEY_check_key E key == 1

/-- `SetEcKeyFlags(key)`. -/
def SetEcKeyFlags (key : EC_KEY) : EC_KEY :=
  EC_KEY_set_asn1_flag (EC_KEY_set_conv_form key POINT_CONVERSION_COMPRESSED)
    OPENSSL_EC_NAMED_CURVE

/-- `OpenSslPointConversionForm(compress)`. -/
def OpenSslPointConversionForm (compress : Bool) : Int :=
  if compress then POINT_CONVERSION_COMPRESSED else POINT_CONVERSION_UNCOMPRESSED

/-- The class `internal::EccNativeKey`: `_key` (`none` is the null pointer) and
`_is_private`. -/
structure EccNativeKey where
  key : Option EC_KEY
  is_private : Bool
  deriving DecidableEq, Repr

namespace EccNativeKey

/-- `EccNativeKey::InitNew()`: the return value and the object afterwards. -/
def InitNew (E : EccBackend) (self : EccNativeKey) (seed : Nat) : Bool × EccNativeKey :=
  match EC_KEY_new_by_curve_name kSecp256k1Id with
  | none => (false, { self with key := none })
  | some key =>
    match EC_KEY_generate_key E key seed with
    | none => (false, { self with key := some key })
    | some key =>
      if !CheckEcKey E key then (false, { self with key := some key })
      else (true, ⟨some (SetEcKeyFlags key), true⟩)

/-- `EccNativeKey::InitFromSubjectPublicKeyInfo(key_info)`. -/
def InitFromSubjectPublicKeyInfo (E : EccBackend) (self : EccNativeKey)
    (key_info : List Byte) : Bool × EccNativeKey :=
  if key_info.isEmpty then (false, self)
  else
    match d2i_PUBKEY E (vecData key_info 0) key_info.length with
    | none => (false, self)
    | some pkey =>
      let base_nid := EVP_PKEY_base_id pkey
      if base_nid ≠ EVP_PKEY_EC then (false, self)
      else
        match EVP_PKEY_get1_EC_KEY pkey with
        | none => (false, self)
        | some ec_key =>
          match EC_KEY_get0_group ec_key with
          | none => (false, self)
          | some group =>
            let key_nid := EC_GROUP_get_curve_name group
            if key_nid ≠ kSecp256k1Id then (false, self)
            else if !CheckEcKey E ec_key then (false, { self with key := some ec_key })
            else (true, ⟨some (SetEcKeyFlags ec_key), false⟩)

/-- `EccNativeKey::InitFromPrivateKeyInfo(key_info)`. -/
def InitFromPrivateKeyInfo (E : EccBackend) (self : EccNativeKey)
    (key_info : List Byte) : Bool × EccNativeKey :=
  if key_info.isEmpty then (false, self)
  else
    match d2i_AutoPrivateKey E (vecData key_info 0) key_info.length with
    | none => (false, self)
    | some pkey =>
      let base_nid := EVP_PKEY_base_id pkey
      if base_nid ≠ EVP_PKEY_EC then (false, self)
      else
        match EVP_PKEY_get1_EC_KEY pkey with
        | none => (false, self)
        | some ec_key =>
          match EC_KEY_get0_group ec_key with
          | none => (false, self)
          | some group =>
            let key_nid := EC_GROUP_get_curve_name group
            if key_nid ≠ kSecp256k1Id then (false, self)
            else if !CheckEcKey E ec_key then (false, { self with key := some ec_key })
            else (true, ⟨some (SetEcKeyFlags ec_key), true⟩)

/-- `EccNativeKey::InitFromPoint(ecc_point)`. -/
def InitFromPoint (E : EccBackend) (self : EccNativeKey) (ecc_point : List Byte) :
    Bool × EccNativeKey :=
  if ecc_point.isEmpty then (false, self)
  else
    match EC_KEY_new_by_curve_name kSecp256k1Id with
    | none => (false, { self with key := none })
    | some key =>
      match EC_KEY_oct2key E key (vecData ecc_point 0) ecc_point.length with
      | none => (false, { self with key := some key })
      | some key =>
        if !CheckEcKey E key then (false, { self with key := some key })
        else (true, ⟨some (SetEcKeyFlags key), false⟩)

/-- `EccNativeKey::InitFromScalar(ecc_scalar)`. -/
def InitFromScalar (E : EccBackend) (self : EccNativeKey) (ecc_scalar : List Byte) :
    Bool × EccNativeKey :=
  if ecc_scalar.isEmpty then (false, self)
  else
    match EC_KEY_new_by_curve_name kSecp256k1Id with
    | none => (false, { self with key := none })
    | some key =>
      match EC_KEY_oct2priv key (vecData ecc_scalar 0) ecc_scalar.length with
      | none => (false, { self with key := some key })
      | some key =>
        match EC_KEY_get0_group key with
        | none => (false, { self with key := some key })
        | some group =>
          match EC_KEY_get0_private_key key with
          | none => (false, { self with key := some key })
          | some priv_scalar =>
            match EC_POINT_mul E group priv_scalar with
            | none => (false, { self with key := some key })
            | some pub_point =>
              match EC_KEY_set_public_key key pub_point with
              | none => (false, { self with key := some key })
              | some key =>
                if !CheckEcKey E key then (false, { self with key := some key })
                else (true, ⟨some (SetEcKeyFlags key), true⟩)

/-- `EccNativeKey::New()`: `none` is the null pointer. -/
def New (E : EccBackend) (seed : Nat) : Option EccNativeKey :=
  let r := InitNew E ⟨none, false⟩ seed
  if !r.1 then none else some r.2

/-- `EccNativeKey::LoadSubjectPublicKeyInfo(key_info)`. -/
def LoadSubjectPublicKeyInfo (E : EccBackend) (key_info : List Byte) : Option EccNativeKey :=
  let r := InitFromSubjectPublicKeyInfo E ⟨none, false⟩ key_info
  if !r.1 then none else some r.2

/-- `EccNativeKey::LoadPrivateKeyInfo(key_info)`. -/
def LoadPrivateKeyInfo (E : EccBackend) (key_info : List Byte) : Option EccNativeKey :=
  let r := InitFromPrivateKeyInfo E ⟨none, false⟩ key_info
  if !r.1 then none else some r.2

/-- `EccNativeKey::LoadAsPoint(ecc_point)`. -/
def LoadAsPoint (E : EccBackend) (ecc_point : List Byte) : Option EccNativeKey :=
  let r := InitFromPoint E ⟨none, false⟩ ecc_point
  if !r.1 then none else some r.2

/-- `EccNativeKey::LoadAsScalar(ecc_scalar)`. -/
def LoadAsScalar (E : EccBackend) (ecc_scalar : List Byte) : Option EccNativeKey :=
  let r := InitFromScalar E ⟨none, false⟩ ecc_scalar
  if !r.1 then none else some r.2

/-- `EccNativeKey::SerializeAsPublicPoint(compress)`. -/
def SerializeAsPublicPoint (E : EccBackend) (self : EccNativeKey) (compress : Bool) :
    List Byte :=
  let data := EC_KEY_key2buf E self.key (OpenSslPointConversionForm compress)
  if data.length = 0 then [] else data

/-- `EccNativeKey::SerializeAsPrivateScalar()`. -/
def SerializeAsPrivateScalar (E : EccBackend) (self : EccNativeKey) : List Byte :=
  let data := EC_KEY_priv2buf E self.key
  if data.length = 0 then [] else data

/-- `EccNativeKey::VerifySignature(data, data_size, signature)`; `data = none` is the
null pointer. -/
def VerifySignature (P : Primitives) (E : EccBackend) (self : EccNativeKey)
    (data : Option (Nat → Byte)) (data_size : Nat) (signature : List Byte) : Bool :=
  if signature.isEmpty then false
  else if signature.length > kMaxInt then false
  else
    let digest := Sha256Sha256_ptr_vec P data data_size
    if digest.isEmpty then false
    else
      let res := ECDSA_verify E digest signature self.key
      if res = -1 then false
      else res == 1

/-- `EccNativeKey::GenerateSignature(data, data_size)`; `data = none` is the null
pointer. -/
def GenerateSignature (P : Primitives) (E : EccBackend) (self : EccNativeKey)
    (data : Option (Nat → Byte)) (data_size : Nat) (entropy : Nat) : List Byte :=
  let digest := Sha256Sha256_ptr_vec P data data_size
  if digest.isEmpty then []
  else
    let signature_length := ECDSA_size E self.key
    let signature := List.replicate signature_length (0 : Byte)
    match ECDSA_sign E digest self.key entropy with
    | none => []
    | some sig => (written signature sig).take sig.length

end EccNativeKey

/-- The class `EccPublicKey`: it owns its native key. -/
structure EccPublicKey where
  key : EccNativeKey
  deriving DecidableEq, Repr

namespace EccPublicKey

/-- `EccPublicKey::LoadSubjectPublicKeyInfo(key_info)`: `none` is the null pointer. -/
def LoadSubjectPublicKeyInfo (E : EccBackend) (key_info : List Byte) : Option EccPublicKey :=
  match EccNativeKey.LoadSubjectPublicKeyInfo E key_info with
  | none => none
  | some native_key => some ⟨native_key⟩

/-- `EccPublicKey::LoadPrivateKeyInfo(key_info)`. -/
def LoadPrivateKeyInfo (E : EccBackend) (key_info : List Byte) : Option EccPublicKey :=
  match EccNativeKey.LoadPrivateKeyInfo E key_info with
  | none => none
  | some native_key => some ⟨native_key⟩

/-- `EccPublicKey::LoadAsPoint(ecc_point)`. -/
def LoadAsPoint (E : EccBackend) (ecc_point : List Byte) : Option EccPublicKey :=
  match EccNativeKey.LoadAsPoint E ecc_point with
  | none => none
  | some native_key => some ⟨native_key⟩

/-- `EccPublicKey::LoadAsScalar(ecc_scalar)`. -/
def LoadAsScalar (E : EccBackend) (ecc_scalar : List Byte) : Option EccPublicKey :=
  match EccNativeKey.LoadAsScalar E ecc_scalar with
  | none => none
  | some native_key => some ⟨native_key⟩

/-- `EccPublicKey::SerializeAsPublicPoint(compress)`. -/
def SerializeAsPublicPoint (E : EccBackend) (self : EccPublicKey) (compress : Bool) :
    List Byte :=
  self.key.SerializeAsPublicPoint E compress

/-- `EccPublicKey::VerifySignature(const std::string &data, signature)`. -/
def VerifySignature_string (P : Primitives) (E : EccBackend) (self : EccPublicKey)
    (data : List Char) (signature : List Byte) : Bool :=
  if data.isEmpty then false
  else self.key.VerifySignature P E (some (strData data)) data.length signature

/-- `EccPublicKey::VerifySignature(const std::vector<uint8_t> &data, signature)`. -/
def VerifySignature (P : Primitives) (E : EccBackend) (self : EccPublicKey)
    (data : List Byte) (signature : List Byte) : Bool :=
  if data.isEmpty then false
  else self.key.VerifySignature P E (some (vecData data 0)) data.length signature

/-- `EccPublicKey::VerifySignature(const uint8_t *data, size_t data_size, signature)`;
`data = none` is the null pointer. -/
def VerifySignature_ptr (P : Primitives) (E : EccBackend) (self : EccPublicKey)
    (data : Option (Nat → Byte)) (data_size : Nat) (signature : List Byte) : Bool :=
  if data.isNone ∨ data_size = 0 then false
  else self.key.VerifySignature P E data data_size signature

end EccPublicKey

/-- The class `EccPrivateKey`, derived from `EccPublicKey`. -/
structure EccPrivateKey extends EccPublicKey
  deriving DecidableEq, Repr

namespace EccPrivateKey

/-- `EccPrivateKey::New()`: `none` is the null pointer. -/
def New (E : EccBackend) (seed : Nat) : Option EccPrivateKey :=
  match EccNativeKey.New E seed with
  | none => none
  | some native_key => some ⟨⟨native_key⟩⟩

/-- `EccPrivateKey::LoadPrivateKeyInfo(key_info)`. -/
def LoadPrivateKeyInfo (E : EccBackend) (key_info : List Byte) : Option EccPrivateKey :=
  match EccNativeKey.LoadPrivateKeyInfo E key_info with
  | none => none
  | some native_key => some ⟨⟨native_key⟩⟩

/-- `EccPrivateKey::LoadAsScalar(ecc_scalar)`. -/
def LoadAsScalar (E : EccBackend) (ecc_scalar : List Byte) : Option EccPrivateKey :=
  match EccNativeKey.LoadAsScalar E ecc_scalar with
  | none => none
  | some native_key => some ⟨⟨native_key⟩⟩

/-- `EccPrivateKey::SerializeAsPrivateScalar()`. -/
def SerializeAsPrivateScalar (E : EccBackend) (self : EccPrivateKey) : List Byte :=
  self.key.SerializeAsPrivateScalar E

/-- `EccPrivateKey::GenerateSignature(const std::string &data)`. -/
def GenerateSignature_string (P : Primitives) (E : EccBackend) (self : EccPrivateKey)
    (data : List Char) (entropy : Nat) : List Byte :=
  if data.isEmpty then []
  else self.key.GenerateSignature P E (some (strData data)) data.length entropy

/-- `EccPrivateKey::GenerateSignature(const std::vector<uint8_t> &data)`. -/
def GenerateSignature (P : Primitives) (E : EccBackend) (self : EccPrivateKey)
    (data : List Byte) (entropy : Nat) : List Byte :=
  if data.isEmpty then []
  else self.key.GenerateSignature P E (some (vecData data 0)) data.length entropy

/-- `EccPrivateKey::GenerateSignature(const uint8_t *data, size_t data_size)`;
`data = none` is the null pointer. -/
def GenerateSignature_ptr (P : Primitives) (E : EccBackend) (self : EccPrivateKey)
    (data : Option (Nat → Byte)) (data_size : Nat) (entropy : Nat) : List Byte :=
  if data.isNone ∨ data_size = 0 then []
  else self.key.GenerateSignature P E data data_size entropy

end EccPrivateKey

/-- A stand-in for the elliptic-curve backend, used to evaluate the model on concrete
inputs: the "curve" has the points `(x, 0)` with `0 < x < 251`, the generator times `n`
is `(n mod 251, 0)`, a point is encoded by its form byte and `x` in a field of 32 bytes,
and the signature of a digest under the scalar `d` is `d` followed by the digest. -/
def standInEcc : EccBackend where
  generate_key := fun _ seed => some (seed % 250 + 1, .affine (seed % 250 + 1) 0)
  check_key := fun _ Q d =>
    match Q with
    | .infinity => false
    | .affine x y =>
      decide (0 < x ∧ x < 251 ∧ y = 0) &&
        (match d with
         | none => true
         | some d => d == x)
  mul_generator := fun _ n => some (if n % 251 = 0 then .infinity else .affine (n % 251) 0)
  order_bits := fun _ => 256
  point2oct := fun _ Q form =>
    match Q with
    | .infinity => [0]
    | .affine x _ =>
      if form = 2 then toByte 2 :: (List.replicate 31 0 ++ [toByte x])
      else if form = 4 then toByte 4 :: (List.replicate 31 0 ++ [toByte x] ++ List.replicate 32 0)
      else []
  oct2point := fun _ buf =>
    match buf with
    | [] => none
    | b :: rest =>
      if (b = 2 ∧ rest.length = 32) ∨ (b = 4 ∧ rest.length = 64) then
        some (.affine (rest.getD 31 0).val 0)
      else none
  d2i_PUBKEY := fun bytes =>
    match bytes with
    | [b] => some ⟨408, some ⟨some 714, some (.affine b.val 0), none, 4, 1⟩⟩
    | _ => none
  d2i_AutoPrivateKey := fun bytes =>
    match bytes with
    | [b] => some ⟨408, some ⟨some 714, some (.affine b.val 0), some b.val, 4, 1⟩⟩
    | _ => none
  ecdsa_size := fun _ => 72
  ecdsa_sign := fun _ d dgst _ => some (toByte d :: dgst.take 32)
  ecdsa_verify := fun _ Q dgst sig =>
    match Q with
    | .infinity => -1
    | .affine x _ => if sig = toByte x :: dgst.take 32 then 1 else 0

end crypto

/-! ## `btc::wallet` : PKH addresses -/

namespace wallet

open crypto

/-- Constant `kRawPkhAddressLength`. -/
def kRawPkhAddressLength : Nat := 25
/-- Constant `kKeyHashLength`. -/
def kKeyHashLength : Nat := 20
/-- Constant `kChecksumOffset`. -/
def kChecksumOffset : Nat := 1 + kKeyHashLength
/-- Constant `kChecksumLength`. -/
def kChecksumLength : Nat := 4

/-- `std::equal(first1, first1 + count, first2)` on two memories. -/
def std_equal (first1 : Nat → Byte) (count : Nat) (first2 : Nat → Byte) : Bool :=
  (List.range count).all (fun i => first1 i == first2 i)

/-- `PkhAddress::IsValidAddress(address)`. -/
def PkhAddress.IsValidAddress (P : Primitives) (address : List Byte) : Bool :=
  if address.length ≠ kRawPkhAddressLength then false
  else
    match Sha256Sha256_ptr P (some (vecData address 0))
        (kRawPkhAddressLength - kChecksumLength) with
    | none => false
    | some d =>
      let checksum := written (List.replicate kSha256DigestLength (0 : Byte)) d
      let valid_checksum := std_equal (vecData checksum 0) kChecksumLength
        (fun i => vecData address 0 (kChecksumOffset + i))
      if !valid_checksum then false else true

/-- The type `NetworkId`. -/
abbrev NetworkId := Byte

/-- Constant `kMainNetwork`. -/
def kMainNetwork : NetworkId := 0x00
/-- Constant `kTestNetwork`. -/
def kTestNetwork : NetworkId := 0x6f
/-- Constant `kNamecoinNetwork`. -/
def kNamecoinNetwork : NetworkId := 0x34

/-- `CalculateChecksum(network_id, key_hash, checksum)`: the `kChecksumLength`
bytes copied to `checksum`, `none` for `false`. -/
def CalculateChecksum (P : Primitives) (network_id : NetworkId) (key_hash : List Byte) :
    Option (List Byte) :=
  match Digester.New kSha256Sha256 with
  | none => none
  | some digester =>
    let u1 := digester.Update_datum network_id
    if !u1.1 then none
    else
      let u2 := u1.2.Update key_hash
      if !u2.1 then none
      else
        match (u2.2.Finalize_ptr P).1 with
        | none => none
        | some d =>
          let digest := written (List.replicate kSha256DigestLength (0 : Byte)) d
          some (bytesAt (vecData digest 0) kChecksumLength)

/-- `HashPublicKey(pub_key, compress)`, given the value `serialized_key` of
`pub_key.SerializeAsPublicPoint(compress)`. -/
def HashPublicKey (P : Primitives) (serialized_key : List Byte) : List Byte :=
  if serialized_key.isEmpty then [] else Sha256RipeMd160 P serialized_key

/-- The class `PkhAddress`. -/
structure PkhAddress where
  network_id : NetworkId
  key_hash : List Byte
  deriving DecidableEq, Repr

namespace PkhAddress

/-- The default constructor `PkhAddress()`. -/
def new : PkhAddress := ⟨kMainNetwork, []⟩

/-- The constructor `PkhAddress(network, pub_key, compress)`, given the value
`serialized_key` of `pub_key.SerializeAsPublicPoint(compress)`. -/
def ofPublicKey (P : Primitives) (network : NetworkId) (serialized_key : List Byte) :
    PkhAddress :=
  ⟨network, HashPublicKey P serialized_key⟩

/-- `PkhAddress::IsSet()`. -/
def IsSet (a : PkhAddress) : Bool := !a.key_hash.isEmpty

/-- `PkhAddress::IsValidAddressBase58(address)`. -/
def IsValidAddressBase58 (P : Primitives) (address : List Char) : Bool :=
  if address.isEmpty then false
  else if !encode.IsBase58String address then false
  else IsValidAddress P (encode.Base58Decode address)

/-- `PkhAddress::Parse(address_raw)`: the result and the object afterwards. -/
def Parse (P : Primitives) (a : PkhAddress) (address_raw : List Byte) : Bool × PkhAddress :=
  if !IsValidAddress P address_raw then (false, a)
  else
    (true, ⟨vecData address_raw 0 0,
      bytesAt (fun i => vecData address_raw 0 (1 + i)) kKeyHashLength⟩)

/-- `PkhAddress::ParseBase58(address_b58)`: the result and the object afterwards. -/
def ParseBase58 (P : Primitives) (a : PkhAddress) (address_b58 : List Char) :
    Bool × PkhAddress :=
  if address_b58.isEmpty then (false, a)
  else if !encode.IsBase58String address_b58 then (false, a)
  else Parse P a (encode.Base58Decode address_b58)

/-- `PkhAddress::Serialize()`; the checksum is written at `&address[kChecksumOffset]`. -/
def Serialize (P : Primitives) (a : PkhAddress) : List Byte :=
  if !a.IsSet then []
  else
    let address := [a.network_id] ++ a.key_hash ++ List.replicate kChecksumLength (0 : Byte)
    match CalculateChecksum P a.network_id a.key_hash with
    | none => []
    | some c => address.take kChecksumOffset ++ written (address.drop kChecksumOffset) c

/-- `PkhAddress::SerializeBase58()`; `past` is the byte behind the storage of
the serialized address, which `Base58Encode` may read. -/
def SerializeBase58 (P : Primitives) (a : PkhAddress) (past : Byte) : List Char :=
  if !a.IsSet then []
  else
    let address_raw := Serialize P a
    if address_raw.isEmpty then [] else encode.Base58Encode address_raw past

/-- `PkhAddress::GenerateChecksum()`. -/
def GenerateChecksum (P : Primitives) (a : PkhAddress) : List Byte :=
  if !a.IsSet then []
  else
    let checksum := List.replicate kChecksumLength (0 : Byte)
    match CalculateChecksum P a.network_id a.key_hash with
    | none => []
    | some c => written checksum c

/-- The address objects a caller can obtain: a default-constructed one, one
built from a public key, and what `Parse` and `ParseBase58` leave behind. -/
inductive Reachable (P : Primitives) : PkhAddress → Prop
  | new : Reachable P PkhAddress.new
  | ofPublicKey (network : NetworkId) (serialized_key : List Byte) :
      Reachable P (PkhAddress.ofPublicKey P network serialized_key)
  | Parse (a : PkhAddress) (address_raw : List Byte) :
      Reachable P a → Reachable P (PkhAddress.Parse P a address_raw).2
  | ParseBase58 (a : PkhAddress) (address_b58 : List Char) :
      Reachable P a → Reachable P (PkhAddress.ParseBase58 P a address_b58).2

end PkhAddress

/-- A 25-byte address that is valid under the stand-in primitives: its last
four bytes repeat its first four. -/
def standInAddress : List Byte :=
  [1, 2, 3, 4, 5, 0, 0, 0, 0, 0, 0, 0, 0, 0, 0, 0, 0, 0, 0, 0, 0, 1, 2, 3, 4]

/-- The Base58 spelling of `standInAddress`. -/
def standInAddressBase58 : List Char := "QXEx2ZKHH9VXMnW8sWUsKU7cfhZb88tEX".toList

end wallet

/-! ## `btc::encode` : hexadecimal -/

namespace encode

/-- The array `kLowerHexSet`. -/
def kLowerHexSet : List Char := "0123456789abcdef".toList

/-- The memory behind `hex.data()` of a `std::string`: its characters, then the
terminating NUL. -/
def strChars (s : List Char) : Nat → Char := fun i => s.getD i (Char.ofNat 0)

/-- The C library `isdigit(c)`, in the C locale; false for a `char` outside ASCII. -/
def isdigit (c : Char) : Bool := decide ('0' ≤ c ∧ c ≤ '9')

/-- The C library `isxdigit(c)`, in the C locale; false for a `char` outside ASCII. -/
def isxdigit (c : Char) : Bool :=
  decide (('0' ≤ c ∧ c ≤ '9') ∨ ('a' ≤ c ∧ c ≤ 'f') ∨ ('A' ≤ c ∧ c ≤ 'F'))

/-- `HexEncodeInternal(data, size, hex, reverse)`: the return value and the memory at
`hex` afterwards. -/
def HexEncodeInternal (data : Nat → Byte) (size : Nat) (hex : List Char) (reverse : Bool) :
    Bool × List Char :=
  if reverse then
    (true, (List.range size).foldl (fun hex i =>
      (hex.set (i * 2)
        (kLowerHexSet.getD (((data (size - i - 1)).val >>> 4) &&& 0xF) (Char.ofNat 0))).set
        (i * 2 + 1) (kLowerHexSet.getD ((data (size - i - 1)).val &&& 0xF) (Char.ofNat 0))) hex)
  else
    (true, (List.range size).foldl (fun hex i =>
      (hex.set (i * 2)
        (kLowerHexSet.getD (((data i).val >>> 4) &&& 0xF) (Char.ofNat 0))).set
        (i * 2 + 1) (kLowerHexSet.getD ((data i).val &&& 0xF) (Char.ofNat 0))) hex)

/-- `HexDecodeCharacter(c, nibble, high)`: the return value and `*nibble` afterwards. -/
def HexDecodeCharacter (c : Char) (nibble : Byte) (high : Bool) : Bool × Byte :=
  let value : Option Byte :=
    if isdigit c then some (toByte (c.toNat - '0'.toNat))
    else if 'A' ≤ c ∧ c ≤ 'F' then some (toByte ((c.toNat - 'A'.toNat) + 10))
    else if 'a' ≤ c ∧ c ≤ 'f' then some (toByte ((c.toNat - 'a'.toNat) + 10))
    else none
  match value with
  | none => (false, nibble)
  | some value =>
    if high then (true, toByte ((nibble.val &&& 0xF) ||| ((value.val <<< 4) &&& 0xF0)))
    else (true, toByte ((nibble.val &&& 0xF0) ||| (value.val &&& 0xF)))

/-- The loop `for (size_t i = 0; i < hex_size; i += 2)` of `HexDecodeInternal`, from the
index `i` on with `n` iterations left: the return value (`true` when the loop ran to its
end) and the memory at `data` afterwards. -/
def HexDecodeInternal_loop (hex : Nat → Char) (data_size : Nat) (reverse : Bool) :
    Nat → Nat → List Byte → Bool × List Byte
  | 0, _, data => (true, data)
  | n + 1, i, data =>
    let didx := if reverse then data_size - (i / 2) - 1 else i / 2
    let r := HexDecodeCharacter (hex i) (data.getD didx 0) true
    if !r.1 then (false, data)
    else
      let data := data.set didx r.2
      let r := HexDecodeCharacter (hex (i + 1)) (data.getD didx 0) false
      if !r.1 then (false, data)
      else HexDecodeInternal_loop hex data_size reverse n (i + 2) (data.set didx r.2)

/-- `HexDecodeInternal(hex, hex_size, data, reverse)`: the return value and the memory
at `data` afterwards.  The loop makes `(hex_size + 1) / 2` iterations unless it returns
early. -/
def HexDecodeInternal (hex : Nat → Char) (hex_size : Nat) (data : List Byte)
    (reverse : Bool) : Bool × List Byte :=
  let data_size := hex_size / 2
  HexDecodeInternal_loop hex data_size reverse ((hex_size + 1) / 2) 0 data

/-- `IsHexString(hex)`. -/
def IsHexString (hex : List Char) : Bool :=
  if hex.isEmpty then true
  else if hex.length &&& 1 ≠ 0 then false
  else hex.all isxdigit

/-- `HexEncode(const uint8_t *data, size_t size, bool reverse)`. -/
def HexEncode_ptr (data : Nat → Byte) (size : Nat) (reverse : Bool) : List Char :=
  if size = 0 then []
  else
    let hex := List.replicate (size * 2) 'x'
    let r := HexEncodeInternal data size hex reverse
    if !r.1 then [] else r.2

/-- `HexEncode(const std::vector<uint8_t> &data, bool reverse)`. -/
def HexEncode (data : List Byte) (reverse : Bool) : List Char :=
  if data.isEmpty then []
  else
    let hex := List.replicate (data.length * 2) 'X'
    let r := HexEncodeInternal (vecData data 0) data.length hex reverse
    if !r.1 then [] else r.2

/-- `HexEncode(const std::string &data, bool reverse)`. -/
def HexEncode_string (data : List Char) (reverse : Bool) : List Char :=
  if data.isEmpty then []
  else
    let hex := List.replicate (data.length * 2) 'X'
    let r := HexEncodeInternal (crypto.strData data) data.length hex reverse
    if !r.1 then [] else r.2

/-- `HexDecode(const std::string &hex, bool reverse)`, the vector-returning overload. -/
def HexDecode (hex : List Char) (reverse : Bool) : List Byte :=
  if hex.isEmpty then []
  else if hex.length &&& 1 ≠ 0 then []
  else
    let data := List.replicate (hex.length / 2) (0 : Byte)
    let r := HexDecodeInternal (strChars hex) hex.length data reverse
    if !r.1 then [] else r.2

end encode

/-! ## `btc::encode` : where `Base58Encode` reads its input -/

namespace encode

open bn

/-- The indices at which the loop
`while (data[leading_zeros] == 0 && leading_zeros < size) leading_zeros++;` of
`Base58Encode` reads `data`, in order: each test of the condition reads
`data[leading_zeros]` first. -/
def encodeLeadingZeros_reads (data : Nat → Byte) (size : Nat) : Nat → Nat → List Nat
  | 0, _ => []
  | fuel + 1, leading_zeros =>
    leading_zeros ::
      (if data leading_zeros = 0 ∧ leading_zeros < size then
        encodeLeadingZeros_reads data size fuel (leading_zeros + 1)
      else [])

/-- The indices at which `Base58Encode(const uint8_t *data, size_t size)` reads `data`,
in order: those of the leading-zero loop, then, unless all bytes are zero, the `size`
bytes `BN_bin2bn(data, size, acc)` reads. -/
def Base58Encode_ptr_reads (data : Nat → Byte) (size : Nat) : List Nat :=
  if size = 0 then []
  else
    let reads := encodeLeadingZeros_reads data size (size + 1) 0
    let leading_zeros := encodeLeadingZeros data size (size + 1) 0
    if leading_zeros = size then reads
    else reads ++ List.range size

/-- The indices at which `Base58Encode(const std::vector<uint8_t> &data)` reads the
storage of `data`. -/
def Base58Encode_reads (data : List Byte) (past : Byte) : List Nat :=
  if data.isEmpty then [] else Base58Encode_ptr_reads (vecData data past) data.length

end encode

/-! ## `btc::crypto` : streaming digester, native calls that fail

The functions of the streaming digester above let an OpenSSL call fail only when it is
given a context with no digest set up.  The library can also fail for reasons outside that
model of a context (an allocation inside it, an engine error).  The definitions below
repeat the digester with each OpenSSL call taking a `NativeFault`, which says whether that
call fails and what a failing call leaves in the context it writes; with `NativeFault.ok`
they are the functions above. -/

namespace crypto

/-- What the library does at one OpenSSL call: `fails` tells whether the call fails for a
reason of its own, `left` what the failing call leaves in the context it writes. -/
structure NativeFault where
  fails : Bool
  left : EVP_MD_CTX → EVP_MD_CTX

/-- The call that does not fail for a reason of its own. -/
def NativeFault.ok : NativeFault := ⟨false, id⟩

/-- `EVP_DigestInit(ctx, EVP_sha256())`, which may fail. -/
def EVP_DigestInit_faulty (f : NativeFault) (ctx : EVP_MD_CTX) : Bool × EVP_MD_CTX :=
  if f.fails then (false, f.left ctx) else EVP_DigestInit ctx

/-- `EVP_MD_CTX_copy(out, src)`, which may fail. -/
def EVP_MD_CTX_copy_faulty (f : NativeFault) (out src : EVP_MD_CTX) : Bool × EVP_MD_CTX :=
  if f.fails then (false, f.left out) else EVP_MD_CTX_copy out src

/-- `EVP_DigestUpdate(ctx, data, data_size)`, which may fail. -/
def EVP_DigestUpdate_faulty (f : NativeFault) (ctx : EVP_MD_CTX) (data : Nat → Byte)
    (data_size : Nat) : Bool × EVP_MD_CTX :=
  if f.fails then (false, f.left ctx) else EVP_DigestUpdate ctx data data_size

/-- `EVP_DigestFinal(ctx, digest, nullptr)`, which may fail. -/
def EVP_DigestFinal_faulty (P : Primitives) (f : NativeFault) (ctx : EVP_MD_CTX) :
    Option (List Byte) × EVP_MD_CTX :=
  if f.fails then (none, f.left ctx) else EVP_DigestFinal P ctx

namespace NativeDigester

/-- `NativeDigester::Save()`; `f` is the fault of its `EVP_MD_CTX_copy`. -/
def Save_faulty (f : NativeFault) (d : NativeDigester) : Bool × NativeDigester :=
  let r := EVP_MD_CTX_copy_faulty f d.backup_ctx d.ctx
  if !r.1 then (false, { d with backup_ctx := r.2, has_backup := false })
  else (true, { d with backup_ctx := r.2, has_backup := true })

/-- `NativeDigester::Restore()`; `f` is the fault of its `EVP_MD_CTX_copy`. -/
def Restore_faulty (f : NativeFault) (d : NativeDigester) : Bool × NativeDigester :=
  if !d.has_backup then (false, d)
  else
    let r := EVP_MD_CTX_copy_faulty f d.ctx d.backup_ctx
    if !r.1 then (false, { d with ctx := r.2 })
    else (true, { d with ctx := r.2, ready := true, has_backup := false })

/-- `NativeDigester::Reset()`; `f` is the fault of its `EVP_DigestInit`. -/
def Reset_faulty (f : NativeFault) (d : NativeDigester) : Bool × NativeDigester :=
  let r := EVP_DigestInit_faulty f d.ctx
  if !r.1 then (false, { d with ctx := r.2, ready := false, has_backup := false })
  else (true, { d with ctx := r.2, ready := true, has_backup := false })

/-- `NativeDigester::Update(const uint8_t *data, size_t data_size)`; `f1` is the fault of
the OpenSSL call inside `Restore()` or `Reset()`, when one of them is called, `f2` that of
`EVP_DigestUpdate`. -/
def Update_faulty (f1 f2 : NativeFault) (d : NativeDigester) (data : Nat → Byte)
    (data_size : Nat) : Bool × NativeDigester :=
  let r :=
    if !d.ready && d.has_backup then Restore_faulty f1 d
    else if !d.ready then Reset_faulty f1 d
    else (true, d)
  if !r.1 then (false, r.2)
  else
    let d := r.2
    if data_size = 0 then (true, d)
    else
      let u := EVP_DigestUpdate_faulty f2 d.ctx data data_size
      if !u.1 then (false, { d with ctx := u.2, ready := false })
      else (true, { d with ctx := u.2 })

/-- `NativeDigester::Finalize(uint8_t *digest)`; `f1` is the fault of the OpenSSL call
inside `Restore()`, `Reset()` or `Save()`, `f2` that of `EVP_DigestFinal`. -/
def Finalize_faulty (P : Primitives) (f1 f2 : NativeFault) (d : NativeDigester) :
    Option (List Byte) × NativeDigester :=
  let r :=
    if !d.ready && d.has_backup then Restore_faulty f1 d
    else if !d.ready then Reset_faulty f1 d
    else (true, (Save_faulty f1 d).2)
  if !r.1 then (none, r.2)
  else
    let d := { r.2 with ready := false }
    let f := EVP_DigestFinal_faulty P f2 d.ctx
    (f.1, { d with ctx := f.2 })

/-- The two facts about the flags that every call keeps: `_ready` and `_has_backup` are
not both set, and a backup that is flagged holds a digest. -/
def Consistent (d : NativeDigester) : Bool :=
  !(d.ready && d.has_backup) && (!d.has_backup || d.backup_ctx.isSome)

/-- Two native digesters that no later call can tell apart: the flags agree, the main
contexts agree when `_ready` is set, and the backups agree when `_has_backup` is set. -/
def SameFuture (d e : NativeDigester) : Prop :=
  d.ready = e.ready ∧ d.has_backup = e.has_backup ∧
    (d.ready = true → d.ctx = e.ctx) ∧ (d.has_backup = true → d.backup_ctx = e.backup_ctx)

end NativeDigester

namespace Digester

/-- `Digester::Reset()`; `f` is the fault of the `EVP_DigestInit` call. -/
def Reset_faulty (f : NativeFault) (d : Digester) : Digester :=
  { d with digester := (NativeDigester.Reset_faulty f d.digester).2, byte_count := 0 }

/-- `Digester::Update(uint8_t datum)` with the faults of its two OpenSSL calls. -/
def Update_datum_faulty (f1 f2 : NativeFault) (d : Digester) (datum : Byte) :
    Bool × Digester :=
  let r := NativeDigester.Update_faulty f1 f2 d.digester (vecData [datum] 0) 1
  if !r.1 then (false, { d with digester := r.2 })
  else (true, { d with digester := r.2, byte_count := d.byte_count + 1 })

/-- `Digester::Update(const std::vector<uint8_t> &data)` with the faults of its two
OpenSSL calls. -/
def Update_faulty (f1 f2 : NativeFault) (d : Digester) (data : List Byte) : Bool × Digester :=
  if data.isEmpty then (true, d)
  else
    let r := NativeDigester.Update_faulty f1 f2 d.digester (vecData data 0) data.length
    if !r.1 then (false, { d with digester := r.2 })
    else (true, { d with digester := r.2, byte_count := d.byte_count + data.length })

/-- `Digester::Update(const uint8_t *data, size_t data_size)` with the faults of its two
OpenSSL calls; `data = none` is the null pointer. -/
def Update_ptr_faulty (f1 f2 : NativeFault) (d : Digester) (data : Option (Nat → Byte))
    (data_size : Nat) : Bool × Digester :=
  if data_size = 0 then (true, d)
  else
    match data with
    | none => (false, d)
    | some p =>
      let r := NativeDigester.Update_faulty f1 f2 d.digester p data_size
      if !r.1 then (false, { d with digester := r.2 })
      else (true, { d with digester := r.2, byte_count := d.byte_count + data_size })

/-- `Digester::Finalize(uint8_t *digest)` with a non-null `digest` and the faults of its
two OpenSSL calls. -/
def Finalize_ptr_faulty (P : Primitives) (f1 f2 : NativeFault) (d : Digester) :
    Option (List Byte) × Digester :=
  if d.algorithm = kSha256 then
    let f := NativeDigester.Finalize_faulty P f1 f2 d.digester
    (f.1, { d with digester := f.2 })
  else
    let f := NativeDigester.Finalize_faulty P f1 f2 d.digester
    let d := { d with digester := f.2 }
    match f.1 with
    | none => (none, d)
    | some i =>
      let intermediate_digest := written (List.replicate kSha256DigestLength (0 : Byte)) i
      if d.algorithm = kSha256Sha256 then
        (Sha256_ptr P (some (vecData intermediate_digest 0)) kSha256DigestLength, d)
      else (RipeMd160_ptr P (some (vecData intermediate_digest 0)) kSha256DigestLength, d)

/-- `Digester::Finalize()`, the vector-returning overload, with the faults of its two
OpenSSL calls. -/
def Finalize_faulty (P : Primitives) (f1 f2 : NativeFault) (d : Digester) :
    List Byte × Digester :=
  let f := NativeDigester.Finalize_faulty P f1 f2 d.digester
  let d := { d with digester := f.2 }
  match f.1 with
  | none => ([], d)
  | some w =>
    let digest := written (List.replicate kSha256DigestLength (0 : Byte)) w
    if d.algorithm = kSha256 then (digest, d)
    else if d.algorithm = kSha256Sha256 then (Sha256 P digest, d)
    else (RipeMd160 P digest, d)

/-- Two digesters that no later call can tell apart. -/
def SameFuture (d e : Digester) : Prop :=
  d.algorithm = e.algorithm ∧ d.digest_length = e.digest_length ∧
    d.byte_count = e.byte_count ∧ NativeDigester.SameFuture d.digester e.digester

end Digester

/-- A call made on a `Digester` by its owner, with the faults of the OpenSSL calls it
makes. -/
inductive FaultyCall
  | Count
  | Reset (f : NativeFault)
  | Update_datum (f1 f2 : NativeFault) (datum : Byte)
  | Update (f1 f2 : NativeFault) (data : List Byte)
  | Update_ptr (f1 f2 : NativeFault) (data : Option (Nat → Byte)) (data_size : Nat)
  | Finalize (f1 f2 : NativeFault)
  | Finalize_ptr (f1 f2 : NativeFault)

/-- What a call on a `Digester` returned; `written` is the result of
`Finalize(uint8_t *digest)`, `none` for `false`. -/
inductive FaultyRet
  | size (n : Nat)
  | void
  | bool (b : Bool)
  | digest (d : List Byte)
  | written (w : Option (List Byte))
  deriving DecidableEq, Repr

/-- One call on a digester: the object afterwards and what the call returned. -/
def Digester.call_faulty (P : Primitives) (d : Digester) : FaultyCall → Digester × FaultyRet
  | .Count => (d, .size d.Count)
  | .Reset f => (d.Reset_faulty f, .void)
  | .Update_datum f1 f2 datum =>
    ((d.Update_datum_faulty f1 f2 datum).2, .bool (d.Update_datum_faulty f1 f2 datum).1)
  | .Update f1 f2 data => ((d.Update_faulty f1 f2 data).2, .bool (d.Update_faulty f1 f2 data).1)
  | .Update_ptr f1 f2 data data_size =>
    ((d.Update_ptr_faulty f1 f2 data data_size).2,
      .bool (d.Update_ptr_faulty f1 f2 data data_size).1)
  | .Finalize f1 f2 => ((d.Finalize_faulty P f1 f2).2, .digest (d.Finalize_faulty P f1 f2).1)
  | .Finalize_ptr f1 f2 =>
    ((d.Finalize_ptr_faulty P f1 f2).2, .written (d.Finalize_ptr_faulty P f1 f2).1)

/-- A sequence of calls on a digester: the object afterwards and the results in order. -/
def Digester.run_faulty (P : Primitives) : Digester → List FaultyCall → Digester × List FaultyRet
  | d, [] => (d, [])
  | d, c :: cs =>
    let r := Digester.call_faulty P d c
    let rest := Digester.run_faulty P r.1 cs
    (rest.1, r.2 :: rest.2)

/-! ## `btc::crypto` : the debug assertions on private keys -/

/-- The condition `DASSERT(_is_private)` checks at the head of
`EccNativeKey::SerializePrivateKeyInfo()`. -/
def EccNativeKey.SerializePrivateKeyInfo_asserts (self : EccNativeKey) : Bool :=
  self.is_private

/-- The condition `DASSERT(_is_private)` checks at the head of
`EccNativeKey::SerializeAsPrivateScalar()`. -/
def EccNativeKey.SerializeAsPrivateScalar_asserts (self : EccNativeKey) : Bool :=
  self.is_private

/-- The conditions the three `DASSERT`s at the head of
`EccNativeKey::GenerateSignature(data, data_size)` check: `_is_private`,
`data != nullptr` and `data_size > 0`. -/
def EccNativeKey.GenerateSignature_asserts (self : EccNativeKey)
    (data : Option (Nat → Byte)) (data_size : Nat) : Bool :=
  self.is_private && data.isSome && decide (data_size > 0)

/-- The condition `DASSERT(_key->is_private())` checks in the constructor of
`EccPrivateKey`. -/
def EccPrivateKey.constructor_asserts (key : EccNativeKey) : Bool := key.is_private

end crypto

/-! ## Reference definitions, following the specification's wording -/

namespace encode

/-- The number of leading elements of `l` equal to `a`. -/
def leadingCount {α : Type} [DecidableEq α] (a : α) (l : List α) : Nat :=
  (l.takeWhile (fun x => decide (x = a))).length

/-- The bytes `b` read as a big-endian unsigned integer. -/
def bigEndianValue (b : List Byte) : Nat :=
  Nat.ofDigits 256 (b.reverse.map Fin.val)

/-- The minimal-length big-endian byte representation of `n` (empty for 0). -/
def minimalBigEndian (n : Nat) : List Byte :=
  (Nat.digits 256 n).reverse.map toByte

/-- The base-58 digits of `n`, most significant first, no leading zero digit. -/
def base58Digits (n : Nat) : List Nat :=
  (Nat.digits 58 n).reverse

/-- Character number `d` of the alphabet. -/
def alphabetChar (d : Nat) : Char := kBase58CharSet.getD d '-'

/-- The value of the character `c`: its position in the alphabet. -/
def alphabetValue (c : Char) : Nat := kBase58CharSet.indexOf c

end encode

namespace encode

/-- The value of a hexadecimal digit of either case; `none` for any other character. -/
def hexDigitValue (c : Char) : Option Nat :=
  if '0' ≤ c ∧ c ≤ '9' then Option.some (Char.toNat c - Char.toNat '0')
  else if 'A' ≤ c ∧ c ≤ 'F' then Option.some (Char.toNat c - Char.toNat 'A' + 10)
  else if 'a' ≤ c ∧ c ≤ 'f' then Option.some (Char.toNat c - Char.toNat 'a' + 10)
  else Option.none

/-- The byte two hexadecimal digits spell, the first one being the high nibble (0 when
either is not a digit). -/
def hexPairValue (h l : Char) : Byte :=
  toByte (16 * (hexDigitValue h).getD 0 + (hexDigitValue l).getD 0)

/-- Hexadecimal digit number `n`, in lower case. -/
def lowerHexDigit (n : Nat) : Char := kLowerHexSet.getD n (Char.ofNat 0)

/-- The bytes spelled by the pairs of characters of `s`, in order. -/
def hexPairs (s : List Char) : List Byte :=
  (List.range (s.length / 2)).map
    (fun p => hexPairValue (strChars s (2 * p)) (strChars s (2 * p + 1)))

/-- The two lower-case hexadecimal digits of each byte of `b`, in order. -/
def hexSpelling (b : List Byte) : List Char :=
  (List.range (2 * b.length)).map
    (fun j => if j % 2 = 0 then lowerHexDigit ((vecData b 0 (j / 2)).val / 16)
      else lowerHexDigit ((vecData b 0 (j / 2)).val % 16))

end encode

/-! ## Lemmas on the loops -/

theorem vecData_lt (v : List Byte) (past : Byte) (i : Nat) (h : i < v.length) :
    vecData v past i = v[i] := by
  unfold vecData
  exact List.getD_eq_getElem _ _ h

theorem vecData_ge (v : List Byte) (past : Byte) (i : Nat) (h : v.length ≤ i) :
    vecData v past i = past := by
  unfold vecData
  exact List.getD_eq_default _ _ h

theorem bytesAt_vecData (v : List Byte) (past : Byte) :
    bytesAt (vecData v past) v.length = v := by
  apply List.ext_getElem
  · simp [bytesAt]
  · intro i h1 h2
    simp only [bytesAt, List.getElem_map, List.getElem_range]
    exact vecData_lt v past i h2

namespace encode

open bn

theorem leadingCount_cons_self {α : Type} [DecidableEq α] (a : α) (l : List α) :
    leadingCount a (a :: l) = leadingCount a l + 1 := by
  simp [leadingCount, List.takeWhile]

theorem leadingCount_cons_ne {α : Type} [DecidableEq α] (a x : α) (l : List α) (h : x ≠ a) :
    leadingCount a (x :: l) = 0 := by
  simp [leadingCount, List.takeWhile, h]

theorem leadingCount_le {α : Type} [DecidableEq α] (a : α) (l : List α) :
    leadingCount a l ≤ l.length := by
  unfold leadingCount
  exact (List.takeWhile_sublist _).length_le

theorem encodeLeadingZeros_eq (b : List Byte) (past : Byte) :
    ∀ fuel lz, b.length + 1 ≤ lz + fuel → lz ≤ b.length →
      encodeLeadingZeros (vecData b past) b.length fuel lz
        = lz + leadingCount 0 (b.drop lz) := by
  intro fuel
  induction fuel with
  | zero =>
    intro lz h1 h2
    omega
  | succ fuel ih =>
    intro lz h1 h2
    rw [encodeLeadingZeros]
    by_cases hlt : lz < b.length
    · have hd : b.drop lz = b[lz] :: b.drop (lz + 1) := List.drop_eq_getElem_cons hlt
      have hv : vecData b past lz = b[lz] := vecData_lt b past lz hlt
      by_cases hz : b[lz] = 0
      · rw [if_pos ⟨by rw [hv, hz], hlt⟩, ih (lz + 1) (by omega) (by omega), hd, hz,
          leadingCount_cons_self]
        omega
      · rw [if_neg (by rw [hv]; exact fun h => hz h.1), hd, leadingCount_cons_ne _ _ _ hz]
        rfl
    · have : lz = b.length := by omega
      rw [if_neg (fun h => hlt h.2)]
      subst this
      simp [leadingCount]

theorem decodeLeadingZeros_eq (s : List Char) :
    ∀ fuel lz, s.length + 1 ≤ lz + fuel → lz ≤ s.length →
      decodeLeadingZeros s fuel lz = lz + leadingCount '1' (s.drop lz) := by
  intro fuel
  induction fuel with
  | zero =>
    intro lz h1 h2
    omega
  | succ fuel ih =>
    intro lz h1 h2
    rw [decodeLeadingZeros]
    by_cases hlt : lz < s.length
    · have hd : s.drop lz = s[lz] :: s.drop (lz + 1) := List.drop_eq_getElem_cons hlt
      have hv : s.getD lz (Char.ofNat 0) = s[lz] := List.getD_eq_getElem _ _ hlt
      by_cases hz : s[lz] = '1'
      · rw [if_pos ⟨by rw [hv, hz], hlt⟩, ih (lz + 1) (by omega) (by omega), hd, hz,
          leadingCount_cons_self]
        omega
      · rw [if_neg (by rw [hv]; exact fun h => hz h.1), hd, leadingCount_cons_ne _ _ _ hz]
        rfl
    · have : lz = s.length := by omega
      rw [if_neg (fun h => hlt h.2)]
      subst this
      simp [leadingCount]

theorem encodeDivLoop_eq :
    ∀ fuel acc values, acc ≤ fuel →
      encodeDivLoop fuel acc values = values ++ (Nat.digits 58 acc).map toByte := by
  intro fuel
  induction fuel with
  | zero =>
    intro acc values h
    have : acc = 0 := by omega
    subst this
    simp [encodeDivLoop]
  | succ fuel ih =>
    intro acc values h
    rw [encodeDivLoop]
    by_cases h0 : acc = 0
    · subst h0
      simp [BN_is_zero]
    · have hpos : 0 < acc := Nat.pos_of_ne_zero h0
      have hlt : acc % 58 < 58 := Nat.mod_lt _ (by decide)
      have hw : BN_get_word (BN_div acc 58).2 % 2 ^ 32 = acc % 58 := by
        have h64 : acc % 58 < 2 ^ 64 := by omega
        simp only [BN_div, BN_get_word, if_pos h64]
        omega
      have hdiv : acc / 58 ≤ fuel := by
        have : acc / 58 < acc := Nat.div_lt_self hpos (by decide)
        omega
      simp only [BN_is_zero, beq_iff_eq, h0, if_false, hw]
      rw [show (BN_div acc 58).1 = acc / 58 from rfl, ih _ _ hdiv,
        Nat.digits_def' (by decide) hpos]
      simp

theorem foldl_base_eq_ofDigits (base : Nat) (l : List Nat) :
    l.foldl (fun acc d => acc * base + d) 0 = Nat.ofDigits base l.reverse := by
  induction l using List.reverseRecOn with
  | nil => simp
  | append_singleton l a ih =>
    rw [List.foldl_append, List.reverse_append]
    simp only [List.foldl_cons, List.foldl_nil, List.reverse_cons, List.reverse_nil,
      List.nil_append, List.singleton_append, Nat.ofDigits_cons]
    rw [ih]
    ring

theorem ofDigits_append_zeros (base : Nat) (l : List Nat) (k : Nat) :
    Nat.ofDigits base (l ++ List.replicate k 0) = Nat.ofDigits base l := by
  have hz : Nat.ofDigits base (List.replicate k 0) = 0 := by
    induction k with
    | zero => simp
    | succ k ih => rw [List.replicate_succ, Nat.ofDigits_cons, ih]; simp
  rw [Nat.ofDigits_append, hz]
  simp

theorem BN_bin2bn_vecData (b : List Byte) (past : Byte) :
    BN_bin2bn (vecData b past) b.length = bigEndianValue b := by
  unfold BN_bin2bn bigEndianValue
  rw [bytesAt_vecData, List.map_reverse, ← foldl_base_eq_ofDigits, List.foldl_map]

theorem decodeAccumulate_eq (values : List Byte) :
    decodeAccumulate values = Nat.ofDigits 58 (values.reverse.map Fin.val) := by
  unfold decodeAccumulate
  rw [List.map_reverse, ← foldl_base_eq_ofDigits, List.foldl_map]
  congr 1
  funext acc v
  have hv : v.val < 4294967296 := by have := v.isLt; omega
  simp [BN_add, BN_mul, hv]

theorem numBytesLoop_eq :
    ∀ fuel a, a ≤ fuel → numBytesLoop fuel a = (Nat.digits 256 a).length := by
  intro fuel
  induction fuel with
  | zero =>
    intro a h
    have : a = 0 := by omega
    subst this
    simp [numBytesLoop]
  | succ fuel ih =>
    intro a h
    rw [numBytesLoop]
    by_cases h0 : a = 0
    · subst h0
      simp
    · have hpos : 0 < a := Nat.pos_of_ne_zero h0
      have hdiv : a / 256 ≤ fuel := by
        have : a / 256 < a := Nat.div_lt_self hpos (by decide)
        omega
      rw [if_neg h0, ih _ hdiv, Nat.digits_def' (by decide) hpos]
      simp

theorem BN_num_bytes_eq (a : Nat) : BN_num_bytes a = (Nat.digits 256 a).length :=
  numBytesLoop_eq a a (Nat.le_refl a)

theorem toByte_mod (a : Nat) : toByte (a % 256) = toByte a := by
  unfold toByte
  apply Fin.ext
  simp

theorem bn2bin_zero (len : Nat) : bn2bin len 0 = List.replicate len 0 := by
  induction len with
  | zero => rfl
  | succ len ih =>
    rw [bn2bin, Nat.zero_div, ih, List.replicate_succ']
    rfl

theorem bn2bin_eq :
    ∀ len a, (Nat.digits 256 a).length ≤ len →
      bn2bin len a
        = List.replicate (len - (Nat.digits 256 a).length) 0 ++ minimalBigEndian a := by
  intro len
  induction len with
  | zero =>
    intro a h
    have h0 : Nat.digits 256 a = [] := List.eq_nil_of_length_eq_zero (by omega)
    simp [bn2bin, minimalBigEndian, h0]
  | succ len ih =>
    intro a h
    by_cases h0 : a = 0
    · subst h0
      rw [bn2bin_zero]
      simp [minimalBigEndian]
    · have hpos : 0 < a := Nat.pos_of_ne_zero h0
      have hd := Nat.digits_def' (b := 256) (by decide) hpos
      rw [hd] at h
      simp only [List.length_cons] at h
      rw [bn2bin, ih (a / 256) (by omega)]
      simp only [minimalBigEndian, hd, List.length_cons, List.reverse_cons, List.map_append,
        List.map_cons, List.map_nil, toByte_mod, List.append_assoc]
      congr 2
      omega

theorem BN_bn2binpad_eq (a k : Nat) :
    BN_bn2binpad a (List.replicate (BN_num_bytes a + k) 0) (BN_num_bytes a + k)
      = (((BN_num_bytes a + k : Nat) : Int), List.replicate k 0 ++ minimalBigEndian a) := by
  unfold BN_bn2binpad
  rw [if_neg (by omega), bn2bin_eq _ _ (by rw [BN_num_bytes_eq]; omega)]
  rw [← BN_num_bytes_eq]
  simp

/-! ## Lemmas on the alphabet -/

set_option maxRecDepth 100000 in
theorem ToBase58Char_facts :
    ∀ d, d < 58 →
      (IsBase58Character (ToBase58Char (toByte d)) = true
        ∧ Base58CharToValue (ToBase58Char (toByte d)) = toByte d
        ∧ ToBase58Char (toByte d) = alphabetChar d
        ∧ (ToBase58Char (toByte d) = '1' → d = 0)) := by
  decide

set_option maxRecDepth 100000 in
theorem alphabet_facts :
    ∀ c ∈ kBase58CharSet,
      (IsBase58Character c = true ∧ (Base58CharToValue c).val = alphabetValue c) := by
  decide

theorem leadingCount_eq_length {α : Type} [DecidableEq α] (a : α) (l : List α)
    (h : leadingCount a l = l.length) : l = List.replicate l.length a := by
  induction l with
  | nil => rfl
  | cons x l ih =>
    by_cases hx : x = a
    · subst hx
      rw [leadingCount_cons_self] at h
      rw [List.length_cons, List.replicate_succ, ← ih (by simpa using h)]
    · rw [leadingCount_cons_ne _ _ _ hx] at h
      simp at h

theorem leadingCount_replicate_append {α : Type} [DecidableEq α] (a : α) (k : Nat)
    (l : List α) (h : ∀ x, l.head? = some x → x ≠ a) :
    leadingCount a (List.replicate k a ++ l) = k := by
  induction k with
  | zero =>
    cases l with
    | nil => rfl
    | cons x l => exact leadingCount_cons_ne _ _ _ (h x rfl)
  | succ k ih =>
    rw [List.replicate_succ, List.cons_append, leadingCount_cons_self, ih]

theorem split_leading {α : Type} [DecidableEq α] (a : α) (l : List α) :
    ∃ rest, l = List.replicate (leadingCount a l) a ++ rest
      ∧ ∀ x, rest.head? = some x → x ≠ a := by
  induction l with
  | nil => exact ⟨[], rfl, by simp⟩
  | cons y l ih =>
    by_cases hy : y = a
    · subst hy
      obtain ⟨rest, h1, h2⟩ := ih
      refine ⟨rest, ?_, h2⟩
      rw [leadingCount_cons_self, List.replicate_succ, List.cons_append, ← h1]
    · refine ⟨y :: l, ?_, ?_⟩
      · rw [leadingCount_cons_ne _ _ _ hy]
        rfl
      · intro x hx
        simp only [List.head?_cons, Option.some.injEq] at hx
        exact hx ▸ hy

theorem bigEndianValue_replicate_zero_append (k : Nat) (rest : List Byte) :
    bigEndianValue (List.replicate k 0 ++ rest) = bigEndianValue rest := by
  unfold bigEndianValue
  rw [List.reverse_append, List.map_append, List.reverse_replicate, List.map_replicate]
  exact ofDigits_append_zeros 256 _ k

/-! ## The codec against its reference definitions -/

theorem Base58Encode_eq (b : List Byte) (past : Byte) :
    Base58Encode b past
      = List.replicate (leadingCount 0 b) '1'
          ++ (base58Digits (bigEndianValue b)).map alphabetChar := by
  unfold Base58Encode
  cases hb : b with
  | nil => simp [leadingCount, base58Digits, bigEndianValue]
  | cons x t =>
    rw [← hb]
    have hne : b.length ≠ 0 := by rw [hb]; simp
    have hemp : b.isEmpty = false := by rw [hb]; rfl
    have hlz : encodeLeadingZeros (vecData b past) b.length (b.length + 1) 0
        = leadingCount 0 b := by
      rw [encodeLeadingZeros_eq b past _ 0 (by omega) (by omega)]
      simp
    simp only [hemp, Bool.false_eq_true, if_false, Base58Encode_ptr, if_neg hne, hlz]
    by_cases hall : leadingCount 0 b = b.length
    · rw [if_pos hall]
      have hrep := leadingCount_eq_length 0 b hall
      have hval : bigEndianValue b = 0 := by
        rw [hrep]
        have := bigEndianValue_replicate_zero_append b.length []
        simp only [List.append_nil] at this
        rw [this]
        simp [bigEndianValue]
      simp [hval, base58Digits, hall]
    · rw [if_neg hall, BN_bin2bn_vecData, encodeDivLoop_eq _ _ _ (Nat.le_refl _)]
      congr 1
      simp only [List.nil_append, base58Digits, List.map_reverse, List.map_map]
      congr 1
      apply List.map_congr_left
      intro d hd
      exact (ToBase58Char_facts d (Nat.digits_lt_base (by decide) hd)).2.2.1

theorem Base58Decode_eq (s : List Char) (h : IsBase58String s = true) :
    Base58Decode s
      = List.replicate (leadingCount '1' s) 0
          ++ minimalBigEndian (decodeAccumulate (s.map Base58CharToValue)) := by
  unfold Base58Decode
  cases hs : s with
  | nil => simp [IsBase58String, leadingCount, decodeAccumulate, minimalBigEndian]
  | cons x t =>
    rw [← hs]
    have hemp : s.isEmpty = false := by rw [hs]; rfl
    have hlz : decodeLeadingZeros s (s.length + 1) 0 = leadingCount '1' s := by
      rw [decodeLeadingZeros_eq s _ 0 (by omega) (by omega)]
      simp
    simp only [h, Bool.not_true, Bool.false_eq_true, if_false, hemp, hlz]
    by_cases hall : leadingCount '1' s = s.length
    · rw [if_pos hall]
      have hrep := leadingCount_eq_length '1' s hall
      have hval : decodeAccumulate (s.map Base58CharToValue) = 0 := by
        rw [decodeAccumulate_eq, hrep, List.map_replicate, List.reverse_replicate,
          List.map_replicate]
        have h0 : (Base58CharToValue '1').val = 0 := by decide
        rw [h0]
        have := ofDigits_append_zeros 58 [] s.length
        simpa using this
      simp [hval, minimalBigEndian]
    · rw [if_neg hall, BN_bn2binpad_eq]
      simp only
      split
      · rename_i h0
        have h0' : BN_num_bytes (decodeAccumulate (s.map Base58CharToValue))
            + leadingCount '1' s = 0 := by exact_mod_cast h0
        have hk : leadingCount '1' s = 0 := by omega
        have hn : BN_num_bytes (decodeAccumulate (s.map Base58CharToValue)) = 0 := by omega
        rw [BN_num_bytes_eq] at hn
        have := List.eq_nil_of_length_eq_zero hn
        simp [hk, minimalBigEndian, this]
      · rfl

theorem IsBase58String_iff (s : List Char) :
    IsBase58String s = true ↔ ∀ c ∈ s, IsBase58Character c = true := by
  unfold IsBase58String
  cases s with
  | nil => simp
  | cons x t => simp

theorem base58Digits_lt (n d : Nat) (h : d ∈ base58Digits n) : d < 58 := by
  unfold base58Digits at h
  exact Nat.digits_lt_base (by decide) (List.mem_reverse.mp h)

theorem copy_n_eq :
    ∀ (first : List Byte) (count : Nat) (result : List Byte),
      count ≤ first.length → count ≤ result.length →
        copy_n first count result = first.take count ++ result.drop count := by
  intro first
  induction first with
  | nil =>
    intro count result h1 _
    have : count = 0 := by simpa using h1
    subst this
    cases result <;> simp [copy_n]
  | cons x first ih =>
    intro count result h1 h2
    cases count with
    | zero => cases result <;> simp [copy_n]
    | succ count =>
      cases result with
      | nil => simp at h2
      | cons y result =>
        simp only [List.length_cons, Nat.add_le_add_iff_right] at h1 h2
        simp [copy_n, ih count result h1 h2]

set_option maxRecDepth 100000 in
theorem IsBase58Character_mem (c : Char) (h : IsBase58Character c = true) :
    c ∈ kBase58CharSet := by
  have hc : c = Char.ofNat c.toNat := (Char.ofNat_toNat c).symm
  have key : ∀ n, n < 128 → IsBase58Character (Char.ofNat n) = true →
      Char.ofNat n ∈ kBase58CharSet := by decide
  have hlt : c.toNat < 128 := by
    by_contra hge
    have hz : ¬ c ≤ 'z' := by
      intro hle
      have : c.toNat ≤ 'z'.toNat := hle
      have : 'z'.toNat = 122 := by decide
      omega
    have h9 : ¬ c ≤ '9' := fun hle => hz (le_trans hle (by decide))
    have hZ : ¬ c ≤ 'Z' := fun hle => hz (le_trans hle (by decide))
    simp [IsBase58Character, h9, hZ, hz] at h
  rw [hc]
  exact key c.toNat hlt (hc ▸ h)

theorem Base58Decode_invalid (s : List Char) (h : ∃ c ∈ s, c ∉ kBase58CharSet) :
    IsBase58String s = false := by
  obtain ⟨c, hc, hnot⟩ := h
  cases hv : IsBase58String s with
  | false => rfl
  | true =>
    exact absurd (IsBase58Character_mem c ((IsBase58String_iff s).mp hv c hc)) hnot

end encode

/-! ## Claims on the Base58 codec -/

namespace encode

/-- C8: a string with a character outside the alphabet is rejected:
`Base58Decode` returns the empty sequence without a single call into the
big-number backend, and the buffer variant returns 0 and leaves the buffer as
it was. -/
theorem C8_Base58Decode_rejects_non_alphabet (s : List Char)
    (h : ∃ c ∈ s, c ∉ kBase58CharSet) :
    Base58Decode s = [] ∧ Base58Decode_bnCalls s = [] ∧
      ∀ (buffer : List Byte) (buffer_size : Nat),
        Base58Decode_buf s buffer buffer_size = (0, buffer) := by
  have hv := Base58Decode_invalid s h
  have hd : Base58Decode s = [] := by simp [Base58Decode, hv]
  refine ⟨hd, by simp [Base58Decode_bnCalls, hv], ?_⟩
  intro buffer buffer_size
  simp [Base58Decode_buf, hd]

/-- Witness for C8 at the string `1O`. -/
theorem C8_Base58Decode_rejects_non_alphabet_witness :
    (∃ c ∈ ['1', 'O'], c ∉ kBase58CharSet) ∧
    Base58Decode ['1', 'O'] = [] ∧ Base58Decode_bnCalls ['1', 'O'] = [] ∧
      ∀ (buffer : List Byte) (buffer_size : Nat),
        Base58Decode_buf ['1', 'O'] buffer buffer_size = (0, buffer) :=
  ⟨by decide, C8_Base58Decode_rejects_non_alphabet ['1', 'O'] (by decide)⟩

/-- C9: for every string and every `buffer_size`, zero and undersized ones
included, the buffer variant returns the length of `Base58Decode(s)`. -/
theorem C9_Base58Decode_buf_reports_full_length (s : List Char) (buffer : List Byte)
    (buffer_size : Nat) :
    (Base58Decode_buf s buffer buffer_size).1 = (Base58Decode s).length := by
  unfold Base58Decode_buf
  by_cases h0 : buffer_size = 0
  · simp [h0]
  · by_cases he : (Base58Decode s).isEmpty = true
    · have : Base58Decode s = [] := List.isEmpty_iff.mp he
      simp [h0, this]
    · simp [h0, he]

/-- C10: when the buffer holds at least `buffer_size` bytes, after the buffer
variant of `Base58Decode` its first `min(buffer_size, n)` bytes are those of
`Base58Decode(s)` (`n` its length) and all others are unchanged. -/
theorem C10_Base58Decode_buf_frame (s : List Char) (buffer : List Byte) (buffer_size : Nat)
    (h : buffer_size ≤ buffer.length) :
    ((Base58Decode_buf s buffer buffer_size).2).length = buffer.length ∧
    ((Base58Decode_buf s buffer buffer_size).2).take (min buffer_size (Base58Decode s).length)
      = (Base58Decode s).take (min buffer_size (Base58Decode s).length) ∧
    ((Base58Decode_buf s buffer buffer_size).2).drop (min buffer_size (Base58Decode s).length)
      = buffer.drop (min buffer_size (Base58Decode s).length) := by
  unfold Base58Decode_buf
  by_cases h0 : buffer_size = 0
  · simp [h0]
  · by_cases he : (Base58Decode s).isEmpty = true
    · have : Base58Decode s = [] := List.isEmpty_iff.mp he
      simp [h0, this]
    · simp only [h0, he, if_false, Bool.false_eq_true]
      have hm1 : min buffer_size (Base58Decode s).length ≤ (Base58Decode s).length :=
        Nat.min_le_right _ _
      have hm2 : min buffer_size (Base58Decode s).length ≤ buffer.length :=
        le_trans (Nat.min_le_left _ _) h
      rw [copy_n_eq _ _ _ hm1 hm2]
      refine ⟨?_, ?_, ?_⟩
      · simp only [List.length_append, List.length_take, List.length_drop]
        omega
      · rw [List.take_append_of_le_length (by simp [List.length_take])]
        rw [List.take_take]
        simp
      · rw [List.drop_append_of_le_length (by simp [List.length_take])]
        have : (List.take (min buffer_size (Base58Decode s).length) (Base58Decode s)).length
            = min buffer_size (Base58Decode s).length := by
          simp [List.length_take]
        rw [List.drop_eq_nil_of_le (by omega)]
        simp

/-- Witness for C10: the string `12z` decoded into a four-byte buffer with
`buffer_size = 1`. -/
theorem C10_Base58Decode_buf_frame_witness :
    (1 ≤ ([9, 9, 9, 9] : List Byte).length) ∧
    (((Base58Decode_buf ['1', '2', 'z'] [9, 9, 9, 9] 1).2).length
        = ([9, 9, 9, 9] : List Byte).length ∧
      ((Base58Decode_buf ['1', '2', 'z'] [9, 9, 9, 9] 1).2).take
          (min 1 (Base58Decode ['1', '2', 'z']).length)
        = (Base58Decode ['1', '2', 'z']).take (min 1 (Base58Decode ['1', '2', 'z']).length) ∧
      ((Base58Decode_buf ['1', '2', 'z'] [9, 9, 9, 9] 1).2).drop
          (min 1 (Base58Decode ['1', '2', 'z']).length)
        = ([9, 9, 9, 9] : List Byte).drop (min 1 (Base58Decode ['1', '2', 'z']).length)) ∧
    Base58Decode_buf ['1', '2', 'z'] [9, 9, 9, 9] 1 = (2, [0, 9, 9, 9]) :=
  ⟨by decide, C10_Base58Decode_buf_frame ['1', '2', 'z'] [9, 9, 9, 9] 1 (by decide),
    by decide⟩

end encode

/-! ## Lemmas on the digests and the digester -/

theorem bytesAt_vecData_take (v : List Byte) (past : Byte) (n : Nat) (h : n ≤ v.length) :
    bytesAt (vecData v past) n = v.take n := by
  apply List.ext_getElem
  · simp [bytesAt, List.length_take, h]
  · intro i h1 h2
    have hi : i < n := by simpa [bytesAt] using h1
    simp only [bytesAt, List.getElem_map, List.getElem_range, List.getElem_take]
    exact vecData_lt v past i (by omega)

namespace crypto

theorem bytesAt_data (m : List Byte) :
    bytesAt (if m.isEmpty then kNullByteFill else vecData m 0) m.length = m := by
  cases m with
  | nil => rfl
  | cons x t => exact bytesAt_vecData (x :: t) 0

theorem written_full (n : Nat) (d : List Byte) (h : d.length = n) :
    written (List.replicate n 0) d = d := by
  unfold written
  rw [List.drop_eq_nil_of_le (by simp [h])]
  simp

theorem bytesAt_written_full (n : Nat) (d : List Byte) (h : d.length = n) :
    bytesAt (vecData (written (List.replicate n 0) d) 0) n = d := by
  rw [written_full n d h]
  subst h
  exact bytesAt_vecData d 0

namespace NativeDigester

theorem native_Finalize_ready (P : Primitives) (m : List Byte) (b : EVP_MD_CTX) (hb : Bool) :
    Finalize P ⟨some m, b, true, hb⟩ = (P.SHA256 m, ⟨none, some m, false, true⟩) := by
  simp [Finalize, Save, EVP_MD_CTX_copy, EVP_DigestFinal]

theorem native_Finalize_needsRestore (P : Primitives) (c : EVP_MD_CTX) (m : List Byte) :
    Finalize P ⟨c, some m, false, true⟩ = (P.SHA256 m, ⟨none, some m, false, false⟩) := by
  simp [Finalize, Restore, EVP_MD_CTX_copy, EVP_DigestFinal]

theorem native_Finalize_invalid (P : Primitives) (c b : EVP_MD_CTX) :
    Finalize P ⟨c, b, false, false⟩ = (P.SHA256 [], ⟨none, b, false, false⟩) := by
  simp [Finalize, Reset, EVP_DigestInit, EVP_DigestFinal]

theorem native_Update_ready (m : List Byte) (b : EVP_MD_CTX) (hb : Bool) (data : Nat → Byte)
    (n : Nat) (hn : n ≠ 0) :
    Update ⟨some m, b, true, hb⟩ data n = (true, ⟨some (m ++ bytesAt data n), b, true, hb⟩) := by
  simp [Update, EVP_DigestUpdate, hn]

theorem native_Update_needsRestore (c : EVP_MD_CTX) (m : List Byte) (data : Nat → Byte)
    (n : Nat) (hn : n ≠ 0) :
    Update ⟨c, some m, false, true⟩ data n
      = (true, ⟨some (m ++ bytesAt data n), some m, true, false⟩) := by
  simp [Update, Restore, EVP_MD_CTX_copy, EVP_DigestUpdate, hn]

theorem native_Update_invalid (c b : EVP_MD_CTX) (data : Nat → Byte) (n : Nat) (hn : n ≠ 0) :
    Update ⟨c, b, false, false⟩ data n = (true, ⟨some (bytesAt data n), b, true, false⟩) := by
  simp [Update, Reset, EVP_DigestInit, EVP_DigestUpdate, hn]

end NativeDigester

theorem Sha256_eq (P : Primitives) (m : List Byte) :
    Sha256 P m = (match P.SHA256 m with | none => [] | some d => d) := by
  unfold Sha256 DigestImpl
  rw [bytesAt_data]
  cases h : P.SHA256 m with
  | none => rfl
  | some d => exact written_full _ d (P.SHA256_length m d h)

theorem Sha256Sha256_eq (P : Primitives) (m : List Byte) :
    Sha256Sha256 P m = (match P.SHA256 m with
      | none => []
      | some d => (match P.SHA256 d with | none => [] | some e => e)) := by
  unfold Sha256Sha256 DoubleDigestImpl
  rw [bytesAt_data]
  cases h : P.SHA256 m with
  | none => rfl
  | some d =>
    simp only
    rw [bytesAt_written_full kSha256DigestLength d (P.SHA256_length m d h)]
    cases h2 : P.SHA256 d with
    | none => rfl
    | some e => exact written_full _ e (P.SHA256_length d e h2)

theorem Sha256Sha256_ptr_eq (P : Primitives) (a : List Byte) (n : Nat) (h : n ≤ a.length) :
    Sha256Sha256_ptr P (some (vecData a 0)) n = (match P.SHA256 (a.take n) with
      | none => none
      | some d => P.SHA256 d) := by
  unfold Sha256Sha256_ptr DoubleDigestImpl_ptr
  simp only [Option.isNone_some, Bool.false_eq_true, false_and, if_false, Option.getD_some]
  rw [bytesAt_vecData_take _ _ _ h]
  cases h1 : P.SHA256 (a.take n) with
  | none => rfl
  | some d =>
    simp only
    rw [bytesAt_written_full kSha256DigestLength d (P.SHA256_length _ d h1)]

theorem Digester.Finalize_of_native (P : Primitives) (algorithm : DigestAlgorithm)
    (len cnt : Nat) (n : NativeDigester) :
    (Digester.mk algorithm len cnt n).Finalize P
      = (Digester.finish P algorithm (NativeDigester.Finalize P n).1,
        Digester.mk algorithm len cnt (NativeDigester.Finalize P n).2) := by
  simp only [Digester.Finalize]
  cases (NativeDigester.Finalize P n).1 with
  | none => rfl
  | some w =>
    simp only [Digester.finish]
    split
    · rfl
    · split <;> rfl

theorem Digester.Finalize_ptr_of_native (P : Primitives) (algorithm : DigestAlgorithm)
    (len cnt : Nat) (n : NativeDigester) :
    (Digester.mk algorithm len cnt n).Finalize_ptr P
      = (Digester.finish_ptr P algorithm (NativeDigester.Finalize P n).1,
        Digester.mk algorithm len cnt (NativeDigester.Finalize P n).2) := by
  simp only [Digester.Finalize_ptr, Digester.finish_ptr]
  split
  · rfl
  · cases (NativeDigester.Finalize P n).1 with
    | none => rfl
    | some w =>
      simp only
      split <;> rfl

theorem Digester.Update_ready (algorithm : DigestAlgorithm) (len cnt : Nat) (m : List Byte)
    (b : EVP_MD_CTX) (hb : Bool) (data : List Byte) :
    (Digester.mk algorithm len cnt ⟨some m, b, true, hb⟩).Update data
      = (true, ⟨algorithm, len, cnt + data.length, ⟨some (m ++ data), b, true, hb⟩⟩) := by
  cases data with
  | nil => simp [Digester.Update]
  | cons x t =>
    have hn : (x :: t).length ≠ 0 := by simp
    simp only [Digester.Update, List.isEmpty_cons, Bool.false_eq_true, if_false,
      NativeDigester.native_Update_ready _ _ _ _ _ hn, bytesAt_vecData, Bool.not_true]

theorem Digester.Update_needsRestore (algorithm : DigestAlgorithm) (len cnt : Nat)
    (c : EVP_MD_CTX) (m : List Byte) (data : List Byte) (hd : data ≠ []) :
    (Digester.mk algorithm len cnt ⟨c, some m, false, true⟩).Update data
      = (true, ⟨algorithm, len, cnt + data.length, ⟨some (m ++ data), some m, true, false⟩⟩) := by
  cases data with
  | nil => exact absurd rfl hd
  | cons x t =>
    have hn : (x :: t).length ≠ 0 := by simp
    simp only [Digester.Update, List.isEmpty_cons, Bool.false_eq_true, if_false,
      NativeDigester.native_Update_needsRestore _ _ _ _ hn, bytesAt_vecData, Bool.not_true]

theorem Digester.Update_invalid (algorithm : DigestAlgorithm) (len cnt : Nat)
    (c b : EVP_MD_CTX) (data : List Byte) (hd : data ≠ []) :
    (Digester.mk algorithm len cnt ⟨c, b, false, false⟩).Update data
      = (true, ⟨algorithm, len, cnt + data.length, ⟨some data, b, true, false⟩⟩) := by
  cases data with
  | nil => exact absurd rfl hd
  | cons x t =>
    have hn : (x :: t).length ≠ 0 := by simp
    simp only [Digester.Update, List.isEmpty_cons, Bool.false_eq_true, if_false,
      NativeDigester.native_Update_invalid _ _ _ _ hn, bytesAt_vecData, Bool.not_true]

theorem Digest_kSha256 (P : Primitives) (m : List Byte) :
    Digester.finish P kSha256 (P.SHA256 m) = Digest P kSha256 m := by
  simp only [Digest, if_true, Sha256, DigestImpl, bytesAt_data]
  cases P.SHA256 m with
  | none => rfl
  | some w => simp [Digester.finish]

theorem Digest_kSha256_inj (P : Primitives) (x y : List Byte)
    (h : Digest P kSha256 x = Digest P kSha256 y) : P.SHA256 x = P.SHA256 y := by
  simp only [Digest, if_true, Sha256_eq] at h
  cases hx : P.SHA256 x with
  | none =>
    cases hy : P.SHA256 y with
    | none => rfl
    | some w =>
      rw [hx, hy] at h
      have := P.SHA256_length y w hy
      simp only at h
      rw [← h] at this
      simp at this
  | some v =>
    cases hy : P.SHA256 y with
    | none =>
      rw [hx, hy] at h
      have := P.SHA256_length x v hx
      simp only at h
      rw [h] at this
      simp at this
    | some w =>
      rw [hx, hy] at h
      simp only at h
      rw [h]

theorem Digester.New_kSha256 :
    Digester.New kSha256 = some ⟨kSha256, 32, 0, ⟨some [], none, true, false⟩⟩ := by
  decide

theorem Digester.updates_ready (algorithm : DigestAlgorithm) (len : Nat) (b : EVP_MD_CTX)
    (hb : Bool) (chunks : List (List Byte)) :
    ∀ (cnt : Nat) (m : List Byte),
      (Digester.mk algorithm len cnt ⟨some m, b, true, hb⟩).updates chunks
        = (true, ⟨algorithm, len, cnt + chunks.flatten.length,
            ⟨some (m ++ chunks.flatten), b, true, hb⟩⟩) := by
  induction chunks with
  | nil => intro cnt m; simp [Digester.updates]
  | cons c cs ih =>
    intro cnt m
    simp only [Digester.updates, Digester.Update_ready, ih, List.flatten_cons,
      List.length_append, List.append_assoc, Bool.and_self, Nat.add_assoc]

theorem Digester.New_some (algorithm : DigestAlgorithm) (d0 : Digester)
    (h : Digester.New algorithm = some d0) :
    d0 = ⟨algorithm, GetDigestLength algorithm, 0, ⟨some [], none, true, false⟩⟩ := by
  unfold Digester.New at h
  split at h
  · simp at h
  · have hn : NativeDigester.New = some ⟨some [], none, true, false⟩ := by decide
    rw [hn] at h
    simp only [Option.some.injEq] at h
    exact h.symm

end crypto

namespace wallet

open crypto

theorem std_equal_iff (e a : List Byte) (n off : Nat) (he : n ≤ e.length)
    (ha : off + n ≤ a.length) :
    std_equal (vecData e 0) n (fun i => vecData a 0 (off + i)) = true
      ↔ e.take n = (a.drop off).take n := by
  unfold std_equal
  rw [List.all_eq_true]
  have key : ∀ i, i < n → ((vecData e 0 i == vecData a 0 (off + i)) = true ↔
      e[i]? = a[off + i]?) := by
    intro i hi
    have h1 : i < e.length := by omega
    have h2 : off + i < a.length := by omega
    rw [beq_iff_eq, vecData_lt e 0 i h1, vecData_lt a 0 (off + i) h2,
      List.getElem?_eq_getElem h1, List.getElem?_eq_getElem h2]
    simp
  constructor
  · intro h
    apply List.ext_getElem?
    intro i
    simp only [List.getElem?_take, List.getElem?_drop]
    split
    · rename_i hi
      exact (key i hi).mp (h i (List.mem_range.mpr hi))
    · rfl
  · intro h i hi
    have hi := List.mem_range.mp hi
    rw [key i hi]
    have := congrArg (fun l => l[i]?) h
    simpa [List.getElem?_take, List.getElem?_drop, hi] using this

/-- With the stand-in primitives an address whose last four bytes repeat its
first four is accepted, and it is rejected once a checksum byte is changed. -/
theorem IsValidAddress_standIn_examples :
    PkhAddress.IsValidAddress standIn
        [1, 2, 3, 4, 5, 0, 0, 0, 0, 0, 0, 0, 0, 0, 0, 0, 0, 0, 0, 0, 0, 1, 2, 3, 4] = true ∧
    PkhAddress.IsValidAddress standIn
        [1, 2, 3, 4, 5, 0, 0, 0, 0, 0, 0, 0, 0, 0, 0, 0, 0, 0, 0, 0, 0, 1, 2, 3, 5] = false := by
  decide

end wallet

/-! ## Claims on the digester and the address check -/

namespace crypto

/-- C3 (the code departs from the claim): on a SHA-256 digester the calls
`Update([1])`, `Finalize`, `Finalize`, `Update([2])`, `Finalize` all succeed, and
the last `Finalize` returns the digest of `[2]` alone: the second `Finalize` in
a row has dropped the stream.  That digest differs from the digest of `[1, 2]`
whenever the primitive tells the two inputs apart. -/
theorem C3_Finalize_twice_then_Update_restarts_stream (P : Primitives) :
    (Digester.New kSha256).map (fun d => (Digester.run P d
        [.Update [1], .Finalize, .Finalize, .Update [2], .Finalize]).2)
      = some [.bool true, .digest (Digest P kSha256 [1]), .digest (Digest P kSha256 [1]),
          .bool true, .digest (Digest P kSha256 [2])] ∧
    (P.SHA256 [2] ≠ P.SHA256 [1, 2] → Digest P kSha256 [2] ≠ Digest P kSha256 [1, 2]) := by
  refine ⟨?_, fun hne h => hne (Digest_kSha256_inj P _ _ h)⟩
  rw [Digester.New_kSha256]
  simp only [Option.map_some', Digester.run, Digester.call, Digester.Update_ready,
    Digester.Finalize_of_native, NativeDigester.native_Finalize_ready,
    NativeDigester.native_Finalize_needsRestore, Digest_kSha256,
    Digester.Update_invalid _ _ _ _ _ [2] (by simp), List.nil_append]

/-- C4: on a digester made by `Digester::New` and fed any sequence of `Update`
calls (which all return `true`), two `Finalize` calls in a row return the same
digest, through the vector-returning and through the buffer overload. -/
theorem C4_Finalize_twice_same_digest (P : Primitives) (algorithm : DigestAlgorithm)
    (d0 : Digester) (chunks : List (List Byte)) (h : Digester.New algorithm = some d0) :
    (d0.updates chunks).1 = true ∧
    (((d0.updates chunks).2.Finalize P).2.Finalize P).1
      = ((d0.updates chunks).2.Finalize P).1 ∧
    (((d0.updates chunks).2.Finalize_ptr P).2.Finalize_ptr P).1
      = ((d0.updates chunks).2.Finalize_ptr P).1 := by
  rw [Digester.New_some algorithm d0 h, Digester.updates_ready]
  refine ⟨rfl, ?_, ?_⟩
  · simp only [Digester.Finalize_of_native, NativeDigester.native_Finalize_ready,
      NativeDigester.native_Finalize_needsRestore]
  · simp only [Digester.Finalize_ptr_of_native, NativeDigester.native_Finalize_ready,
      NativeDigester.native_Finalize_needsRestore]

/-- Witness for C4: a double-SHA-256 digester fed `[1]` then `[2, 3]`, with the
stand-in primitives. -/
theorem C4_Finalize_twice_same_digest_witness :
    Digester.New kSha256Sha256
        = some ⟨kSha256Sha256, 32, 0, ⟨some [], none, true, false⟩⟩ ∧
    ((Digester.updates ⟨kSha256Sha256, 32, 0, ⟨some [], none, true, false⟩⟩
        [[1], [2, 3]]).1 = true ∧
    (((Digester.updates ⟨kSha256Sha256, 32, 0, ⟨some [], none, true, false⟩⟩
        [[1], [2, 3]]).2.Finalize standIn).2.Finalize standIn).1
      = ((Digester.updates ⟨kSha256Sha256, 32, 0, ⟨some [], none, true, false⟩⟩
        [[1], [2, 3]]).2.Finalize standIn).1 ∧
    (((Digester.updates ⟨kSha256Sha256, 32, 0, ⟨some [], none, true, false⟩⟩
        [[1], [2, 3]]).2.Finalize_ptr standIn).2.Finalize_ptr standIn).1
      = ((Digester.updates ⟨kSha256Sha256, 32, 0, ⟨some [], none, true, false⟩⟩
        [[1], [2, 3]]).2.Finalize_ptr standIn).1) :=
  ⟨by decide, C4_Finalize_twice_same_digest standIn kSha256Sha256 _ [[1], [2, 3]] (by decide)⟩

/-- C5 (the code departs from the claim): on a SHA-256 digester fed `[1]`, the
second `Finalize` in a row, issued in state NeedsRestore, leaves the digester
not ready and without backup, and the third `Finalize` returns the digest of
the empty input, which differs from the digest of `[1]` whenever the primitive
tells the two inputs apart. -/
theorem C5_third_Finalize_returns_empty_input_digest (P : Primitives) :
    (Digester.New kSha256).map (fun d => Digester.run P d
        [.Update [1], .Finalize, .Finalize])
      = some (⟨kSha256, 32, 1, ⟨none, some [1], false, false⟩⟩,
          [.bool true, .digest (Digest P kSha256 [1]), .digest (Digest P kSha256 [1])]) ∧
    (Digester.New kSha256).map (fun d => (Digester.run P d
        [.Update [1], .Finalize, .Finalize, .Finalize]).2)
      = some [.bool true, .digest (Digest P kSha256 [1]), .digest (Digest P kSha256 [1]),
          .digest (Digest P kSha256 [])] ∧
    (P.SHA256 [] ≠ P.SHA256 [1] → Digest P kSha256 [] ≠ Digest P kSha256 [1]) := by
  rw [Digester.New_kSha256]
  refine ⟨?_, ?_, fun hne h => hne (Digest_kSha256_inj P _ _ h)⟩
  · simp only [Option.map_some', Digester.run, Digester.call, Digester.Update_ready,
      Digester.Finalize_of_native, NativeDigester.native_Finalize_ready,
      NativeDigester.native_Finalize_needsRestore, Digest_kSha256,
      List.nil_append, List.length_cons, List.length_nil, Nat.zero_add]
  · simp only [Option.map_some', Digester.run, Digester.call, Digester.Update_ready,
      Digester.Finalize_of_native, NativeDigester.native_Finalize_ready,
      NativeDigester.native_Finalize_needsRestore, NativeDigester.native_Finalize_invalid,
      Digest_kSha256, List.nil_append]

end crypto

namespace wallet

open crypto

/-- C2: `PkhAddress::IsValidAddress(a)` is true exactly when `a` has 25 bytes
and its last 4 bytes are the first 4 bytes of `Sha256Sha256` of its first 21
bytes; an input of any other length is rejected. -/
theorem C2_IsValidAddress_iff (P : Primitives) (a : List Byte) :
    (PkhAddress.IsValidAddress P a = true ↔
      a.length = 25 ∧ a.drop 21 = (Sha256Sha256 P (a.take 21)).take 4) ∧
    (a.length ≠ 25 → PkhAddress.IsValidAddress P a = false) := by
  have hrej : a.length ≠ 25 → PkhAddress.IsValidAddress P a = false := by
    intro h
    simp [PkhAddress.IsValidAddress, kRawPkhAddressLength, h]
  refine ⟨?_, hrej⟩
  by_cases hlen : a.length = 25
  · have htake : (a.take 21).length = 21 := by simp [List.length_take, hlen]
    have hdrop : (a.drop 21).length = 4 := by simp [List.length_drop, hlen]
    simp only [PkhAddress.IsValidAddress, kRawPkhAddressLength, kChecksumLength,
      kChecksumOffset, kKeyHashLength, hlen, ne_eq, not_true_eq_false, if_false, true_and]
    rw [Sha256Sha256_ptr_eq P a (25 - 4) (by omega), Sha256Sha256_eq]
    cases h1 : P.SHA256 (a.take (25 - 4)) with
    | none =>
      simp only [Nat.reduceSub] at h1
      simp only [h1, List.take_nil, Bool.false_eq_true, false_iff]
      intro h
      rw [h] at hdrop
      simp at hdrop
    | some d =>
      simp only [Nat.reduceSub] at h1
      simp only [h1]
      cases h2 : P.SHA256 d with
      | none =>
        simp only [List.take_nil, Bool.false_eq_true, false_iff]
        intro h
        rw [h] at hdrop
        simp at hdrop
      | some e =>
        have he : e.length = 32 := P.SHA256_length d e h2
        simp only [written_full kSha256DigestLength e he, Nat.reduceAdd]
        rw [show (if (!std_equal (vecData e 0) 4 fun i => vecData a 0 (21 + i)) = true
            then false else true)
          = std_equal (vecData e 0) 4 (fun i => vecData a 0 (21 + i)) by
            cases std_equal (vecData e 0) 4 (fun i => vecData a 0 (21 + i)) <;> rfl]
        rw [std_equal_iff e a 4 21 (by omega) (by omega)]
        have : (a.drop 21).take 4 = a.drop 21 := List.take_of_length_le (by omega)
        rw [this]
        exact eq_comm
  · simp [hrej hlen, hlen]

end wallet

/-! ## Encoding a decoded string -/

namespace encode

open bn

set_option maxRecDepth 100000 in
theorem alphabet_value_facts :
    ∀ c ∈ kBase58CharSet,
      ((Base58CharToValue c).val < 58 ∧ alphabetChar (Base58CharToValue c).val = c
        ∧ ((Base58CharToValue c).val = 0 → c = '1')) := by
  decide

theorem minimalBigEndian_head (n : Nat) :
    ∀ x, (minimalBigEndian n).head? = some x → x ≠ 0 := by
  intro x hx
  unfold minimalBigEndian at hx
  rw [List.head?_map, List.head?_reverse] at hx
  by_cases hn : n = 0
  · subst hn
    simp at hx
  · have hne : Nat.digits 256 n ≠ [] := by
      intro h
      rw [h] at hx
      simp at hx
    rw [List.getLast?_eq_getLast _ hne] at hx
    simp only [Option.map_some', Option.some.injEq] at hx
    have hlast := Nat.getLast_digit_ne_zero 256 hn
    have hlt : (Nat.digits 256 n).getLast hne < 256 :=
      Nat.digits_lt_base (by decide) (List.getLast_mem hne)
    intro h0
    rw [h0] at hx
    have : (toByte ((Nat.digits 256 n).getLast hne)).val = 0 := by rw [hx]; rfl
    have hv : (toByte ((Nat.digits 256 n).getLast hne)).val
        = (Nat.digits 256 n).getLast hne := Nat.mod_eq_of_lt hlt
    exact hlast (hv ▸ this)

theorem bigEndianValue_minimalBigEndian (n : Nat) :
    bigEndianValue (minimalBigEndian n) = n := by
  unfold bigEndianValue minimalBigEndian
  have hmap : (List.map toByte (Nat.digits 256 n).reverse).reverse.map Fin.val
      = Nat.digits 256 n := by
    simp only [List.map_reverse, List.reverse_reverse, List.map_map]
    conv_rhs => rw [← List.map_id (Nat.digits 256 n)]
    apply List.map_congr_left
    intro d hd
    have hlt : d < 256 := Nat.digits_lt_base (by decide) hd
    show d % 256 = d
    exact Nat.mod_eq_of_lt hlt
  rw [hmap, Nat.ofDigits_digits]

theorem Base58Encode_Base58Decode (s : List Char) (h : IsBase58String s = true)
    (past : Byte) : Base58Encode (Base58Decode s) past = s := by
  have hmem : ∀ c ∈ s, c ∈ kBase58CharSet := fun c hc =>
    IsBase58Character_mem c ((IsBase58String_iff s).mp h c hc)
  rw [Base58Decode_eq s h, Base58Encode_eq,
    leadingCount_replicate_append 0 _ _ (minimalBigEndian_head _),
    bigEndianValue_replicate_zero_append, bigEndianValue_minimalBigEndian]
  obtain ⟨rest, hs, hrest⟩ := split_leading '1' s
  generalize leadingCount '1' s = k at hs
  have hrmem : ∀ c ∈ rest, c ∈ kBase58CharSet := fun c hc =>
    hmem c (by rw [hs]; exact List.mem_append_right _ hc)
  have hacc : decodeAccumulate (s.map Base58CharToValue)
      = Nat.ofDigits 58 ((rest.map (fun c => (Base58CharToValue c).val)).reverse) := by
    rw [decodeAccumulate_eq, hs, List.map_append, List.map_replicate, List.reverse_append,
      List.map_append, List.reverse_replicate, List.map_replicate]
    have h0 : (Base58CharToValue '1').val = 0 := by decide
    rw [h0, ofDigits_append_zeros, List.map_reverse, List.map_map]
    rfl
  have hdig : base58Digits (decodeAccumulate (s.map Base58CharToValue))
      = rest.map (fun c => (Base58CharToValue c).val) := by
    unfold base58Digits
    rw [hacc, Nat.digits_ofDigits 58 (by decide), List.reverse_reverse]
    · intro l hl
      obtain ⟨c, hc, rfl⟩ := List.mem_map.mp (List.mem_reverse.mp hl)
      exact (alphabet_value_facts c (hrmem c hc)).1
    · intro hne
      cases rest with
      | nil => simp at hne
      | cons c t =>
        have hc1 : c ≠ '1' := hrest c rfl
        have hv : (Base58CharToValue c).val ≠ 0 := fun h0 =>
          hc1 ((alphabet_value_facts c (hrmem c (List.mem_cons_self c t))).2.2 h0)
        simpa [List.getLast_append] using hv
  rw [hdig, List.map_map]
  conv_rhs => rw [hs]
  congr 1
  conv_rhs => rw [← List.map_id rest]
  apply List.map_congr_left
  intro c hc
  exact (alphabet_value_facts c (hrmem c hc)).2.1

end encode

/-! ## Further lemmas on the digests and the digester -/

theorem bytesAt_length (p : Nat → Byte) (n : Nat) : (bytesAt p n).length = n := by
  simp [bytesAt]

theorem bytesAt_vecData_slice (v : List Byte) (past : Byte) (off n : Nat)
    (h : off + n ≤ v.length) :
    bytesAt (fun i => vecData v past (off + i)) n = (v.drop off).take n := by
  apply List.ext_getElem
  · simp only [bytesAt_length, List.length_take, List.length_drop]
    omega
  · intro i h1 h2
    have hi : i < n := by simpa [bytesAt] using h1
    simp only [bytesAt, List.getElem_map, List.getElem_range, List.getElem_take,
      List.getElem_drop]
    exact vecData_lt v past (off + i) (by omega)

namespace crypto

theorem RipeMd160_eq (P : Primitives) (m : List Byte) :
    RipeMd160 P m = (match P.RIPEMD160 m with | none => [] | some d => d) := by
  unfold RipeMd160 DigestImpl
  rw [bytesAt_data]
  cases h : P.RIPEMD160 m with
  | none => rfl
  | some d => exact written_full _ d (P.RIPEMD160_length m d h)

theorem Sha256RipeMd160_eq (P : Primitives) (m : List Byte) :
    Sha256RipeMd160 P m = (match P.SHA256 m with
      | none => []
      | some d => (match P.RIPEMD160 d with | none => [] | some e => e)) := by
  unfold Sha256RipeMd160 DoubleDigestImpl
  rw [bytesAt_data]
  cases h : P.SHA256 m with
  | none => rfl
  | some d =>
    simp only
    rw [bytesAt_written_full kSha256DigestLength d (P.SHA256_length m d h)]
    cases h2 : P.RIPEMD160 d with
    | none => rfl
    | some e => exact written_full _ e (P.RIPEMD160_length d e h2)

theorem Sha256RipeMd160_length (P : Primitives) (m : List Byte) :
    Sha256RipeMd160 P m = [] ∨ (Sha256RipeMd160 P m).length = 20 := by
  rw [Sha256RipeMd160_eq]
  cases P.SHA256 m with
  | none => exact Or.inl rfl
  | some d =>
    simp only
    cases h2 : P.RIPEMD160 d with
    | none => exact Or.inl rfl
    | some e => exact Or.inr (P.RIPEMD160_length d e h2)

theorem IsSupportedDigestAlgorithm_iff (algorithm : DigestAlgorithm) :
    IsSupportedDigestAlgorithm algorithm = true
      ↔ algorithm = kSha256 ∨ algorithm = kSha256Sha256 ∨ algorithm = kSha256RipeMd160 := by
  unfold IsSupportedDigestAlgorithm
  by_cases h : algorithm = kSha256 ∨ algorithm = kSha256Sha256 ∨ algorithm = kSha256RipeMd160
  · simp [h]
  · simp only [h, if_false, iff_false]
    split <;> simp

theorem finish_eq_Digest (P : Primitives) (algorithm : DigestAlgorithm)
    (h : IsSupportedDigestAlgorithm algorithm = true) (m : List Byte) :
    Digester.finish P algorithm (P.SHA256 m) = Digest P algorithm m := by
  rcases (IsSupportedDigestAlgorithm_iff algorithm).mp h with h1 | h1 | h1
  · subst h1
    exact Digest_kSha256 P m
  · subst h1
    have hd : Digest P kSha256Sha256 m = Sha256Sha256 P m := by
      unfold Digest
      rw [if_neg (by decide), if_neg (by decide), if_pos rfl]
    rw [hd, Sha256Sha256_eq]
    cases hm : P.SHA256 m with
    | none => rfl
    | some w =>
      have hf : Digester.finish P kSha256Sha256 (some w)
          = Sha256 P (written (List.replicate kSha256DigestLength 0) w) := by
        rw [Digester.finish, if_neg (by decide), if_pos rfl]
      rw [hf, written_full kSha256DigestLength w (P.SHA256_length m w hm), Sha256_eq]
  · subst h1
    have hd : Digest P kSha256RipeMd160 m = Sha256RipeMd160 P m := by
      unfold Digest
      rw [if_neg (by decide), if_neg (by decide), if_neg (by decide), if_pos rfl]
    rw [hd, Sha256RipeMd160_eq]
    cases hm : P.SHA256 m with
    | none => rfl
    | some w =>
      have hf : Digester.finish P kSha256RipeMd160 (some w)
          = RipeMd160 P (written (List.replicate kSha256DigestLength 0) w) := by
        rw [Digester.finish, if_neg (by decide), if_neg (by decide)]
      rw [hf, written_full kSha256DigestLength w (P.SHA256_length m w hm), RipeMd160_eq]

theorem DigestImpl_ptr_written (Digester : digester_t) (w : List Byte)
    (hw : w.length = kSha256DigestLength) :
    DigestImpl_ptr Digester
        (some (vecData (written (List.replicate kSha256DigestLength 0) w) 0))
        kSha256DigestLength
      = Digester w := by
  unfold DigestImpl_ptr
  simp only [Option.isNone_some, Bool.false_eq_true, false_and, if_false, Option.getD_some]
  rw [bytesAt_written_full kSha256DigestLength w hw]

theorem finish_ptr_getD_eq_Digest (P : Primitives) (algorithm : DigestAlgorithm)
    (h : IsSupportedDigestAlgorithm algorithm = true) (m : List Byte) :
    (Digester.finish_ptr P algorithm (P.SHA256 m)).getD [] = Digest P algorithm m := by
  rw [← finish_eq_Digest P algorithm h m]
  unfold Digester.finish_ptr Digester.finish
  cases hm : P.SHA256 m with
  | none => split <;> rfl
  | some w =>
    have hw : w.length = kSha256DigestLength := P.SHA256_length m w hm
    simp only
    split
    · rw [written_full kSha256DigestLength w hw]
      rfl
    · split
      · rw [Sha256_ptr, DigestImpl_ptr_written _ w hw, written_full kSha256DigestLength w hw,
          Sha256_eq]
        cases P.SHA256 w <;> rfl
      · rw [RipeMd160_ptr, DigestImpl_ptr_written _ w hw,
          written_full kSha256DigestLength w hw, RipeMd160_eq]
        cases P.RIPEMD160 w <;> rfl

theorem finish_ptr_kSha256Sha256 (P : Primitives) (m : List Byte) :
    Digester.finish_ptr P kSha256Sha256 (P.SHA256 m)
      = (match P.SHA256 m with | none => none | some i => P.SHA256 i) := by
  unfold Digester.finish_ptr
  rw [if_neg (by decide)]
  cases hm : P.SHA256 m with
  | none => rfl
  | some w =>
    simp only [if_true]
    rw [Sha256_ptr, DigestImpl_ptr_written _ w (P.SHA256_length m w hm)]

theorem Digester.Update_datum_ready (algorithm : DigestAlgorithm) (len cnt : Nat)
    (m : List Byte) (b : EVP_MD_CTX) (hb : Bool) (datum : Byte) :
    (Digester.mk algorithm len cnt ⟨some m, b, true, hb⟩).Update_datum datum
      = (true, ⟨algorithm, len, cnt + 1, ⟨some (m ++ [datum]), b, true, hb⟩⟩) := by
  have hb1 : bytesAt (vecData [datum] 0) 1 = [datum] := bytesAt_vecData [datum] 0
  simp only [Digester.Update_datum,
    NativeDigester.native_Update_ready _ _ _ _ 1 (by decide), hb1, Bool.not_true,
    Bool.false_eq_true, if_false]

theorem Digester.New_eq (algorithm : DigestAlgorithm) :
    Digester.New algorithm =
      if IsSupportedDigestAlgorithm algorithm = true then
        some ⟨algorithm, GetDigestLength algorithm, 0, ⟨some [], none, true, false⟩⟩
      else none := by
  unfold Digester.New
  have hn : NativeDigester.New = some ⟨some [], none, true, false⟩ := by decide
  rw [hn]
  cases IsSupportedDigestAlgorithm algorithm <;> rfl

theorem Digester.Reset_eq (d : Digester) :
    d.Reset = ⟨d.algorithm, d.digest_length, 0,
      ⟨some [], d.digester.backup_ctx, true, false⟩⟩ := by
  simp [Digester.Reset, NativeDigester.Reset, EVP_DigestInit]

end crypto

/-! ## Lemmas on the address class -/

namespace wallet

open crypto

theorem CalculateChecksum_eq (P : Primitives) (network_id : NetworkId)
    (key_hash : List Byte) :
    CalculateChecksum P network_id key_hash
      = (match P.SHA256 (network_id :: key_hash) with
        | none => none
        | some i => (match P.SHA256 i with
          | none => none
          | some e => some (e.take 4))) := by
  unfold CalculateChecksum
  rw [Digester.New_eq]
  simp only [show IsSupportedDigestAlgorithm kSha256Sha256 = true from by decide, if_true,
    Digester.Update_datum_ready, Digester.Update_ready, Bool.not_true, Bool.false_eq_true,
    if_false, Digester.Finalize_ptr_of_native, NativeDigester.native_Finalize_ready,
    finish_ptr_kSha256Sha256, List.nil_append, List.singleton_append]
  cases h1 : P.SHA256 (network_id :: key_hash) with
  | none => rfl
  | some i =>
    simp only
    cases h2 : P.SHA256 i with
    | none => rfl
    | some e =>
      have he : e.length = kSha256DigestLength := P.SHA256_length i e h2
      simp only [written_full kSha256DigestLength e he, kChecksumLength]
      rw [bytesAt_vecData_take e 0 4 (by rw [he]; decide)]

theorem CalculateChecksum_eq_take (P : Primitives) (network_id : NetworkId)
    (key_hash c : List Byte) (h : CalculateChecksum P network_id key_hash = some c) :
    c = (Sha256Sha256 P (network_id :: key_hash)).take 4 ∧ c.length = 4 := by
  rw [CalculateChecksum_eq] at h
  rw [Sha256Sha256_eq]
  cases h1 : P.SHA256 (network_id :: key_hash) with
  | none => rw [h1] at h; simp at h
  | some i =>
    rw [h1] at h
    simp only at h ⊢
    cases h2 : P.SHA256 i with
    | none => rw [h2] at h; simp at h
    | some e =>
      rw [h2] at h
      simp only [Option.some.injEq] at h ⊢
      have he := P.SHA256_length i e h2
      subst h
      exact ⟨rfl, by simp [List.length_take, he]⟩

theorem CalculateChecksum_none (P : Primitives) (network_id : NetworkId)
    (key_hash : List Byte) (h : CalculateChecksum P network_id key_hash = none) :
    Sha256Sha256 P (network_id :: key_hash) = [] := by
  rw [CalculateChecksum_eq] at h
  rw [Sha256Sha256_eq]
  cases h1 : P.SHA256 (network_id :: key_hash) with
  | none => rfl
  | some i =>
    rw [h1] at h
    simp only at h ⊢
    cases h2 : P.SHA256 i with
    | none => rfl
    | some e => rw [h2] at h; simp at h

theorem CalculateChecksum_isSome (P : Primitives) (hP : ∀ x, P.SHA256 x ≠ none)
    (network_id : NetworkId) (key_hash : List Byte) :
    ∃ c, CalculateChecksum P network_id key_hash = some c := by
  rw [CalculateChecksum_eq]
  cases h1 : P.SHA256 (network_id :: key_hash) with
  | none => exact absurd h1 (hP _)
  | some i =>
    cases h2 : P.SHA256 i with
    | none => exact absurd h2 (hP _)
    | some e => exact ⟨e.take 4, by simp [h2]⟩

theorem IsValidAddress_eq_true_iff (P : Primitives) (a : List Byte) :
    PkhAddress.IsValidAddress P a = true ↔
      a.length = 25 ∧ a.drop 21 = (Sha256Sha256 P (a.take 21)).take 4 := by
  by_cases hlen : a.length = 25
  · have hdrop : (a.drop 21).length = 4 := by simp [List.length_drop, hlen]
    simp only [PkhAddress.IsValidAddress, kRawPkhAddressLength, kChecksumLength,
      kChecksumOffset, kKeyHashLength, hlen, ne_eq, not_true_eq_false, if_false, true_and]
    rw [Sha256Sha256_ptr_eq P a (25 - 4) (by omega), Sha256Sha256_eq]
    cases h1 : P.SHA256 (a.take (25 - 4)) with
    | none =>
      simp only [Nat.reduceSub] at h1
      simp only [h1, List.take_nil, Bool.false_eq_true, false_iff]
      intro h
      rw [h] at hdrop
      simp at hdrop
    | some d =>
      simp only [Nat.reduceSub] at h1
      simp only [h1]
      cases h2 : P.SHA256 d with
      | none =>
        simp only [List.take_nil, Bool.false_eq_true, false_iff]
        intro h
        rw [h] at hdrop
        simp at hdrop
      | some e =>
        have he : e.length = 32 := P.SHA256_length d e h2
        simp only [written_full kSha256DigestLength e he, Nat.reduceAdd]
        rw [show (if (!std_equal (vecData e 0) 4 fun i => vecData a 0 (21 + i)) = true
            then false else true)
          = std_equal (vecData e 0) 4 (fun i => vecData a 0 (21 + i)) by
            cases std_equal (vecData e 0) 4 (fun i => vecData a 0 (21 + i)) <;> rfl]
        rw [std_equal_iff e a 4 21 (by omega) (by omega)]
        have : (a.drop 21).take 4 = a.drop 21 := List.take_of_length_le (by omega)
        rw [this]
        exact eq_comm
  · simp [PkhAddress.IsValidAddress, kRawPkhAddressLength, hlen]

theorem cons_slice_eq_take (raw : List Byte) (h : raw.length = 25) :
    vecData raw 0 0 :: (raw.drop 1).take 20 = raw.take 21 := by
  cases raw with
  | nil => simp at h
  | cons x t => simp [vecData]

theorem PkhAddress.Parse_valid (P : Primitives) (a : PkhAddress) (raw : List Byte)
    (h : PkhAddress.IsValidAddress P raw = true) :
    PkhAddress.Parse P a raw = (true, ⟨vecData raw 0 0, (raw.drop 1).take 20⟩) := by
  have hlen := ((IsValidAddress_eq_true_iff P raw).mp h).1
  unfold PkhAddress.Parse
  rw [h, bytesAt_vecData_slice raw 0 1 kKeyHashLength (by rw [hlen]; decide)]
  rfl

theorem PkhAddress.Parse_invalid (P : Primitives) (a : PkhAddress) (raw : List Byte)
    (h : PkhAddress.IsValidAddress P raw = false) :
    PkhAddress.Parse P a raw = (false, a) := by
  unfold PkhAddress.Parse
  rw [h]
  rfl

theorem PkhAddress.Serialize_eq (P : Primitives) (a : PkhAddress)
    (h : a.key_hash.length = 20) :
    PkhAddress.Serialize P a
      = (match CalculateChecksum P a.network_id a.key_hash with
        | none => []
        | some c => a.network_id :: a.key_hash ++ c) := by
  have hset : a.IsSet = true := by
    unfold PkhAddress.IsSet
    cases hk : a.key_hash with
    | nil => rw [hk] at h; simp at h
    | cons x t => rfl
  unfold PkhAddress.Serialize
  simp only [hset, Bool.not_true, Bool.false_eq_true, if_false]
  cases hc : CalculateChecksum P a.network_id a.key_hash with
  | none => rfl
  | some c =>
    have hc4 := (CalculateChecksum_eq_take P _ _ c hc).2
    simp only [kChecksumOffset, kKeyHashLength, kChecksumLength]
    have h21 : ([a.network_id] ++ a.key_hash).length = 1 + 20 := by simp [h]
    rw [List.take_append_of_le_length (by rw [h21]), List.take_of_length_le (by rw [h21]),
      List.drop_append_of_le_length (by rw [h21]), List.drop_of_length_le (by rw [h21]),
      List.nil_append, written_full 4 c hc4]
    simp

theorem PkhAddress.Reachable_key_hash (P : Primitives) (a : PkhAddress)
    (h : PkhAddress.Reachable P a) : a.key_hash = [] ∨ a.key_hash.length = 20 := by
  induction h with
  | new => exact Or.inl rfl
  | ofPublicKey network serialized_key =>
    unfold PkhAddress.ofPublicKey HashPublicKey
    split
    · exact Or.inl rfl
    · exact Sha256RipeMd160_length P serialized_key
  | Parse a raw _ ih =>
    cases hv : PkhAddress.IsValidAddress P raw with
    | false => rw [PkhAddress.Parse_invalid P a raw hv]; exact ih
    | true =>
      rw [PkhAddress.Parse_valid P a raw hv]
      have hlen := ((IsValidAddress_eq_true_iff P raw).mp hv).1
      exact Or.inr (by simp [List.length_take, List.length_drop, hlen])
  | ParseBase58 a s _ ih =>
    unfold PkhAddress.ParseBase58
    split
    · exact ih
    · split
      · exact ih
      · cases hv : PkhAddress.IsValidAddress P (encode.Base58Decode s) with
        | false => rw [PkhAddress.Parse_invalid P a _ hv]; exact ih
        | true =>
          rw [PkhAddress.Parse_valid P a _ hv]
          have hlen := ((IsValidAddress_eq_true_iff P _).mp hv).1
          exact Or.inr (by simp [List.length_take, List.length_drop, hlen])

theorem PkhAddress.IsSet_length (P : Primitives) (a : PkhAddress)
    (hr : PkhAddress.Reachable P a) (hs : a.IsSet = true) : a.key_hash.length = 20 := by
  rcases PkhAddress.Reachable_key_hash P a hr with h | h
  · unfold PkhAddress.IsSet at hs
    rw [h] at hs
    simp at hs
  · exact h

theorem PkhAddress.Serialize_Parse (P : Primitives) (a : PkhAddress) (raw : List Byte)
    (h : PkhAddress.IsValidAddress P raw = true) :
    CalculateChecksum P (vecData raw 0 0) ((raw.drop 1).take 20) = some (raw.drop 21) ∧
    PkhAddress.Serialize P (PkhAddress.Parse P a raw).2 = raw := by
  obtain ⟨hlen, hsum⟩ := (IsValidAddress_eq_true_iff P raw).mp h
  have hkh : ((raw.drop 1).take 20).length = 20 := by
    simp [List.length_take, List.length_drop, hlen]
  have hc : CalculateChecksum P (vecData raw 0 0) ((raw.drop 1).take 20)
      = some (raw.drop 21) := by
    cases hcc : CalculateChecksum P (vecData raw 0 0) ((raw.drop 1).take 20) with
    | none =>
      have := CalculateChecksum_none P _ _ hcc
      rw [cons_slice_eq_take raw hlen] at this
      rw [this] at hsum
      have hd : (raw.drop 21).length = 4 := by simp [List.length_drop, hlen]
      rw [hsum] at hd
      simp at hd
    | some c =>
      have := (CalculateChecksum_eq_take P _ _ c hcc).1
      rw [cons_slice_eq_take raw hlen, ← hsum] at this
      rw [this]
  refine ⟨hc, ?_⟩
  rw [PkhAddress.Parse_valid P a raw h, PkhAddress.Serialize_eq P _ hkh]
  simp only [hc]
  rw [cons_slice_eq_take raw hlen, List.take_append_drop]

end wallet

/-! ## Claims on the address class -/

namespace wallet

open crypto

theorem PkhAddress.Parse_fst (P : Primitives) (a : PkhAddress) (raw : List Byte) :
    (PkhAddress.Parse P a raw).1 = PkhAddress.IsValidAddress P raw := by
  cases hv : PkhAddress.IsValidAddress P raw with
  | false => rw [PkhAddress.Parse_invalid P a raw hv]
  | true => rw [PkhAddress.Parse_valid P a raw hv]

theorem PkhAddress.GenerateChecksum_eq (P : Primitives) (a : PkhAddress)
    (hs : a.IsSet = true) :
    PkhAddress.GenerateChecksum P a
      = (Sha256Sha256 P (a.network_id :: a.key_hash)).take 4 := by
  unfold PkhAddress.GenerateChecksum
  simp only [hs, Bool.not_true, Bool.false_eq_true, if_false]
  cases hc : CalculateChecksum P a.network_id a.key_hash with
  | none => rw [CalculateChecksum_none P _ _ hc]; rfl
  | some c =>
    obtain ⟨h1, h2⟩ := CalculateChecksum_eq_take P _ _ c hc
    simp only [kChecksumLength]
    rw [written_full 4 c h2, h1]

/-- C11: when `Parse(raw)` returns true, the following `Serialize()` returns
`raw`, and the checksum the streaming digester computes over the parsed network
id and key hash is the one-shot checksum of the first 21 bytes of `raw`. -/
theorem C11_Serialize_after_Parse (P : Primitives) (a : PkhAddress) (raw : List Byte)
    (h : (PkhAddress.Parse P a raw).1 = true) :
    PkhAddress.Serialize P (PkhAddress.Parse P a raw).2 = raw ∧
    CalculateChecksum P (PkhAddress.Parse P a raw).2.network_id
        (PkhAddress.Parse P a raw).2.key_hash
      = some ((Sha256Sha256 P (raw.take 21)).take 4) := by
  rw [PkhAddress.Parse_fst] at h
  obtain ⟨hc, hser⟩ := PkhAddress.Serialize_Parse P a raw h
  refine ⟨hser, ?_⟩
  rw [PkhAddress.Parse_valid P a raw h]
  simp only
  rw [hc, ((IsValidAddress_eq_true_iff P raw).mp h).2]

/-- Witness for C11: the stand-in address parsed into a fresh object. -/
theorem C11_Serialize_after_Parse_witness :
    (PkhAddress.Parse standIn PkhAddress.new standInAddress).1 = true ∧
    (PkhAddress.Serialize standIn (PkhAddress.Parse standIn PkhAddress.new standInAddress).2
        = standInAddress ∧
      CalculateChecksum standIn
          (PkhAddress.Parse standIn PkhAddress.new standInAddress).2.network_id
          (PkhAddress.Parse standIn PkhAddress.new standInAddress).2.key_hash
        = some ((Sha256Sha256 standIn (standInAddress.take 21)).take 4)) :=
  ⟨by decide, C11_Serialize_after_Parse standIn PkhAddress.new standInAddress (by decide)⟩

/-- C12: `Parse(raw)` returns what `IsValidAddress(raw)` returns; on success
the network id is `raw[0]` and the key hash the 20 bytes `raw[1..21)`; on
failure the object is left as it was. -/
theorem C12_Parse_result (P : Primitives) (a : PkhAddress) (raw : List Byte) :
    ((PkhAddress.Parse P a raw).1 = true ↔ PkhAddress.IsValidAddress P raw = true) ∧
    (PkhAddress.IsValidAddress P raw = true →
      raw.head? = some (PkhAddress.Parse P a raw).2.network_id ∧
      (PkhAddress.Parse P a raw).2.key_hash = (raw.drop 1).take 20 ∧
      (PkhAddress.Parse P a raw).2.key_hash.length = 20) ∧
    (PkhAddress.IsValidAddress P raw = false → (PkhAddress.Parse P a raw).2 = a) := by
  refine ⟨by rw [PkhAddress.Parse_fst], ?_, ?_⟩
  · intro h
    have hlen := ((IsValidAddress_eq_true_iff P raw).mp h).1
    rw [PkhAddress.Parse_valid P a raw h]
    refine ⟨?_, rfl, by simp [List.length_take, List.length_drop, hlen]⟩
    cases raw with
    | nil => simp at hlen
    | cons x t => simp [vecData]
  · intro h
    rw [PkhAddress.Parse_invalid P a raw h]

/-- C13: a set address obtained through the public-key constructor, `Parse` or
`ParseBase58` has a 20-byte key hash and, the SHA-256 primitive succeeding,
`Serialize()` returns 25 bytes: the network id, the key hash and the four
checksum bytes, which `IsValidAddress` accepts. -/
theorem C13_Serialize_layout (P : Primitives) (a : PkhAddress)
    (hr : PkhAddress.Reachable P a) (hs : a.IsSet = true) (hP : ∀ x, P.SHA256 x ≠ none) :
    a.key_hash.length = 20 ∧
    (PkhAddress.Serialize P a).length = 25 ∧
    (PkhAddress.GenerateChecksum P a).length = 4 ∧
    PkhAddress.Serialize P a = a.network_id :: a.key_hash ++ PkhAddress.GenerateChecksum P a ∧
    PkhAddress.IsValidAddress P (PkhAddress.Serialize P a) = true := by
  have hk := PkhAddress.IsSet_length P a hr hs
  obtain ⟨c, hc⟩ := CalculateChecksum_isSome P hP a.network_id a.key_hash
  obtain ⟨hc1, hc4⟩ := CalculateChecksum_eq_take P _ _ c hc
  have hg : PkhAddress.GenerateChecksum P a = c := by
    rw [PkhAddress.GenerateChecksum_eq P a hs, hc1]
  have hser : PkhAddress.Serialize P a = a.network_id :: a.key_hash ++ c := by
    rw [PkhAddress.Serialize_eq P a hk, hc]
  have hlen : (a.network_id :: a.key_hash ++ c).length = 25 := by
    simp [hk, hc4]
  have htake : (a.network_id :: a.key_hash ++ c).take 21 = a.network_id :: a.key_hash := by
    rw [List.take_append_of_le_length (by simp [hk]), List.take_of_length_le (by simp [hk])]
  have hdrop : (a.network_id :: a.key_hash ++ c).drop 21 = c := by
    rw [List.drop_append_of_le_length (by simp [hk]), List.drop_of_length_le (by simp [hk])]
    rfl
  refine ⟨hk, by rw [hser]; exact hlen, by rw [hg]; exact hc4, by rw [hser, hg], ?_⟩
  rw [hser, IsValidAddress_eq_true_iff]
  exact ⟨hlen, by rw [htake, hdrop]; exact hc1⟩

/-- Witness for C13: the address built from the serialized key `[2, 7, 7]` on
the test network, with the stand-in primitives. -/
theorem C13_Serialize_layout_witness :
    PkhAddress.Reachable standIn (PkhAddress.ofPublicKey standIn kTestNetwork [2, 7, 7]) ∧
    (PkhAddress.ofPublicKey standIn kTestNetwork [2, 7, 7]).IsSet = true ∧
    (∀ x, standIn.SHA256 x ≠ none) ∧
    ((PkhAddress.ofPublicKey standIn kTestNetwork [2, 7, 7]).key_hash.length = 20 ∧
      (PkhAddress.Serialize standIn
        (PkhAddress.ofPublicKey standIn kTestNetwork [2, 7, 7])).length = 25 ∧
      (PkhAddress.GenerateChecksum standIn
        (PkhAddress.ofPublicKey standIn kTestNetwork [2, 7, 7])).length = 4 ∧
      PkhAddress.Serialize standIn (PkhAddress.ofPublicKey standIn kTestNetwork [2, 7, 7])
        = (PkhAddress.ofPublicKey standIn kTestNetwork [2, 7, 7]).network_id
          :: (PkhAddress.ofPublicKey standIn kTestNetwork [2, 7, 7]).key_hash
          ++ PkhAddress.GenerateChecksum standIn
            (PkhAddress.ofPublicKey standIn kTestNetwork [2, 7, 7]) ∧
      PkhAddress.IsValidAddress standIn (PkhAddress.Serialize standIn
        (PkhAddress.ofPublicKey standIn kTestNetwork [2, 7, 7])) = true) :=
  ⟨PkhAddress.Reachable.ofPublicKey _ _, by decide, fun x => by simp [standIn],
    C13_Serialize_layout standIn _ (PkhAddress.Reachable.ofPublicKey _ _) (by decide)
      (fun x => by simp [standIn])⟩

theorem PkhAddress.ParseBase58_true (P : Primitives) (a : PkhAddress) (s : List Char)
    (h : (PkhAddress.ParseBase58 P a s).1 = true) :
    encode.IsBase58String s = true ∧
    PkhAddress.IsValidAddress P (encode.Base58Decode s) = true ∧
    PkhAddress.ParseBase58 P a s = PkhAddress.Parse P a (encode.Base58Decode s) := by
  unfold PkhAddress.ParseBase58 at h ⊢
  by_cases he : s.isEmpty = true
  · rw [if_pos he] at h
    simp at h
  · rw [if_neg he] at h ⊢
    cases hv : encode.IsBase58String s with
    | false =>
      rw [hv] at h
      simp at h
    | true =>
      rw [hv] at h
      simp only [Bool.not_true, Bool.false_eq_true, if_false] at h ⊢
      rw [PkhAddress.Parse_fst] at h
      exact ⟨trivial, h, trivial⟩

/-- C14: when `ParseBase58(s)` returns true, the following `SerializeBase58()`
returns `s`, whatever byte lies behind the serialized address. -/
theorem C14_SerializeBase58_after_ParseBase58 (P : Primitives) (a : PkhAddress)
    (s : List Char) (past : Byte) (h : (PkhAddress.ParseBase58 P a s).1 = true) :
    PkhAddress.SerializeBase58 P (PkhAddress.ParseBase58 P a s).2 past = s := by
  obtain ⟨hb, hv, hp⟩ := PkhAddress.ParseBase58_true P a s h
  have hlen := ((IsValidAddress_eq_true_iff P _).mp hv).1
  have hser := (PkhAddress.Serialize_Parse P a _ hv).2
  rw [hp]
  unfold PkhAddress.SerializeBase58
  rw [hser]
  have hset : (PkhAddress.Parse P a (encode.Base58Decode s)).2.IsSet = true := by
    rw [PkhAddress.Parse_valid P a _ hv]
    unfold PkhAddress.IsSet
    have h20 : ((List.drop 1 (encode.Base58Decode s)).take 20).length = 20 := by
      simp [List.length_take, List.length_drop, hlen]
    cases hk : (List.drop 1 (encode.Base58Decode s)).take 20 with
    | nil => rw [hk] at h20; simp at h20
    | cons x t => rfl
  have hne : (encode.Base58Decode s).isEmpty = false := by
    cases hd : encode.Base58Decode s with
    | nil => rw [hd] at hlen; simp at hlen
    | cons x t => rfl
  simp only [hset, hne, Bool.not_true, Bool.false_eq_true, if_false]
  exact encode.Base58Encode_Base58Decode s hb past

/-- Witness for C14: the Base58 spelling of the stand-in address parsed into a
fresh object. -/
theorem C14_SerializeBase58_after_ParseBase58_witness :
    (PkhAddress.ParseBase58 standIn PkhAddress.new standInAddressBase58).1 = true ∧
    PkhAddress.SerializeBase58 standIn
        (PkhAddress.ParseBase58 standIn PkhAddress.new standInAddressBase58).2 0
      = standInAddressBase58 :=
  ⟨by decide,
    C14_SerializeBase58_after_ParseBase58 standIn PkhAddress.new standInAddressBase58 0
      (by decide)⟩

/-- C15: for a set address obtained through the public-key constructor,
`Parse` or `ParseBase58`, the SHA-256 primitive succeeding, `GenerateChecksum()`
returns 4 bytes, the first 4 bytes of `Sha256Sha256` of the network id followed
by the key hash, and they are bytes 21..24 of `Serialize()`. -/
theorem C15_GenerateChecksum_value (P : Primitives) (a : PkhAddress)
    (hr : PkhAddress.Reachable P a) (hs : a.IsSet = true) (hP : ∀ x, P.SHA256 x ≠ none) :
    (PkhAddress.GenerateChecksum P a).length = 4 ∧
    PkhAddress.GenerateChecksum P a
      = (Sha256Sha256 P (a.network_id :: a.key_hash)).take 4 ∧
    (PkhAddress.Serialize P a).drop 21 = PkhAddress.GenerateChecksum P a := by
  have hk := PkhAddress.IsSet_length P a hr hs
  obtain ⟨c, hc⟩ := CalculateChecksum_isSome P hP a.network_id a.key_hash
  obtain ⟨hc1, hc4⟩ := CalculateChecksum_eq_take P _ _ c hc
  have hg : PkhAddress.GenerateChecksum P a = c := by
    rw [PkhAddress.GenerateChecksum_eq P a hs, hc1]
  refine ⟨by rw [hg]; exact hc4, PkhAddress.GenerateChecksum_eq P a hs, ?_⟩
  rw [PkhAddress.Serialize_eq P a hk, hc, hg]
  simp only
  rw [List.drop_append_of_le_length (by simp [hk]), List.drop_of_length_le (by simp [hk])]
  rfl

/-- Witness for C15: the stand-in address parsed into a fresh object. -/
theorem C15_GenerateChecksum_value_witness :
    PkhAddress.Reachable standIn (PkhAddress.Parse standIn PkhAddress.new standInAddress).2 ∧
    (PkhAddress.Parse standIn PkhAddress.new standInAddress).2.IsSet = true ∧
    (∀ x, standIn.SHA256 x ≠ none) ∧
    ((PkhAddress.GenerateChecksum standIn
        (PkhAddress.Parse standIn PkhAddress.new standInAddress).2).length = 4 ∧
      PkhAddress.GenerateChecksum standIn
          (PkhAddress.Parse standIn PkhAddress.new standInAddress).2
        = (Sha256Sha256 standIn
            ((PkhAddress.Parse standIn PkhAddress.new standInAddress).2.network_id
              :: (PkhAddress.Parse standIn PkhAddress.new standInAddress).2.key_hash)).take 4 ∧
      (PkhAddress.Serialize standIn
          (PkhAddress.Parse standIn PkhAddress.new standInAddress).2).drop 21
        = PkhAddress.GenerateChecksum standIn
          (PkhAddress.Parse standIn PkhAddress.new standInAddress).2) ∧
    PkhAddress.GenerateChecksum standIn
        (PkhAddress.Parse standIn PkhAddress.new standInAddress).2 = [1, 2, 3, 4] :=
  ⟨PkhAddress.Reachable.Parse _ _ PkhAddress.Reachable.new, by decide,
    fun x => by simp [standIn],
    C15_GenerateChecksum_value standIn _
      (PkhAddress.Reachable.Parse _ _ PkhAddress.Reachable.new) (by decide)
      (fun x => by simp [standIn]),
    by decide⟩

/-- C16: a default-constructed address is not set, and an address that is not
set serializes to the empty byte sequence, to the empty Base58 string, and has
the empty checksum. -/
theorem C16_unset_address (P : Primitives) (a : PkhAddress) (past : Byte) :
    PkhAddress.new.IsSet = false ∧
    (a.IsSet = false →
      PkhAddress.Serialize P a = [] ∧ PkhAddress.SerializeBase58 P a past = [] ∧
      PkhAddress.GenerateChecksum P a = []) := by
  refine ⟨rfl, ?_⟩
  intro h
  simp [PkhAddress.Serialize, PkhAddress.SerializeBase58, PkhAddress.GenerateChecksum, h]

end wallet

/-! ## Claims on chunked updates, the byte count, `Reset` and `New` -/

namespace crypto

theorem Digester.fresh_or_reset (algorithm : DigestAlgorithm) (d0 : Digester)
    (h : Digester.New algorithm = some d0 ∨ ∃ d : Digester, d0 = d.Reset) :
    ∃ alg len b, d0 = ⟨alg, len, 0, ⟨some [], b, true, false⟩⟩ := by
  rcases h with h | ⟨d, rfl⟩
  · exact ⟨_, _, _, Digester.New_some algorithm d0 h⟩
  · exact ⟨_, _, _, Digester.Reset_eq d⟩

theorem Digester.Update_Count (d : Digester) (data : List Byte) :
    (d.Update data).2.byte_count
      = if (d.Update data).1 = true then d.byte_count + data.length else d.byte_count := by
  unfold Digester.Update
  cases data with
  | nil => simp
  | cons x t =>
    simp only [List.isEmpty_cons, Bool.false_eq_true, if_false]
    cases (NativeDigester.Update d.digester (vecData (x :: t) 0) (x :: t).length).1 <;> simp

theorem Digester.Update_datum_Count (d : Digester) (datum : Byte) :
    (d.Update_datum datum).2.byte_count
      = if (d.Update_datum datum).1 = true then d.byte_count + 1 else d.byte_count := by
  unfold Digester.Update_datum
  simp only [Bool.not_eq_true']
  split <;> simp [*]

theorem Digester.Finalize_Count (P : Primitives) (d : Digester) :
    (d.Finalize P).2.byte_count = d.byte_count
      ∧ (d.Finalize_ptr P).2.byte_count = d.byte_count := by
  cases d with
  | mk algorithm len cnt n =>
    rw [Digester.Finalize_of_native, Digester.Finalize_ptr_of_native]
    exact ⟨rfl, rfl⟩

theorem Digester.run_Count (P : Primitives) (calls : List Call) :
    ∀ d : Digester, Call.Reset ∉ calls → d.byte_count ≤ (Digester.run P d calls).1.byte_count := by
  induction calls with
  | nil => intro d _; exact Nat.le_refl _
  | cons c cs ih =>
    intro d hn
    have hc : c ≠ Call.Reset := fun h => hn (h ▸ List.mem_cons_self _ _)
    have hcs : Call.Reset ∉ cs := fun h => hn (List.mem_cons_of_mem _ h)
    have hstep : d.byte_count ≤ (Digester.call P d c).1.byte_count := by
      cases c with
      | Update data =>
        show d.byte_count ≤ (d.Update data).2.byte_count
        rw [Digester.Update_Count]
        split <;> omega
      | Finalize =>
        show d.byte_count ≤ (d.Finalize P).2.byte_count
        rw [(Digester.Finalize_Count P d).1]
      | Reset => exact absurd rfl hc
    exact Nat.le_trans hstep (ih _ hcs)

theorem Digester.Update_ptr_Count (d : Digester) (data : Option (Nat → Byte))
    (data_size : Nat) :
    (d.Update_ptr data data_size).2.byte_count
      = if (d.Update_ptr data data_size).1 = true then d.byte_count + data_size
        else d.byte_count := by
  unfold Digester.Update_ptr
  by_cases h0 : data_size = 0
  · simp [h0]
  · cases data with
    | none => simp [h0]
    | some p =>
      simp only [h0, if_false, Bool.not_eq_true']
      split <;> simp [*]

/-- C17: for a digester that is fresh from `Digester::New` or has just been
`Reset`, feeding the chunks of `x` by successive `Update` calls leaves the same
object as one `Update` with all of `x`, every call returning true, so the two
finalize to the same digest through either `Finalize` overload. -/
theorem C17_chunked_updates_agree (P : Primitives) (algorithm : DigestAlgorithm)
    (d0 : Digester) (chunks : List (List Byte))
    (h : Digester.New algorithm = some d0 ∨ ∃ d : Digester, d0 = d.Reset) :
    (d0.updates chunks).1 = true ∧ (d0.Update chunks.flatten).1 = true ∧
    (d0.updates chunks).2 = (d0.Update chunks.flatten).2 ∧
    ((d0.updates chunks).2.Finalize P).1 = ((d0.Update chunks.flatten).2.Finalize P).1 ∧
    ((d0.updates chunks).2.Finalize_ptr P).1
      = ((d0.Update chunks.flatten).2.Finalize_ptr P).1 := by
  obtain ⟨alg, len, b, rfl⟩ := Digester.fresh_or_reset algorithm d0 h
  rw [Digester.updates_ready, Digester.Update_ready]
  exact ⟨rfl, rfl, rfl, rfl, rfl⟩

/-- Witness for C17: a fresh SHA-256 digester fed `[1]`, `[]`, `[2, 3]`, with
the stand-in primitives. -/
theorem C17_chunked_updates_agree_witness :
    (Digester.New kSha256 = some ⟨kSha256, 32, 0, ⟨some [], none, true, false⟩⟩ ∨
      ∃ d : Digester, (⟨kSha256, 32, 0, ⟨some [], none, true, false⟩⟩ : Digester) = d.Reset) ∧
    ((Digester.updates ⟨kSha256, 32, 0, ⟨some [], none, true, false⟩⟩
        [[1], [], [2, 3]]).1 = true ∧
      (Digester.Update ⟨kSha256, 32, 0, ⟨some [], none, true, false⟩⟩
        [[1], [], [2, 3]].flatten).1 = true ∧
      (Digester.updates ⟨kSha256, 32, 0, ⟨some [], none, true, false⟩⟩ [[1], [], [2, 3]]).2
        = (Digester.Update ⟨kSha256, 32, 0, ⟨some [], none, true, false⟩⟩
          [[1], [], [2, 3]].flatten).2 ∧
      ((Digester.updates ⟨kSha256, 32, 0, ⟨some [], none, true, false⟩⟩
          [[1], [], [2, 3]]).2.Finalize standIn).1
        = ((Digester.Update ⟨kSha256, 32, 0, ⟨some [], none, true, false⟩⟩
          [[1], [], [2, 3]].flatten).2.Finalize standIn).1 ∧
      ((Digester.updates ⟨kSha256, 32, 0, ⟨some [], none, true, false⟩⟩
          [[1], [], [2, 3]]).2.Finalize_ptr standIn).1
        = ((Digester.Update ⟨kSha256, 32, 0, ⟨some [], none, true, false⟩⟩
          [[1], [], [2, 3]].flatten).2.Finalize_ptr standIn).1) :=
  ⟨Or.inl (by decide),
    C17_chunked_updates_agree standIn kSha256 _ [[1], [], [2, 3]] (Or.inl (by decide))⟩

/-- C18: an `Update` that returns true adds the number of bytes passed to
`Count()` and one that returns false leaves it, through the vector, the byte
and the pointer overload; an `Update` of no bytes returns true and leaves the
whole object as it was; `Finalize` leaves `Count()`; so over any calls without
a `Reset`, `Count()` does not decrease. -/
theorem C18_Count_only_grows (P : Primitives) (d : Digester) (data : List Byte)
    (datum : Byte) (ptr : Option (Nat → Byte)) (data_size : Nat) (calls : List Call) :
    ((d.Update data).1 = true → (d.Update data).2.Count = d.Count + data.length) ∧
    ((d.Update data).1 = false → (d.Update data).2.Count = d.Count) ∧
    ((d.Update_datum datum).1 = true → (d.Update_datum datum).2.Count = d.Count + 1) ∧
    ((d.Update_datum datum).1 = false → (d.Update_datum datum).2.Count = d.Count) ∧
    ((d.Update_ptr ptr data_size).1 = true →
      (d.Update_ptr ptr data_size).2.Count = d.Count + data_size) ∧
    ((d.Update_ptr ptr data_size).1 = false →
      (d.Update_ptr ptr data_size).2.Count = d.Count) ∧
    d.Update [] = (true, d) ∧
    d.Update_ptr ptr 0 = (true, d) ∧
    (d.Finalize P).2.Count = d.Count ∧
    (d.Finalize_ptr P).2.Count = d.Count ∧
    (Call.Reset ∉ calls → d.Count ≤ (Digester.run P d calls).1.Count) := by
  refine ⟨?_, ?_, ?_, ?_, ?_, ?_, rfl, rfl, (Digester.Finalize_Count P d).1,
    (Digester.Finalize_Count P d).2, Digester.run_Count P calls d⟩
  · intro h
    show (d.Update data).2.byte_count = _
    rw [Digester.Update_Count, if_pos h]
    rfl
  · intro h
    show (d.Update data).2.byte_count = _
    rw [Digester.Update_Count, if_neg (by rw [h]; simp)]
    rfl
  · intro h
    show (d.Update_datum datum).2.byte_count = _
    rw [Digester.Update_datum_Count, if_pos h]
    rfl
  · intro h
    show (d.Update_datum datum).2.byte_count = _
    rw [Digester.Update_datum_Count, if_neg (by rw [h]; simp)]
    rfl
  · intro h
    show (d.Update_ptr ptr data_size).2.byte_count = _
    rw [Digester.Update_ptr_Count, if_pos h]
    rfl
  · intro h
    show (d.Update_ptr ptr data_size).2.byte_count = _
    rw [Digester.Update_ptr_Count, if_neg (by rw [h]; simp)]
    rfl

/-- C19: from any state of a digester (of a supported algorithm), `Reset()`
succeeds and leaves `Count()` at 0 and the digester ready with no backup, and
the next `Finalize` returns the algorithm's digest of the empty input. -/
theorem C19_Reset_restarts (P : Primitives) (d : Digester)
    (h : IsSupportedDigestAlgorithm d.algorithm = true) :
    (NativeDigester.Reset d.digester).1 = true ∧
    d.Reset.Count = 0 ∧
    d.Reset.digester.ready = true ∧
    d.Reset.digester.has_backup = false ∧
    (d.Reset.Finalize P).1 = Digest P d.algorithm [] ∧
    ((d.Reset.Finalize_ptr P).1).getD [] = Digest P d.algorithm [] := by
  rw [Digester.Reset_eq]
  refine ⟨rfl, rfl, rfl, rfl, ?_, ?_⟩
  · rw [Digester.Finalize_of_native, NativeDigester.native_Finalize_ready]
    exact finish_eq_Digest P d.algorithm h []
  · rw [Digester.Finalize_ptr_of_native, NativeDigester.native_Finalize_ready]
    exact finish_ptr_getD_eq_Digest P d.algorithm h []

/-- Witness for C19: a double-SHA-256 digester in state NeedsRestore, holding
three bytes, with the stand-in primitives. -/
theorem C19_Reset_restarts_witness :
    IsSupportedDigestAlgorithm
      (Digester.mk kSha256Sha256 32 3 ⟨none, some [1, 2, 3], false, true⟩).algorithm = true ∧
    ((NativeDigester.Reset
        (Digester.mk kSha256Sha256 32 3 ⟨none, some [1, 2, 3], false, true⟩).digester).1
        = true ∧
      (Digester.mk kSha256Sha256 32 3 ⟨none, some [1, 2, 3], false, true⟩).Reset.Count = 0 ∧
      (Digester.mk kSha256Sha256 32 3
        ⟨none, some [1, 2, 3], false, true⟩).Reset.digester.ready = true ∧
      (Digester.mk kSha256Sha256 32 3
        ⟨none, some [1, 2, 3], false, true⟩).Reset.digester.has_backup = false ∧
      ((Digester.mk kSha256Sha256 32 3
        ⟨none, some [1, 2, 3], false, true⟩).Reset.Finalize standIn).1
        = Digest standIn
          (Digester.mk kSha256Sha256 32 3 ⟨none, some [1, 2, 3], false, true⟩).algorithm [] ∧
      (((Digester.mk kSha256Sha256 32 3
        ⟨none, some [1, 2, 3], false, true⟩).Reset.Finalize_ptr standIn).1).getD []
        = Digest standIn
          (Digester.mk kSha256Sha256 32 3 ⟨none, some [1, 2, 3], false, true⟩).algorithm []) :=
  ⟨by decide,
    C19_Reset_restarts standIn
      (Digester.mk kSha256Sha256 32 3 ⟨none, some [1, 2, 3], false, true⟩) (by decide)⟩

/-- C20: `Digester::New` returns null for `kRipeMd160`, for
`kUnknownDigestAlgorithm` and for every value that is none of `kSha256`,
`kSha256Sha256`, `kSha256RipeMd160`; for these three it returns a digester with
that algorithm, `Count()` 0, ready, without backup and with nothing absorbed. -/
theorem C20_New_result (algorithm : DigestAlgorithm) :
    Digester.New kRipeMd160 = none ∧
    Digester.New kUnknownDigestAlgorithm = none ∧
    (algorithm ≠ kSha256 → algorithm ≠ kSha256Sha256 → algorithm ≠ kSha256RipeMd160 →
      Digester.New algorithm = none) ∧
    (algorithm = kSha256 ∨ algorithm = kSha256Sha256 ∨ algorithm = kSha256RipeMd160 →
      ∃ d, Digester.New algorithm = some d ∧ d.algorithm = algorithm ∧ d.Count = 0 ∧
        d.digester.ready = true ∧ d.digester.has_backup = false ∧
        d.digester.ctx = some []) := by
  refine ⟨by decide, by decide, ?_, ?_⟩
  · intro h1 h2 h3
    rw [Digester.New_eq, if_neg]
    rw [IsSupportedDigestAlgorithm_iff]
    rintro (h | h | h)
    · exact h1 h
    · exact h2 h
    · exact h3 h
  · intro h
    rw [Digester.New_eq, if_pos ((IsSupportedDigestAlgorithm_iff algorithm).mpr h)]
    exact ⟨_, rfl, rfl, rfl, rfl, rfl, rfl⟩

/-! ## Digest lengths of the streaming digester -/

theorem NativeDigester.native_Finalize_length (P : Primitives) (n : NativeDigester)
    (w : List Byte) (h : (NativeDigester.Finalize P n).1 = some w) :
    w.length = kSha256DigestLength := by
  rcases n with ⟨ctx, backup, ready, hb⟩
  cases ready <;> cases hb <;> cases ctx <;> cases backup <;>
    simp [NativeDigester.Finalize, NativeDigester.Restore, NativeDigester.Reset,
      NativeDigester.Save, EVP_MD_CTX_copy, EVP_DigestInit, EVP_DigestFinal] at h <;>
    exact P.SHA256_length _ _ h

theorem Digester.finish_length (P : Primitives) (algorithm : DigestAlgorithm)
    (h : IsSupportedDigestAlgorithm algorithm = true) (w : Option (List Byte))
    (hw : ∀ x, w = some x → x.length = kSha256DigestLength) :
    Digester.finish P algorithm w = []
      ∨ (Digester.finish P algorithm w).length = GetDigestLength algorithm := by
  cases w with
  | none => exact Or.inl rfl
  | some x =>
    have hx := hw x rfl
    rcases (IsSupportedDigestAlgorithm_iff algorithm).mp h with h1 | h1 | h1
    · subst h1
      right
      rw [Digester.finish, if_pos rfl, written_full kSha256DigestLength x hx, hx]
      rfl
    · subst h1
      rw [Digester.finish, if_neg (by decide), if_pos rfl,
        written_full kSha256DigestLength x hx, Sha256_eq]
      cases h2 : P.SHA256 x with
      | none => exact Or.inl rfl
      | some e => exact Or.inr (P.SHA256_length x e h2)
    · subst h1
      rw [Digester.finish, if_neg (by decide), if_neg (by decide),
        written_full kSha256DigestLength x hx, RipeMd160_eq]
      cases h2 : P.RIPEMD160 x with
      | none => exact Or.inl rfl
      | some e => exact Or.inr (P.RIPEMD160_length x e h2)

theorem Digester.call_fields (P : Primitives) (d : Digester) (c : Call) :
    (Digester.call P d c).1.algorithm = d.algorithm
      ∧ (Digester.call P d c).1.digest_length = d.digest_length := by
  cases c with
  | Update data =>
    show (d.Update data).2.algorithm = _ ∧ (d.Update data).2.digest_length = _
    unfold Digester.Update
    split
    · exact ⟨rfl, rfl⟩
    · simp only [Bool.not_eq_true']
      split <;> exact ⟨rfl, rfl⟩
  | Finalize =>
    show (d.Finalize P).2.algorithm = _ ∧ (d.Finalize P).2.digest_length = _
    cases d with
    | mk algorithm len cnt n =>
      rw [Digester.Finalize_of_native]
      exact ⟨rfl, rfl⟩
  | Reset => exact ⟨rfl, rfl⟩

theorem Digester.run_fields (P : Primitives) (calls : List Call) :
    ∀ d : Digester, (Digester.run P d calls).1.algorithm = d.algorithm
      ∧ (Digester.run P d calls).1.digest_length = d.digest_length := by
  induction calls with
  | nil => intro d; exact ⟨rfl, rfl⟩
  | cons c cs ih =>
    intro d
    have h1 := ih (Digester.call P d c).1
    have h2 := Digester.call_fields P d c
    exact ⟨h1.1.trans h2.1, h1.2.trans h2.2⟩

/-- C21: a digester returned by `Digester::New`, after any sequence of calls, has
`digest_length()` 32 for `kSha256` and `kSha256Sha256` and 20 for `kSha256RipeMd160`,
never 0, and a vector-returning `Finalize()` that does not report failure (the empty
vector) returns exactly `digest_length()` bytes. -/
theorem C21_digest_length_fixed_by_algorithm (P : Primitives) (algorithm : DigestAlgorithm)
    (d0 : Digester) (h : Digester.New algorithm = some d0) (calls : List Call) :
    (algorithm = kSha256 ∨ algorithm = kSha256Sha256 ∨ algorithm = kSha256RipeMd160) ∧
    (algorithm = kSha256 → (Digester.run P d0 calls).1.digest_length = 32) ∧
    (algorithm = kSha256Sha256 → (Digester.run P d0 calls).1.digest_length = 32) ∧
    (algorithm = kSha256RipeMd160 → (Digester.run P d0 calls).1.digest_length = 20) ∧
    (Digester.run P d0 calls).1.digest_length ≠ 0 ∧
    (((Digester.run P d0 calls).1.Finalize P).1 ≠ [] →
      (((Digester.run P d0 calls).1.Finalize P).1).length
        = (Digester.run P d0 calls).1.digest_length) := by
  have hs : IsSupportedDigestAlgorithm algorithm = true := by
    rw [Digester.New_eq] at h
    by_contra hc
    rw [if_neg hc] at h
    exact Option.noConfusion h
  have h0 := Digester.New_some algorithm d0 h
  have hf := Digester.run_fields P calls d0
  have halg : (Digester.run P d0 calls).1.algorithm = algorithm := by
    rw [hf.1, h0]
  have hlen : (Digester.run P d0 calls).1.digest_length = GetDigestLength algorithm := by
    rw [hf.2, h0]
  have hcases := (IsSupportedDigestAlgorithm_iff algorithm).mp hs
  refine ⟨hcases, ?_, ?_, ?_, ?_, ?_⟩
  · intro ha; rw [hlen, ha]; rfl
  · intro ha; rw [hlen, ha]; rfl
  · intro ha; rw [hlen, ha]; rfl
  · rw [hlen]
    rcases hcases with ha | ha | ha <;> rw [ha] <;> decide
  · intro hne
    generalize (Digester.run P d0 calls).1 = d at halg hlen hne ⊢
    cases d with
    | mk a len cnt n =>
      rw [Digester.Finalize_of_native] at hne ⊢
      simp only at halg hlen hne ⊢
      subst halg
      rcases Digester.finish_length P a hs (NativeDigester.Finalize P n).1
        (fun x hx => NativeDigester.native_Finalize_length P n x hx) with hz | hz
      · exact absurd hz hne
      · rw [hz, hlen]

theorem C21_digest_length_fixed_by_algorithm_witness :
    Digester.New kSha256RipeMd160
        = some ⟨kSha256RipeMd160, 20, 0, ⟨some [], none, true, false⟩⟩ ∧
    (Digester.run standIn ⟨kSha256RipeMd160, 20, 0, ⟨some [], none, true, false⟩⟩
        [Call.Update [1, 2, 3]]).1.digest_length = 20 ∧
    ((Digester.run standIn ⟨kSha256RipeMd160, 20, 0, ⟨some [], none, true, false⟩⟩
        [Call.Update [1, 2, 3]]).1.Finalize standIn).1 ≠ [] ∧
    (((Digester.run standIn ⟨kSha256RipeMd160, 20, 0, ⟨some [], none, true, false⟩⟩
        [Call.Update [1, 2, 3]]).1.Finalize standIn).1).length
      = (Digester.run standIn ⟨kSha256RipeMd160, 20, 0, ⟨some [], none, true, false⟩⟩
        [Call.Update [1, 2, 3]]).1.digest_length :=
  ⟨by decide,
   (C21_digest_length_fixed_by_algorithm standIn kSha256RipeMd160 _ (by decide)
      [Call.Update [1, 2, 3]]).2.2.2.1 rfl,
   by decide,
   (C21_digest_length_fixed_by_algorithm standIn kSha256RipeMd160 _ (by decide)
      [Call.Update [1, 2, 3]]).2.2.2.2.2 (by decide)⟩

/-! ## The one-shot digests in terms of the primitives -/

theorem bytesAt_strData (s : List Char) :
    bytesAt (if s.isEmpty then kNullByteFill else strData s) s.length
      = s.map (fun c => toByte c.toNat) := by
  cases s with
  | nil => rfl
  | cons c t =>
    simp only [List.isEmpty_cons, Bool.false_eq_true, if_false]
    apply List.ext_getElem
    · simp [bytesAt]
    · intro i h1 h2
      simp only [bytesAt, List.getElem_map, List.getElem_range, strData]
      rw [List.getD_eq_getElem _ _ (by simpa [bytesAt] using h1)]

theorem DigestImpl_ptr_vec_eq (F : digester_t) (k : Nat)
    (hF : ∀ x d, F x = some d → d.length = k) (data : Option (Nat → Byte)) (n : Nat) :
    DigestImpl_ptr_vec F k data n = (DigestImpl_ptr F data n).getD [] := by
  unfold DigestImpl_ptr_vec DigestImpl_ptr
  split
  · rfl
  · cases h : F (bytesAt (data.getD kNullByteFill) n) with
    | none => rfl
    | some d => exact written_full k d (hF _ d h)

theorem DigestImpl_string_out_eq (F : digester_t) (s : List Char) :
    DigestImpl_string_out F s = F (s.map (fun c => toByte c.toNat)) := by
  unfold DigestImpl_string_out
  rw [bytesAt_strData]

theorem DigestImpl_vector_out_eq (F : digester_t) (m : List Byte) :
    DigestImpl_vector_out F m = F m := by
  unfold DigestImpl_vector_out
  rw [bytesAt_data]

theorem DigestImpl_eq (F : digester_t) (k : Nat)
    (hF : ∀ x d, F x = some d → d.length = k) (m : List Byte) :
    DigestImpl F k m = (F m).getD [] := by
  unfold DigestImpl
  rw [bytesAt_data]
  cases h : F m with
  | none => rfl
  | some d => exact written_full k d (hF _ d h)

theorem DigestImpl_string_eq (F : digester_t) (k : Nat)
    (hF : ∀ x d, F x = some d → d.length = k) (s : List Char) :
    DigestImpl_string F k s = (F (s.map (fun c => toByte c.toNat))).getD [] := by
  unfold DigestImpl_string
  rw [bytesAt_strData]
  cases h : F (s.map (fun c => toByte c.toNat)) with
  | none => rfl
  | some d => exact written_full k d (hF _ d h)

theorem DoubleDigestImpl_ptr_eq (F : digester_t) (k : Nat) (S : digester_t)
    (hF : ∀ x d, F x = some d → d.length = k) (data : Option (Nat → Byte)) (n : Nat) :
    DoubleDigestImpl_ptr F k S data n
      = if data.isNone ∧ n > 0 then none
        else (F (bytesAt (data.getD kNullByteFill) n)).bind S := by
  unfold DoubleDigestImpl_ptr
  split
  · rfl
  · cases h : F (bytesAt (data.getD kNullByteFill) n) with
    | none => rfl
    | some d =>
      simp only [Option.some_bind]
      rw [bytesAt_written_full k d (hF _ d h)]

theorem DoubleDigestImpl_string_out_eq (F : digester_t) (k : Nat) (S : digester_t)
    (hF : ∀ x d, F x = some d → d.length = k) (s : List Char) :
    DoubleDigestImpl_string_out F k S s = (F (s.map (fun c => toByte c.toNat))).bind S := by
  unfold DoubleDigestImpl_string_out
  rw [bytesAt_strData]
  cases h : F (s.map (fun c => toByte c.toNat)) with
  | none => rfl
  | some d =>
    simp only [Option.some_bind]
    rw [bytesAt_written_full k d (hF _ d h)]

theorem DoubleDigestImpl_vector_out_eq (F : digester_t) (k : Nat) (S : digester_t)
    (hF : ∀ x d, F x = some d → d.length = k) (m : List Byte) :
    DoubleDigestImpl_vector_out F k S m = (F m).bind S := by
  unfold DoubleDigestImpl_vector_out
  rw [bytesAt_data]
  cases h : F m with
  | none => rfl
  | some d =>
    simp only [Option.some_bind]
    rw [bytesAt_written_full k d (hF _ d h)]

theorem DoubleDigestImpl_ptr_vec_eq (F : digester_t) (k : Nat) (S : digester_t) (k2 : Nat)
    (hF : ∀ x d, F x = some d → d.length = k) (hS : ∀ x d, S x = some d → d.length = k2)
    (data : Option (Nat → Byte)) (n : Nat) :
    DoubleDigestImpl_ptr_vec F k S k2 data n = (DoubleDigestImpl_ptr F k S data n).getD [] := by
  unfold DoubleDigestImpl_ptr_vec DoubleDigestImpl_ptr
  split
  · rfl
  · cases h : F (bytesAt (data.getD kNullByteFill) n) with
    | none => rfl
    | some d =>
      simp only
      rw [bytesAt_written_full k d (hF _ d h)]
      cases h2 : S d with
      | none => rfl
      | some e => exact written_full k2 e (hS _ e h2)

theorem DoubleDigestImpl_eq (F : digester_t) (k : Nat) (S : digester_t) (k2 : Nat)
    (hF : ∀ x d, F x = some d → d.length = k) (hS : ∀ x d, S x = some d → d.length = k2)
    (m : List Byte) :
    DoubleDigestImpl F k S k2 m = ((F m).bind S).getD [] := by
  unfold DoubleDigestImpl
  rw [bytesAt_data]
  cases h : F m with
  | none => rfl
  | some d =>
    simp only [Option.some_bind]
    rw [bytesAt_written_full k d (hF _ d h)]
    cases h2 : S d with
    | none => rfl
    | some e => exact written_full k2 e (hS _ e h2)

theorem DoubleDigestImpl_string_eq (F : digester_t) (k : Nat) (S : digester_t) (k2 : Nat)
    (hF : ∀ x d, F x = some d → d.length = k) (hS : ∀ x d, S x = some d → d.length = k2)
    (s : List Char) :
    DoubleDigestImpl_string F k S k2 s
      = ((F (s.map (fun c => toByte c.toNat))).bind S).getD [] := by
  unfold DoubleDigestImpl_string
  rw [bytesAt_strData]
  cases h : F (s.map (fun c => toByte c.toNat)) with
  | none => rfl
  | some d =>
    simp only [Option.some_bind]
    rw [bytesAt_written_full k d (hF _ d h)]
    cases h2 : S d with
    | none => rfl
    | some e => exact written_full k2 e (hS _ e h2)

theorem SHA256_len (P : Primitives) :
    ∀ x d, P.SHA256 x = some d → d.length = kSha256DigestLength := P.SHA256_length

theorem RIPEMD160_len (P : Primitives) :
    ∀ x d, P.RIPEMD160 x = some d → d.length = kRipeMd160DigestLength := P.RIPEMD160_length

/-- C22: when the first SHA-256 pass on `x` succeeds with digest `d`, that digest has 32
bytes, the second pass reads exactly those 32 bytes, `Sha256Sha256(x)` is `Sha256` of
`Sha256(x)` and `Sha256RipeMd160(x)` is RIPEMD-160 of `Sha256(x)`, in every overload. -/
theorem C22_double_pass_composition (P : Primitives) (x d : List Byte)
    (h : P.SHA256 x = some d) :
    d.length = 32 ∧ Sha256 P x = d ∧
    bytesAt (vecData (written (List.replicate kSha256DigestLength 0) d) 0)
        kSha256DigestLength = d ∧
    (bytesAt (vecData (written (List.replicate kSha256DigestLength 0) d) 0)
        kSha256DigestLength).length = 32 ∧
    Sha256Sha256 P x = Sha256 P (Sha256 P x) ∧
    Sha256Sha256 P x = (P.SHA256 d).getD [] ∧
    Sha256RipeMd160 P x = RipeMd160 P (Sha256 P x) ∧
    Sha256RipeMd160 P x = (P.RIPEMD160 d).getD [] ∧
    Sha256Sha256_vector_out P x = P.SHA256 d ∧
    Sha256RipeMd160_vector_out P x = P.RIPEMD160 d ∧
    (∀ past, Sha256Sha256_ptr P (some (vecData x past)) x.length = P.SHA256 d) ∧
    (∀ past, Sha256RipeMd160_ptr P (some (vecData x past)) x.length = P.RIPEMD160 d) ∧
    (∀ past, Sha256Sha256_ptr_vec P (some (vecData x past)) x.length
      = (P.SHA256 d).getD []) ∧
    (∀ past, Sha256RipeMd160_ptr_vec P (some (vecData x past)) x.length
      = (P.RIPEMD160 d).getD []) ∧
    (∀ s : List Char, s.map (fun c => toByte c.toNat) = x →
      Sha256Sha256_string_out P s = P.SHA256 d ∧
      Sha256RipeMd160_string_out P s = P.RIPEMD160 d ∧
      Sha256Sha256_string P s = (P.SHA256 d).getD [] ∧
      Sha256RipeMd160_string P s = (P.RIPEMD160 d).getD []) := by
  have hd := P.SHA256_length x d h
  have h1 : Sha256 P x = d := by
    unfold Sha256
    rw [DigestImpl_eq _ _ (SHA256_len P), h]
    rfl
  have hb := bytesAt_written_full kSha256DigestLength d hd
  have h2 : Sha256Sha256 P x = (P.SHA256 d).getD [] := by
    unfold Sha256Sha256
    rw [DoubleDigestImpl_eq _ _ _ _ (SHA256_len P) (SHA256_len P), h]
    rfl
  have h3 : Sha256RipeMd160 P x = (P.RIPEMD160 d).getD [] := by
    unfold Sha256RipeMd160
    rw [DoubleDigestImpl_eq _ _ _ _ (SHA256_len P) (RIPEMD160_len P), h]
    rfl
  have hp : ∀ past, bytesAt ((some (vecData x past)).getD kNullByteFill) x.length = x :=
    fun past => bytesAt_vecData x past
  refine ⟨hd, h1, hb, by rw [hb]; exact hd, ?_, h2, ?_, h3, ?_, ?_, ?_, ?_, ?_, ?_, ?_⟩
  · rw [h2, h1]
    unfold Sha256
    rw [DigestImpl_eq _ _ (SHA256_len P)]
  · rw [h3, h1]
    unfold RipeMd160
    rw [DigestImpl_eq _ _ (RIPEMD160_len P)]
  · unfold Sha256Sha256_vector_out
    rw [DoubleDigestImpl_vector_out_eq _ _ _ (SHA256_len P), h]
    rfl
  · unfold Sha256RipeMd160_vector_out
    rw [DoubleDigestImpl_vector_out_eq _ _ _ (SHA256_len P), h]
    rfl
  · intro past
    unfold Sha256Sha256_ptr
    rw [DoubleDigestImpl_ptr_eq _ _ _ (SHA256_len P), if_neg (by simp), hp, h]
    rfl
  · intro past
    unfold Sha256RipeMd160_ptr
    rw [DoubleDigestImpl_ptr_eq _ _ _ (SHA256_len P), if_neg (by simp), hp, h]
    rfl
  · intro past
    unfold Sha256Sha256_ptr_vec
    rw [DoubleDigestImpl_ptr_vec_eq _ _ _ _ (SHA256_len P) (SHA256_len P),
      DoubleDigestImpl_ptr_eq _ _ _ (SHA256_len P), if_neg (by simp), hp, h]
    rfl
  · intro past
    unfold Sha256RipeMd160_ptr_vec
    rw [DoubleDigestImpl_ptr_vec_eq _ _ _ _ (SHA256_len P) (RIPEMD160_len P),
      DoubleDigestImpl_ptr_eq _ _ _ (SHA256_len P), if_neg (by simp), hp, h]
    rfl
  · intro s hs
    refine ⟨?_, ?_, ?_, ?_⟩
    · unfold Sha256Sha256_string_out
      rw [DoubleDigestImpl_string_out_eq _ _ _ (SHA256_len P), hs, h]
      rfl
    · unfold Sha256RipeMd160_string_out
      rw [DoubleDigestImpl_string_out_eq _ _ _ (SHA256_len P), hs, h]
      rfl
    · unfold Sha256Sha256_string
      rw [DoubleDigestImpl_string_eq _ _ _ _ (SHA256_len P) (SHA256_len P), hs, h]
      rfl
    · unfold Sha256RipeMd160_string
      rw [DoubleDigestImpl_string_eq _ _ _ _ (SHA256_len P) (RIPEMD160_len P), hs, h]
      rfl

theorem C22_double_pass_composition_witness :
    standIn.SHA256 [1, 2, 3] = some ([1, 2, 3] ++ List.replicate 29 0) ∧
    Sha256Sha256 standIn [1, 2, 3] = Sha256 standIn (Sha256 standIn [1, 2, 3]) ∧
    Sha256RipeMd160 standIn [1, 2, 3] = RipeMd160 standIn (Sha256 standIn [1, 2, 3]) ∧
    Sha256RipeMd160 standIn [1, 2, 3] = [1, 2, 3] ++ List.replicate 17 0 :=
  ⟨by decide,
   (C22_double_pass_composition standIn [1, 2, 3] ([1, 2, 3] ++ List.replicate 29 0)
      (by decide)).2.2.2.2.1,
   (C22_double_pass_composition standIn [1, 2, 3] ([1, 2, 3] ++ List.replicate 29 0)
      (by decide)).2.2.2.2.2.2.1,
   by decide⟩

/-- C23: `Digest(algorithm, data)`, in its three overloads, returns the empty vector for
`kUnknownDigestAlgorithm` and for every value that is none of the four other enumerators,
and for `kSha256`, `kRipeMd160`, `kSha256Sha256`, `kSha256RipeMd160` returns what the
function of that name returns on the same input. -/
theorem C23_Digest_dispatch (P : Primitives) (algorithm : DigestAlgorithm)
    (data : List Byte) (s : List Char) (p : Option (Nat → Byte)) (n : Nat) :
    (Digest P kUnknownDigestAlgorithm data = [] ∧
      Digest_string P kUnknownDigestAlgorithm s = [] ∧
      Digest_ptr P kUnknownDigestAlgorithm p n = []) ∧
    (algorithm ≠ kSha256 → algorithm ≠ kRipeMd160 → algorithm ≠ kSha256Sha256 →
      algorithm ≠ kSha256RipeMd160 →
      Digest P algorithm data = [] ∧ Digest_string P algorithm s = [] ∧
        Digest_ptr P algorithm p n = []) ∧
    (Digest P kSha256 data = Sha256 P data ∧
      Digest P kRipeMd160 data = RipeMd160 P data ∧
      Digest P kSha256Sha256 data = Sha256Sha256 P data ∧
      Digest P kSha256RipeMd160 data = Sha256RipeMd160 P data) ∧
    (Digest_string P kSha256 s = Sha256_string P s ∧
      Digest_string P kRipeMd160 s = RipeMd160_string P s ∧
      Digest_string P kSha256Sha256 s = Sha256Sha256_string P s ∧
      Digest_string P kSha256RipeMd160 s = Sha256RipeMd160_string P s) ∧
    (Digest_ptr P kSha256 p n = Sha256_ptr_vec P p n ∧
      Digest_ptr P kRipeMd160 p n = RipeMd160_ptr_vec P p n ∧
      Digest_ptr P kSha256Sha256 p n = Sha256Sha256_ptr_vec P p n ∧
      Digest_ptr P kSha256RipeMd160 p n = Sha256RipeMd160_ptr_vec P p n) := by
  refine ⟨⟨?_, ?_, ?_⟩, ?_, ⟨?_, ?_, ?_, ?_⟩, ⟨?_, ?_, ?_, ?_⟩, ⟨?_, ?_, ?_, ?_⟩⟩
  · unfold Digest
    rw [if_neg (by decide), if_neg (by decide), if_neg (by decide), if_neg (by decide)]
  · unfold Digest_string
    rw [if_neg (by decide), if_neg (by decide), if_neg (by decide), if_neg (by decide)]
  · unfold Digest_ptr
    rw [if_neg (by decide), if_neg (by decide), if_neg (by decide), if_neg (by decide)]
  · intro h1 h2 h3 h4
    refine ⟨?_, ?_, ?_⟩
    · unfold Digest
      rw [if_neg h1, if_neg h2, if_neg h3, if_neg h4]
    · unfold Digest_string
      rw [if_neg h1, if_neg h2, if_neg h3, if_neg h4]
    · unfold Digest_ptr
      rw [if_neg h1, if_neg h2, if_neg h3, if_neg h4]
  · unfold Digest
    rw [if_pos rfl]
  · unfold Digest
    rw [if_neg (by decide), if_pos rfl]
  · unfold Digest
    rw [if_neg (by decide), if_neg (by decide), if_pos rfl]
  · unfold Digest
    rw [if_neg (by decide), if_neg (by decide), if_neg (by decide), if_pos rfl]
  · unfold Digest_string
    rw [if_pos rfl]
  · unfold Digest_string
    rw [if_neg (by decide), if_pos rfl]
  · unfold Digest_string
    rw [if_neg (by decide), if_neg (by decide), if_pos rfl]
  · unfold Digest_string
    rw [if_neg (by decide), if_neg (by decide), if_neg (by decide), if_pos rfl]
  · unfold Digest_ptr
    rw [if_pos rfl]
  · unfold Digest_ptr
    rw [if_neg (by decide), if_pos rfl]
  · unfold Digest_ptr
    rw [if_neg (by decide), if_neg (by decide), if_pos rfl]
  · unfold Digest_ptr
    rw [if_neg (by decide), if_neg (by decide), if_neg (by decide), if_pos rfl]

/-- C24: for every one-shot digest taking `(data, data_size)`: with a null `data` and
`data_size > 0` it fails (`false`, here `none`, or the empty vector) whatever the
primitives are, and calls no primitive; with a null `data` and `data_size = 0` it returns
what the empty-string and the empty-vector overloads return, the primitive's digest of the
empty message. -/
theorem C24_null_data_pointer (P : Primitives) (F S : digester_t) (k k2 n : Nat)
    (algorithm : DigestAlgorithm) :
    (0 < n →
      (DigestImpl_ptr F none n = none ∧ DigestImpl_ptr_vec F k none n = [] ∧
        DoubleDigestImpl_ptr F k S none n = none ∧
        DoubleDigestImpl_ptr_vec F k S k2 none n = [] ∧
        DigestImpl_ptr_calls none n = 0 ∧ DoubleDigestImpl_ptr_calls F none n = 0) ∧
      (Sha256_ptr P none n = none ∧ Sha256_ptr_vec P none n = [] ∧
        RipeMd160_ptr P none n = none ∧ RipeMd160_ptr_vec P none n = [] ∧
        Sha256Sha256_ptr P none n = none ∧ Sha256Sha256_ptr_vec P none n = [] ∧
        Sha256RipeMd160_ptr P none n = none ∧ Sha256RipeMd160_ptr_vec P none n = [] ∧
        Digest_ptr P algorithm none n = [])) ∧
    (Sha256_ptr P none 0 = P.SHA256 [] ∧ Sha256_string_out P [] = P.SHA256 [] ∧
      Sha256_vector_out P [] = P.SHA256 [] ∧
      Sha256_ptr_vec P none 0 = (P.SHA256 []).getD [] ∧
      Sha256_string P [] = (P.SHA256 []).getD [] ∧
      Sha256 P [] = (P.SHA256 []).getD []) ∧
    (RipeMd160_ptr P none 0 = P.RIPEMD160 [] ∧ RipeMd160_string_out P [] = P.RIPEMD160 [] ∧
      RipeMd160_vector_out P [] = P.RIPEMD160 [] ∧
      RipeMd160_ptr_vec P none 0 = (P.RIPEMD160 []).getD [] ∧
      RipeMd160_string P [] = (P.RIPEMD160 []).getD [] ∧
      RipeMd160 P [] = (P.RIPEMD160 []).getD []) ∧
    (Sha256Sha256_ptr P none 0 = (P.SHA256 []).bind P.SHA256 ∧
      Sha256Sha256_string_out P [] = (P.SHA256 []).bind P.SHA256 ∧
      Sha256Sha256_vector_out P [] = (P.SHA256 []).bind P.SHA256 ∧
      Sha256Sha256_ptr_vec P none 0 = ((P.SHA256 []).bind P.SHA256).getD [] ∧
      Sha256Sha256_string P [] = ((P.SHA256 []).bind P.SHA256).getD [] ∧
      Sha256Sha256 P [] = ((P.SHA256 []).bind P.SHA256).getD []) ∧
    (Sha256RipeMd160_ptr P none 0 = (P.SHA256 []).bind P.RIPEMD160 ∧
      Sha256RipeMd160_string_out P [] = (P.SHA256 []).bind P.RIPEMD160 ∧
      Sha256RipeMd160_vector_out P [] = (P.SHA256 []).bind P.RIPEMD160 ∧
      Sha256RipeMd160_ptr_vec P none 0 = ((P.SHA256 []).bind P.RIPEMD160).getD [] ∧
      Sha256RipeMd160_string P [] = ((P.SHA256 []).bind P.RIPEMD160).getD [] ∧
      Sha256RipeMd160 P [] = ((P.SHA256 []).bind P.RIPEMD160).getD []) ∧
    (Digest_ptr P algorithm none 0 = Digest_string P algorithm [] ∧
      Digest_ptr P algorithm none 0 = Digest P algorithm []) ∧
    (DigestImpl_ptr_calls none 0 = 1 ∧
      (∀ d, F [] = some d → DoubleDigestImpl_ptr_calls F none 0 = 2)) := by
  have hnull : ∀ m, 0 < m → ((none : Option (Nat → Byte)).isNone = true ∧ m > 0) :=
    fun m hm => ⟨rfl, hm⟩
  have hzero : ¬ ((none : Option (Nat → Byte)).isNone = true ∧ 0 > 0) :=
    fun h => Nat.lt_irrefl 0 h.2
  have hb : bytesAt ((none : Option (Nat → Byte)).getD kNullByteFill) 0 = [] := rfl
  have s1 : Sha256_ptr P none 0 = P.SHA256 [] := by
    unfold Sha256_ptr DigestImpl_ptr
    rw [if_neg hzero, hb]
  have r1 : RipeMd160_ptr P none 0 = P.RIPEMD160 [] := by
    unfold RipeMd160_ptr DigestImpl_ptr
    rw [if_neg hzero, hb]
  have d1 : Sha256Sha256_ptr P none 0 = (P.SHA256 []).bind P.SHA256 := by
    unfold Sha256Sha256_ptr
    rw [DoubleDigestImpl_ptr_eq _ _ _ (SHA256_len P), if_neg hzero, hb]
  have e1 : Sha256RipeMd160_ptr P none 0 = (P.SHA256 []).bind P.RIPEMD160 := by
    unfold Sha256RipeMd160_ptr
    rw [DoubleDigestImpl_ptr_eq _ _ _ (SHA256_len P), if_neg hzero, hb]
  have s2 : Sha256_ptr_vec P none 0 = (P.SHA256 []).getD [] := by
    rw [← s1]
    exact DigestImpl_ptr_vec_eq _ _ (SHA256_len P) none 0
  have r2 : RipeMd160_ptr_vec P none 0 = (P.RIPEMD160 []).getD [] := by
    rw [← r1]
    exact DigestImpl_ptr_vec_eq _ _ (RIPEMD160_len P) none 0
  have d2 : Sha256Sha256_ptr_vec P none 0 = ((P.SHA256 []).bind P.SHA256).getD [] := by
    rw [← d1]
    exact DoubleDigestImpl_ptr_vec_eq _ _ _ _ (SHA256_len P) (SHA256_len P) none 0
  have e2 : Sha256RipeMd160_ptr_vec P none 0
      = ((P.SHA256 []).bind P.RIPEMD160).getD [] := by
    rw [← e1]
    exact DoubleDigestImpl_ptr_vec_eq _ _ _ _ (SHA256_len P) (RIPEMD160_len P) none 0
  have s3 : Sha256_string P [] = (P.SHA256 []).getD [] :=
    DigestImpl_string_eq _ _ (SHA256_len P) []
  have r3 : RipeMd160_string P [] = (P.RIPEMD160 []).getD [] :=
    DigestImpl_string_eq _ _ (RIPEMD160_len P) []
  have d3 : Sha256Sha256_string P [] = ((P.SHA256 []).bind P.SHA256).getD [] :=
    DoubleDigestImpl_string_eq _ _ _ _ (SHA256_len P) (SHA256_len P) []
  have e3 : Sha256RipeMd160_string P [] = ((P.SHA256 []).bind P.RIPEMD160).getD [] :=
    DoubleDigestImpl_string_eq _ _ _ _ (SHA256_len P) (RIPEMD160_len P) []
  have s4 : Sha256 P [] = (P.SHA256 []).getD [] := DigestImpl_eq _ _ (SHA256_len P) []
  have r4 : RipeMd160 P [] = (P.RIPEMD160 []).getD [] :=
    DigestImpl_eq _ _ (RIPEMD160_len P) []
  have d4 : Sha256Sha256 P [] = ((P.SHA256 []).bind P.SHA256).getD [] :=
    DoubleDigestImpl_eq _ _ _ _ (SHA256_len P) (SHA256_len P) []
  have e4 : Sha256RipeMd160 P [] = ((P.SHA256 []).bind P.RIPEMD160).getD [] :=
    DoubleDigestImpl_eq _ _ _ _ (SHA256_len P) (RIPEMD160_len P) []
  refine ⟨?_, ⟨s1, ?_, ?_, s2, s3, s4⟩, ⟨r1, ?_, ?_, r2, r3, r4⟩, ⟨d1, ?_, ?_, d2, d3, d4⟩,
    ⟨e1, ?_, ?_, e2, e3, e4⟩, ⟨?_, ?_⟩, ⟨?_, ?_⟩⟩
  · intro hn
    have g1 : DigestImpl_ptr F none n = none := by
      unfold DigestImpl_ptr
      rw [if_pos (hnull n hn)]
    have g2 : DigestImpl_ptr_vec F k none n = [] := by
      unfold DigestImpl_ptr_vec
      rw [if_pos (hnull n hn)]
    have g3 : DoubleDigestImpl_ptr F k S none n = none := by
      unfold DoubleDigestImpl_ptr
      rw [if_pos (hnull n hn)]
    have g4 : DoubleDigestImpl_ptr_vec F k S k2 none n = [] := by
      unfold DoubleDigestImpl_ptr_vec
      rw [if_pos (hnull n hn)]
    have q1 : ∀ G : digester_t, DigestImpl_ptr G none n = none := by
      intro G
      unfold DigestImpl_ptr
      rw [if_pos (hnull n hn)]
    have q2 : ∀ (G : digester_t) j, DigestImpl_ptr_vec G j none n = [] := by
      intro G j
      unfold DigestImpl_ptr_vec
      rw [if_pos (hnull n hn)]
    have q3 : ∀ (G H : digester_t) j, DoubleDigestImpl_ptr G j H none n = none := by
      intro G H j
      unfold DoubleDigestImpl_ptr
      rw [if_pos (hnull n hn)]
    have q4 : ∀ (G H : digester_t) j j2, DoubleDigestImpl_ptr_vec G j H j2 none n = [] := by
      intro G H j j2
      unfold DoubleDigestImpl_ptr_vec
      rw [if_pos (hnull n hn)]
    refine ⟨⟨g1, g2, g3, g4, ?_, ?_⟩, q1 _, q2 _ _, q1 _, q2 _ _, q3 _ _ _, q4 _ _ _ _,
      q3 _ _ _, q4 _ _ _ _, ?_⟩
    · unfold DigestImpl_ptr_calls
      rw [if_pos (hnull n hn)]
    · unfold DoubleDigestImpl_ptr_calls
      rw [if_pos (hnull n hn)]
    · unfold Digest_ptr Sha256_ptr_vec RipeMd160_ptr_vec Sha256Sha256_ptr_vec
        Sha256RipeMd160_ptr_vec
      rw [q2, q2, q4, q4]
      simp
  · exact DigestImpl_string_out_eq _ []
  · exact DigestImpl_vector_out_eq _ []
  · exact DigestImpl_string_out_eq _ []
  · exact DigestImpl_vector_out_eq _ []
  · exact DoubleDigestImpl_string_out_eq _ _ _ (SHA256_len P) []
  · exact DoubleDigestImpl_vector_out_eq _ _ _ (SHA256_len P) []
  · exact DoubleDigestImpl_string_out_eq _ _ _ (SHA256_len P) []
  · exact DoubleDigestImpl_vector_out_eq _ _ _ (SHA256_len P) []
  · unfold Digest_ptr Digest_string
    rw [s2, r2, d2, e2, s3, r3, d3, e3]
  · unfold Digest_ptr Digest
    rw [s2, r2, d2, e2, s4, r4, d4, e4]
  · unfold DigestImpl_ptr_calls
    rw [if_neg hzero]
  · intro d hd
    unfold DoubleDigestImpl_ptr_calls
    rw [if_neg hzero, hb, hd]

end crypto

namespace encode

open bn

/-! ## Sentinels of `Base58Decode` and the accepted alphabet -/

theorem Base58Decode_ne_nil (s : List Char) (hs : s ≠ []) (h : IsBase58String s = true) :
    Base58Decode s ≠ [] := by
  intro hd
  have hr := Base58Encode_Base58Decode s h 0
  rw [hd] at hr
  exact hs hr.symm

theorem char_lt_128_or (c : Char) :
    c.toNat < 128 ∨ (¬ c ≤ '9' ∧ ¬ c ≤ 'H' ∧ ¬ c ≤ 'N' ∧ ¬ c ≤ 'Z' ∧ ¬ c ≤ 'k' ∧ ¬ c ≤ 'z') := by
  by_cases hlt : c.toNat < 128
  · exact Or.inl hlt
  · right
    have hz : ¬ c ≤ 'z' := by
      intro hle
      have h1 : c.toNat ≤ 'z'.toNat := hle
      have h2 : 'z'.toNat = 122 := by decide
      omega
    exact ⟨fun hle => hz (le_trans hle (by decide)), fun hle => hz (le_trans hle (by decide)),
      fun hle => hz (le_trans hle (by decide)), fun hle => hz (le_trans hle (by decide)),
      fun hle => hz (le_trans hle (by decide)), hz⟩

theorem IsBase58Character_iff_value (c : Char) :
    IsBase58Character c = true ↔ Base58CharToValue c ≠ toByte 0xff := by
  have key : ∀ n, n < 128 → (IsBase58Character (Char.ofNat n) = true
      ↔ Base58CharToValue (Char.ofNat n) ≠ toByte 0xff) := by decide
  rcases char_lt_128_or c with hlt | ⟨h9, hH, hN, hZ, hk, hz⟩
  · have hc : c = Char.ofNat c.toNat := (Char.ofNat_toNat c).symm
    rw [hc]
    exact key c.toNat hlt
  · simp [IsBase58Character, Base58CharToValue, h9, hH, hN, hZ, hk, hz]

theorem IsBase58Character_iff_mem (c : Char) :
    IsBase58Character c = true ↔ c ∈ kBase58CharSet :=
  ⟨IsBase58Character_mem c, fun h => (alphabet_facts c h).1⟩

theorem IsBase58Character_not_alphanum (c : Char) (h : c.isAlphanum = false) :
    IsBase58Character c = false := by
  have key : ∀ n, n < 128 → (Char.ofNat n).isAlphanum = false →
      IsBase58Character (Char.ofNat n) = false := by decide
  rcases char_lt_128_or c with hlt | ⟨h9, hH, hN, hZ, hk, hz⟩
  · have hc : c = Char.ofNat c.toNat := (Char.ofNat_toNat c).symm
    rw [hc]
    exact key c.toNat hlt (hc ▸ h)
  · simp [IsBase58Character, h9, hZ, hz]

/-- C29, as stated, fails at the empty string: `IsBase58String` accepts it, and
`Base58Decode` returns for it the same empty result, and the buffer variant the same 0,
as for the rejected string "0". -/
theorem C29_empty_string_decodes_to_the_failure_value :
    IsBase58String [] = true ∧ IsBase58String ['0'] = false ∧
    Base58Decode [] = [] ∧ Base58Decode ['0'] = [] ∧
    (Base58Decode_buf [] [7] 1).1 = 0 ∧ (Base58Decode_buf ['0'] [7] 1).1 = 0 := by
  decide

/-- C29, amended: for every non-empty string that `IsBase58String` accepts,
`Base58Decode` returns a non-empty result and the buffer variant a non-zero size, so
neither can be mistaken for the empty result and the 0 returned for a rejected string. -/
theorem C29_nonempty_accepted_string_decodes_nonempty (s : List Char) (hs : s ≠ [])
    (h : IsBase58String s = true) :
    Base58Decode s ≠ [] ∧
    (∀ (buffer : List Byte) (buffer_size : Nat),
      (Base58Decode_buf s buffer buffer_size).1 ≠ 0) ∧
    (∀ t : List Char, IsBase58String t = false →
      Base58Decode t = [] ∧ Base58Decode s ≠ Base58Decode t ∧
      ∀ (buffer : List Byte) (buffer_size : Nat),
        (Base58Decode_buf t buffer buffer_size).1 = 0 ∧
        (Base58Decode_buf s buffer buffer_size).1
          ≠ (Base58Decode_buf t buffer buffer_size).1) := by
  have hne := Base58Decode_ne_nil s hs h
  have hemp : (Base58Decode s).isEmpty = false := by
    cases hd : Base58Decode s with
    | nil => exact absurd hd hne
    | cons x t => rfl
  have hlen : (Base58Decode s).length ≠ 0 := fun h0 => hne (List.length_eq_zero.mp h0)
  have hbuf : ∀ (buffer : List Byte) (buffer_size : Nat),
      (Base58Decode_buf s buffer buffer_size).1 ≠ 0 := by
    intro buffer buffer_size
    unfold Base58Decode_buf
    by_cases h0 : buffer_size = 0
    · simpa [h0] using hlen
    · simpa [h0, hemp] using hlen
  refine ⟨hne, hbuf, ?_⟩
  intro t ht
  have hd : Base58Decode t = [] := by simp [Base58Decode, ht]
  refine ⟨hd, by rw [hd]; exact hne, ?_⟩
  intro buffer buffer_size
  have hz : (Base58Decode_buf t buffer buffer_size).1 = 0 := by
    simp [Base58Decode_buf, hd]
  exact ⟨hz, by rw [hz]; exact hbuf buffer buffer_size⟩

theorem C29_nonempty_accepted_string_decodes_nonempty_witness :
    ['1', '2', 'z'] ≠ [] ∧ IsBase58String ['1', '2', 'z'] = true ∧
    Base58Decode ['1', '2', 'z'] ≠ [] ∧
    (∀ (buffer : List Byte) (buffer_size : Nat),
      (Base58Decode_buf ['1', '2', 'z'] buffer buffer_size).1 ≠ 0) :=
  ⟨by decide, by decide,
   (C29_nonempty_accepted_string_decodes_nonempty ['1', '2', 'z'] (by decide)
      (by decide)).1,
   (C29_nonempty_accepted_string_decodes_nonempty ['1', '2', 'z'] (by decide)
      (by decide)).2.1⟩

/-- C30: `IsBase58String(s)` is true exactly when every character of `s` is one of
123456789ABCDEFGHJKLMNPQRSTUVWXYZabcdefghijkmnopqrstuvwxyz; the empty string is accepted,
a string containing '0', 'O', 'I', 'l' or any character that is not a letter or a digit
(whitespace, punctuation, control characters) is rejected; and `IsBase58Character(c)`
holds exactly when `Base58CharToValue(c)` is not 0xff. -/
theorem C30_IsBase58String_iff_alphabet (s : List Char) (c : Char) :
    (IsBase58String s = true ↔ ∀ x ∈ s, x ∈ kBase58CharSet) ∧
    kBase58CharSet = "123456789ABCDEFGHJKLMNPQRSTUVWXYZabcdefghijkmnopqrstuvwxyz".toList ∧
    IsBase58String [] = true ∧
    (c ∈ s → (c = '0' ∨ c = 'O' ∨ c = 'I' ∨ c = 'l' ∨ c.isAlphanum = false) →
      IsBase58String s = false) ∧
    (IsBase58Character c = true ↔ c ∈ kBase58CharSet) ∧
    (IsBase58Character c = true ↔ Base58CharToValue c ≠ toByte 0xff) := by
  have hiff : IsBase58String s = true ↔ ∀ x ∈ s, x ∈ kBase58CharSet := by
    rw [IsBase58String_iff]
    exact ⟨fun hx x hm => (IsBase58Character_iff_mem x).mp (hx x hm),
      fun hx x hm => (IsBase58Character_iff_mem x).mpr (hx x hm)⟩
  refine ⟨hiff, rfl, rfl, ?_, IsBase58Character_iff_mem c, IsBase58Character_iff_value c⟩
  intro hmem hbad
  have hc : IsBase58Character c = false := by
    rcases hbad with h | h | h | h | h
    · subst h; decide
    · subst h; decide
    · subst h; decide
    · subst h; decide
    · exact IsBase58Character_not_alphanum c h
  cases hv : IsBase58String s with
  | false => rfl
  | true =>
    have := (IsBase58String_iff s).mp hv c hmem
    rw [hc] at this
    exact Bool.noConfusion this

end encode

namespace crypto

/-! ## Elliptic-curve keys -/

theorem standInEcc_lawful : standInEcc.Lawful where
  check_key_public := by
    intro g Q d h
    cases Q with
    | infinity => exact h
    | affine x y =>
      simp only [standInEcc, Bool.and_eq_true] at h ⊢
      exact ⟨h.1, trivial⟩
  check_key_mul := by
    intro g Q d h
    cases Q with
    | infinity => exact Bool.noConfusion h
    | affine x y =>
      simp only [standInEcc, Bool.and_eq_true, decide_eq_true_eq, beq_iff_eq] at h ⊢
      obtain ⟨⟨h0, h1, h2⟩, h3⟩ := h
      subst h3 h2
      have hm : d % 251 = d := Nat.mod_eq_of_lt h1
      rw [hm, if_neg (by omega)]
  check_key_scalar := by
    intro g Q d h
    cases Q with
    | infinity => exact Bool.noConfusion h
    | affine x y =>
      simp only [standInEcc, Bool.and_eq_true, decide_eq_true_eq, beq_iff_eq] at h ⊢
      obtain ⟨⟨h0, h1, h2⟩, h3⟩ := h
      subst h3
      have : (251 : Nat) < 2 ^ 256 := by norm_num
      omega
  order_bits_secp256k1 := rfl
  point2oct_length := by
    intro Q p h
    cases Q with
    | infinity => exact Bool.noConfusion h
    | affine x y => exact ⟨rfl, rfl⟩
  oct2point_point2oct := by
    intro g Q p form h hform
    cases Q with
    | infinity => exact Bool.noConfusion h
    | affine x y =>
      simp only [standInEcc, Bool.and_eq_true, decide_eq_true_eq] at h
      obtain ⟨⟨h0, h1, h2⟩, _⟩ := h
      subst h2
      have hx : (toByte x).val = x := by
        show x % 256 = x
        exact Nat.mod_eq_of_lt (by omega)
      rcases hform with hf | hf
      · subst hf
        simp [standInEcc, POINT_CONVERSION_COMPRESSED, toByte, List.getD_append_right, hx]
        omega
      · subst hf
        simp [standInEcc, POINT_CONVERSION_UNCOMPRESSED, toByte, List.getD_append_right, hx]
        omega
  ecdsa_verify_sign := by
    intro g Q d dgst entropy sig h hs
    cases Q with
    | infinity => exact Bool.noConfusion h
    | affine x y =>
      simp only [standInEcc, Bool.and_eq_true, decide_eq_true_eq, beq_iff_eq] at h hs ⊢
      obtain ⟨_, h3⟩ := h
      subst h3
      rw [if_pos (Option.some.inj hs).symm]
  ecdsa_sign_length := by
    intro g d dgst entropy sig hs
    simp only [standInEcc] at hs ⊢
    have := (Option.some.inj hs).symm
    subst this
    simp only [List.length_cons, List.length_take]
    omega
  ecdsa_size_int := by
    intro g
    show (72 : Nat) ≤ 2147483647
    decide

theorem CheckEcKey_iff (E : EccBackend) (g : Option Int) (Q : Option EC_POINT)
    (d : Option Nat) (cf af : Int) :
    CheckEcKey E ⟨g, Q, d, cf, af⟩ = true
      ↔ ∃ g0 Q0, g = some g0 ∧ Q = some Q0 ∧ E.check_key g0 Q0 d = true := by
  unfold CheckEcKey EC_KEY_check_key
  cases g with
  | none => simp
  | some g0 =>
    cases Q with
    | none => simp
    | some Q0 =>
      cases h : E.check_key g0 Q0 d <;> simp [h]

theorem EccNativeKey.New_eq_some (E : EccBackend) (seed : Nat) (k : EccNativeKey) :
    EccNativeKey.New E seed = some k
      ↔ ∃ d Q, E.generate_key NID_secp256k1 seed = some (d, Q) ∧
          E.check_key NID_secp256k1 Q (some d) = true ∧
          k = ⟨some ⟨some NID_secp256k1, some Q, some d, POINT_CONVERSION_COMPRESSED,
            OPENSSL_EC_NAMED_CURVE⟩, true⟩ := by
  unfold EccNativeKey.New EccNativeKey.InitNew EC_KEY_new_by_curve_name EC_KEY_generate_key
    kSecp256k1Id
  simp only
  cases hgen : E.generate_key NID_secp256k1 seed with
  | none => simp
  | some dq =>
    obtain ⟨d, Q⟩ := dq
    simp only
    cases hc : CheckEcKey E ⟨some NID_secp256k1, some Q, some d, POINT_CONVERSION_UNCOMPRESSED,
        OPENSSL_EC_NAMED_CURVE⟩ with
    | false =>
      have hn : ¬ E.check_key NID_secp256k1 Q (some d) = true := by
        intro hck
        have := (CheckEcKey_iff E (some NID_secp256k1) (some Q) (some d)
          POINT_CONVERSION_UNCOMPRESSED OPENSSL_EC_NAMED_CURVE).mpr ⟨_, _, rfl, rfl, hck⟩
        rw [hc] at this
        exact Bool.noConfusion this
      simp [hn]
    | true =>
      obtain ⟨g0, Q0, hg, hQ, hck⟩ := (CheckEcKey_iff E _ _ _ _ _).mp hc
      cases hg
      cases hQ
      simp only [Bool.not_true, Bool.false_eq_true, if_false, Option.some.injEq, Prod.mk.injEq]
      constructor
      · intro hk
        exact ⟨d, Q, ⟨rfl, rfl⟩, hck, hk.symm⟩
      · rintro ⟨d2, Q2, ⟨rfl, rfl⟩, _, hk⟩
        exact hk.symm

theorem take_written (buf sig : List Byte) : (written buf sig).take sig.length = sig := by
  unfold written
  simp

theorem Sha256Sha256_ptr_vec_eq (P : Primitives) (data : Option (Nat → Byte)) (n : Nat) :
    Sha256Sha256_ptr_vec P data n
      = if data.isNone ∧ n > 0 then []
        else ((P.SHA256 (bytesAt (data.getD kNullByteFill) n)).bind P.SHA256).getD [] := by
  unfold Sha256Sha256_ptr_vec
  rw [DoubleDigestImpl_ptr_vec_eq _ _ _ _ (SHA256_len P) (SHA256_len P),
    DoubleDigestImpl_ptr_eq _ _ _ (SHA256_len P)]
  split <;> rfl

theorem Sha256Sha256_ptr_vec_vecData (P : Primitives) (m : List Byte) (past : Byte) :
    Sha256Sha256_ptr_vec P (some (vecData m past)) m.length = Sha256Sha256 P m := by
  rw [Sha256Sha256_ptr_vec_eq, if_neg (by simp)]
  unfold Sha256Sha256
  rw [DoubleDigestImpl_eq _ _ _ _ (SHA256_len P) (SHA256_len P)]
  simp only [Option.getD_some]
  rw [bytesAt_vecData]

theorem Sha256Sha256_ptr_vec_strData (P : Primitives) (s : List Char) (hs : s ≠ []) :
    Sha256Sha256_ptr_vec P (some (strData s)) s.length = Sha256Sha256_string P s := by
  rw [Sha256Sha256_ptr_vec_eq, if_neg (by simp)]
  unfold Sha256Sha256_string
  rw [DoubleDigestImpl_string_eq _ _ _ _ (SHA256_len P) (SHA256_len P)]
  simp only [Option.getD_some]
  have h := bytesAt_strData s
  have he : s.isEmpty = false := by
    cases s with
    | nil => exact absurd rfl hs
    | cons c t => rfl
  rw [he] at h
  simp only [Bool.false_eq_true, if_false] at h
  rw [h]

/-- What `EccNativeKey::VerifySignature` computes. -/
theorem EccNativeKey.VerifySignature_iff (P : Primitives) (E : EccBackend) (k : EccNativeKey)
    (data : Option (Nat → Byte)) (n : Nat) (signature : List Byte) :
    k.VerifySignature P E data n signature = true
      ↔ signature ≠ [] ∧ signature.length ≤ kMaxInt ∧ Sha256Sha256_ptr_vec P data n ≠ [] ∧
          ECDSA_verify E (Sha256Sha256_ptr_vec P data n) signature k.key = 1 := by
  unfold EccNativeKey.VerifySignature
  cases signature with
  | nil => simp
  | cons b t =>
    simp only [List.isEmpty_cons, Bool.false_eq_true, if_false, ne_eq, not_false_eq_true,
      true_and, reduceCtorEq]
    by_cases hlen : (b :: t).length > kMaxInt
    · rw [if_pos hlen]
      simp only [Bool.false_eq_true, false_iff, not_and]
      intro h
      omega
    · rw [if_neg hlen]
      cases hd : Sha256Sha256_ptr_vec P data n with
      | nil => simp
      | cons x r =>
        simp only [List.isEmpty_cons, Bool.false_eq_true, if_false, ne_eq, not_false_eq_true,
          true_and, reduceCtorEq]
        by_cases hres : ECDSA_verify E (x :: r) (b :: t) k.key = -1
        · rw [if_pos hres, hres]
          simp only [Bool.false_eq_true, false_iff, not_and]
          intro _
          decide
        · rw [if_neg hres]
          simp only [beq_iff_eq]
          constructor
          · intro h
            exact ⟨by omega, h⟩
          · intro h
            exact h.2

theorem EccNativeKey.GenerateSignature_eq (P : Primitives) (E : EccBackend) (k : EccNativeKey)
    (data : Option (Nat → Byte)) (n : Nat) (entropy : Nat) :
    k.GenerateSignature P E data n entropy
      = if Sha256Sha256_ptr_vec P data n = [] then []
        else (ECDSA_sign E (Sha256Sha256_ptr_vec P data n) k.key entropy).getD [] := by
  unfold EccNativeKey.GenerateSignature
  cases hd : Sha256Sha256_ptr_vec P data n with
  | nil => simp
  | cons x r =>
    simp only [List.isEmpty_cons, Bool.false_eq_true, if_false, reduceCtorEq]
    cases hs : ECDSA_sign E (x :: r) k.key entropy with
    | none => rfl
    | some sig => exact take_written _ sig

/-- Signing then verifying with a checked key pair. -/
theorem EccNativeKey.sign_verify (P : Primitives) (E : EccBackend) (hE : E.Lawful)
    (g : Int) (Q : EC_POINT) (d : Nat) (hc : E.check_key g Q (some d) = true)
    (cf af : Int) (ip : Bool) (data : Option (Nat → Byte)) (n : Nat) (entropy : Nat)
    (hne : (EccNativeKey.mk (some ⟨some g, some Q, some d, cf, af⟩) ip).GenerateSignature
      P E data n entropy ≠ []) :
    (EccNativeKey.mk (some ⟨some g, some Q, some d, cf, af⟩) ip).VerifySignature P E data n
      ((EccNativeKey.mk (some ⟨some g, some Q, some d, cf, af⟩) ip).GenerateSignature
        P E data n entropy) = true := by
  rw [EccNativeKey.GenerateSignature_eq] at hne ⊢
  by_cases hd : Sha256Sha256_ptr_vec P data n = []
  · rw [if_pos hd] at hne
    exact absurd rfl hne
  · rw [if_neg hd] at hne ⊢
    have hs : ECDSA_sign E (Sha256Sha256_ptr_vec P data n)
        (some ⟨some g, some Q, some d, cf, af⟩) entropy
        = E.ecdsa_sign g d (Sha256Sha256_ptr_vec P data n) entropy := rfl
    rw [hs] at hne ⊢
    cases hsig : E.ecdsa_sign g d (Sha256Sha256_ptr_vec P data n) entropy with
    | none =>
      rw [hsig] at hne
      exact absurd rfl hne
    | some sig =>
      simp only [Option.getD_some]
      have hl := hE.ecdsa_sign_length g d _ entropy sig hsig
      have hz := hE.ecdsa_size_int g
      rw [EccNativeKey.VerifySignature_iff]
      refine ⟨?_, ?_, hd, ?_⟩
      · intro h0
        rw [h0] at hl
        exact Nat.lt_irrefl 0 hl.1
      · unfold kMaxInt
        omega
      · exact hE.ecdsa_verify_sign g Q d _ entropy sig hc hsig

theorem EccNativeKey.GenerateSignature_ne_nil (P : Primitives) (E : EccBackend)
    (hE : E.Lawful) (hP : ∀ x, P.SHA256 x ≠ none)
    (hS : ∀ g d dgst entropy, E.ecdsa_sign g d dgst entropy ≠ none)
    (g : Int) (Q : EC_POINT) (d : Nat) (cf af : Int) (ip : Bool)
    (data : Nat → Byte) (n : Nat) (entropy : Nat) :
    (EccNativeKey.mk (some ⟨some g, some Q, some d, cf, af⟩) ip).GenerateSignature
      P E (some data) n entropy ≠ [] := by
  rw [EccNativeKey.GenerateSignature_eq]
  have hd : Sha256Sha256_ptr_vec P (some data) n ≠ [] := by
    rw [Sha256Sha256_ptr_vec_eq, if_neg (by simp)]
    simp only [Option.getD_some]
    cases h1 : P.SHA256 (bytesAt data n) with
    | none => exact absurd h1 (hP _)
    | some w =>
      simp only [Option.some_bind]
      cases h2 : P.SHA256 w with
      | none => exact absurd h2 (hP _)
      | some e =>
        simp only [Option.getD_some]
        intro he
        have := P.SHA256_length w e h2
        rw [he] at this
        exact absurd this (by decide)
  rw [if_neg hd]
  have hs : ECDSA_sign E (Sha256Sha256_ptr_vec P (some data) n)
      (some ⟨some g, some Q, some d, cf, af⟩) entropy
      = E.ecdsa_sign g d (Sha256Sha256_ptr_vec P (some data) n) entropy := rfl
  rw [hs]
  cases hsig : E.ecdsa_sign g d (Sha256Sha256_ptr_vec P (some data) n) entropy with
  | none => exact absurd hsig (hS _ _ _ _)
  | some sig =>
    simp only [Option.getD_some]
    intro h0
    have hl := hE.ecdsa_sign_length g d _ entropy sig hsig
    rw [h0] at hl
    exact Nat.lt_irrefl 0 hl.1

/-- C25: for a private key `k` returned by `EccPrivateKey::New` and a non-empty message,
whenever `GenerateSignature` returns a signature (not the empty failure value),
`VerifySignature` of the message and that signature returns true, in each of the three
message overloads; and `GenerateSignature` does return a signature when the SHA-256
primitive and the ECDSA signing primitive do not fail. -/
theorem C25_verify_accepts_own_signature (P : Primitives) (E : EccBackend) (hE : E.Lawful)
    (seed : Nat) (k : EccPrivateKey) (hk : EccPrivateKey.New E seed = some k)
    (entropy : Nat) :
    (∀ m : List Byte, m ≠ [] → k.GenerateSignature P E m entropy ≠ [] →
      k.toEccPublicKey.VerifySignature P E m (k.GenerateSignature P E m entropy) = true) ∧
    (∀ m : List Char, m ≠ [] → k.GenerateSignature_string P E m entropy ≠ [] →
      k.toEccPublicKey.VerifySignature_string P E m
        (k.GenerateSignature_string P E m entropy) = true) ∧
    (∀ (p : Nat → Byte) (n : Nat), n ≠ 0 →
      k.GenerateSignature_ptr P E (some p) n entropy ≠ [] →
      k.toEccPublicKey.VerifySignature_ptr P E (some p) n
        (k.GenerateSignature_ptr P E (some p) n entropy) = true) ∧
    ((∀ x, P.SHA256 x ≠ none) → (∀ g d dgst e, E.ecdsa_sign g d dgst e ≠ none) →
      (∀ m : List Byte, m ≠ [] → k.GenerateSignature P E m entropy ≠ []) ∧
      (∀ m : List Char, m ≠ [] → k.GenerateSignature_string P E m entropy ≠ []) ∧
      (∀ (p : Nat → Byte) (n : Nat), n ≠ 0 →
        k.GenerateSignature_ptr P E (some p) n entropy ≠ [])) := by
  have hn : ∃ d Q, E.check_key NID_secp256k1 Q (some d) = true ∧
      k = ⟨⟨⟨some ⟨some NID_secp256k1, some Q, some d, POINT_CONVERSION_COMPRESSED,
        OPENSSL_EC_NAMED_CURVE⟩, true⟩⟩⟩ := by
    unfold EccPrivateKey.New at hk
    cases hnat : EccNativeKey.New E seed with
    | none =>
      rw [hnat] at hk
      exact Option.noConfusion hk
    | some nk =>
      rw [hnat] at hk
      obtain ⟨d, Q, _, hc, hnk⟩ := (EccNativeKey.New_eq_some E seed nk).mp hnat
      refine ⟨d, Q, hc, ?_⟩
      rw [← Option.some.inj hk, hnk]
  obtain ⟨d, Q, hc, rfl⟩ := hn
  have vecE : ∀ m : List Byte, m ≠ [] → m.isEmpty = false := by
    intro m hm
    cases m with
    | nil => exact absurd rfl hm
    | cons x t => rfl
  have strE : ∀ m : List Char, m ≠ [] → m.isEmpty = false := by
    intro m hm
    cases m with
    | nil => exact absurd rfl hm
    | cons x t => rfl
  have ptrE : ∀ (p : Nat → Byte) (n : Nat), n ≠ 0 → ¬ ((some p).isNone = true ∨ n = 0) := by
    intro p n hn h
    rcases h with h | h
    · exact Bool.noConfusion h
    · exact hn h
  refine ⟨?_, ?_, ?_, ?_⟩
  · intro m hm hne
    unfold EccPrivateKey.GenerateSignature at hne ⊢
    unfold EccPublicKey.VerifySignature
    simp only [vecE m hm, Bool.false_eq_true, if_false] at hne ⊢
    exact EccNativeKey.sign_verify P E hE _ Q d hc _ _ _ _ _ entropy hne
  · intro m hm hne
    unfold EccPrivateKey.GenerateSignature_string at hne ⊢
    unfold EccPublicKey.VerifySignature_string
    simp only [strE m hm, Bool.false_eq_true, if_false] at hne ⊢
    exact EccNativeKey.sign_verify P E hE _ Q d hc _ _ _ _ _ entropy hne
  · intro p n hn hne
    unfold EccPrivateKey.GenerateSignature_ptr at hne ⊢
    unfold EccPublicKey.VerifySignature_ptr
    simp only [if_neg (ptrE p n hn)] at hne ⊢
    exact EccNativeKey.sign_verify P E hE _ Q d hc _ _ _ _ _ entropy hne
  · intro hP hS
    refine ⟨?_, ?_, ?_⟩
    · intro m hm
      unfold EccPrivateKey.GenerateSignature
      simp only [vecE m hm, Bool.false_eq_true, if_false]
      exact EccNativeKey.GenerateSignature_ne_nil P E hE hP hS _ Q d _ _ _ _ _ entropy
    · intro m hm
      unfold EccPrivateKey.GenerateSignature_string
      simp only [strE m hm, Bool.false_eq_true, if_false]
      exact EccNativeKey.GenerateSignature_ne_nil P E hE hP hS _ Q d _ _ _ _ _ entropy
    · intro p n hn
      unfold EccPrivateKey.GenerateSignature_ptr
      rw [if_neg (ptrE p n hn)]
      exact EccNativeKey.GenerateSignature_ne_nil P E hE hP hS _ Q d _ _ _ _ _ entropy

theorem C25_verify_accepts_own_signature_witness :
    EccPrivateKey.New standInEcc 6
      = some ⟨⟨⟨some ⟨some 714, some (.affine 7 0), some 7, 2, 1⟩, true⟩⟩⟩ ∧
    EccPrivateKey.GenerateSignature standIn standInEcc
      ⟨⟨⟨some ⟨some 714, some (.affine 7 0), some 7, 2, 1⟩, true⟩⟩⟩ [1, 2, 3] 0
      = 7 :: ([1, 2, 3] ++ List.replicate 29 0) ∧
    EccPublicKey.VerifySignature standIn standInEcc
      ⟨⟨some ⟨some 714, some (.affine 7 0), some 7, 2, 1⟩, true⟩⟩ [1, 2, 3]
      (EccPrivateKey.GenerateSignature standIn standInEcc
        ⟨⟨⟨some ⟨some 714, some (.affine 7 0), some 7, 2, 1⟩, true⟩⟩⟩ [1, 2, 3] 0) = true :=
  ⟨by decide, by decide,
   (C25_verify_accepts_own_signature standIn standInEcc standInEcc_lawful 6
      ⟨⟨⟨some ⟨some 714, some (.affine 7 0), some 7, 2, 1⟩, true⟩⟩⟩ (by decide) 0).1
      [1, 2, 3] (by decide) (by decide)⟩

theorem ECDSA_verify_eq_one (E : EccBackend) (dgst sig : List Byte) (key : Option EC_KEY)
    (h : ECDSA_verify E dgst sig key = 1) :
    ∃ k g Q, key = some k ∧ k.group = some g ∧ k.pub_key = some Q ∧
      E.ecdsa_verify g Q dgst sig = 1 := by
  unfold ECDSA_verify at h
  cases key with
  | none => simp at h
  | some k =>
    rcases k with ⟨g, Q, d, cf, af⟩
    cases g with
    | none => simp at h
    | some g =>
      cases Q with
      | none => simp at h
      | some Q => exact ⟨_, g, Q, rfl, rfl, rfl, h⟩

/-- C26: `VerifySignature`, in each of its three overloads, returns true exactly when the
message is non-empty (and not null), the signature is non-empty and no longer than
INT_MAX, the double SHA-256 digest of the message was computed, and `ECDSA_verify` of that
digest and the signature returns 1, which it does only if the backend verifies them
under the public point of the key; in particular it returns false when `ECDSA_verify`
returns 0 or -1, for an empty or over-long signature and for an empty or null message. -/
theorem C26_VerifySignature_true_iff (P : Primitives) (E : EccBackend) (k : EccPublicKey)
    (data : List Byte) (s : List Char) (p : Option (Nat → Byte)) (n : Nat)
    (signature : List Byte) :
    (k.VerifySignature P E data signature = true ↔
      data ≠ [] ∧ signature ≠ [] ∧ signature.length ≤ kMaxInt ∧ Sha256Sha256 P data ≠ [] ∧
        ECDSA_verify E (Sha256Sha256 P data) signature k.key.key = 1) ∧
    (k.VerifySignature_string P E s signature = true ↔
      s ≠ [] ∧ signature ≠ [] ∧ signature.length ≤ kMaxInt ∧ Sha256Sha256_string P s ≠ [] ∧
        ECDSA_verify E (Sha256Sha256_string P s) signature k.key.key = 1) ∧
    (k.VerifySignature_ptr P E p n signature = true ↔
      p ≠ none ∧ n ≠ 0 ∧ signature ≠ [] ∧ signature.length ≤ kMaxInt ∧
        Sha256Sha256_ptr_vec P p n ≠ [] ∧
        ECDSA_verify E (Sha256Sha256_ptr_vec P p n) signature k.key.key = 1) ∧
    (∀ dgst, ECDSA_verify E dgst signature k.key.key = 1 →
      ∃ key g Q, k.key.key = some key ∧ key.group = some g ∧ key.pub_key = some Q ∧
        E.ecdsa_verify g Q dgst signature = 1) ∧
    ((ECDSA_verify E (Sha256Sha256 P data) signature k.key.key = 0 ∨
        ECDSA_verify E (Sha256Sha256 P data) signature k.key.key = -1 →
      k.VerifySignature P E data signature = false) ∧
     (ECDSA_verify E (Sha256Sha256_string P s) signature k.key.key = 0 ∨
        ECDSA_verify E (Sha256Sha256_string P s) signature k.key.key = -1 →
      k.VerifySignature_string P E s signature = false) ∧
     (ECDSA_verify E (Sha256Sha256_ptr_vec P p n) signature k.key.key = 0 ∨
        ECDSA_verify E (Sha256Sha256_ptr_vec P p n) signature k.key.key = -1 →
      k.VerifySignature_ptr P E p n signature = false)) ∧
    (k.VerifySignature P E data [] = false ∧ k.VerifySignature_string P E s [] = false ∧
      k.VerifySignature_ptr P E p n [] = false) ∧
    (kMaxInt < signature.length →
      k.VerifySignature P E data signature = false ∧
      k.VerifySignature_string P E s signature = false ∧
      k.VerifySignature_ptr P E p n signature = false) ∧
    (k.VerifySignature P E [] signature = false ∧
      k.VerifySignature_string P E [] signature = false ∧
      k.VerifySignature_ptr P E none n signature = false ∧
      k.VerifySignature_ptr P E p 0 signature = false) := by
  have hv : ∀ (m : List Byte) (sig : List Byte), k.VerifySignature P E m sig = true ↔
      m ≠ [] ∧ sig ≠ [] ∧ sig.length ≤ kMaxInt ∧ Sha256Sha256 P m ≠ [] ∧
        ECDSA_verify E (Sha256Sha256 P m) sig k.key.key = 1 := by
    intro m sig
    unfold EccPublicKey.VerifySignature
    cases m with
    | nil => simp
    | cons x t =>
      simp only [List.isEmpty_cons, Bool.false_eq_true, if_false, ne_eq, not_false_eq_true,
        true_and, reduceCtorEq]
      rw [EccNativeKey.VerifySignature_iff, Sha256Sha256_ptr_vec_vecData]
  have hs : ∀ (m : List Char) (sig : List Byte), k.VerifySignature_string P E m sig = true ↔
      m ≠ [] ∧ sig ≠ [] ∧ sig.length ≤ kMaxInt ∧ Sha256Sha256_string P m ≠ [] ∧
        ECDSA_verify E (Sha256Sha256_string P m) sig k.key.key = 1 := by
    intro m sig
    unfold EccPublicKey.VerifySignature_string
    cases m with
    | nil => simp
    | cons x t =>
      simp only [List.isEmpty_cons, Bool.false_eq_true, if_false, ne_eq, not_false_eq_true,
        true_and, reduceCtorEq]
      rw [EccNativeKey.VerifySignature_iff,
        Sha256Sha256_ptr_vec_strData P (x :: t) (List.cons_ne_nil x t)]
  have hp : ∀ (q : Option (Nat → Byte)) (j : Nat) (sig : List Byte),
      k.VerifySignature_ptr P E q j sig = true ↔
      q ≠ none ∧ j ≠ 0 ∧ sig ≠ [] ∧ sig.length ≤ kMaxInt ∧
        Sha256Sha256_ptr_vec P q j ≠ [] ∧
        ECDSA_verify E (Sha256Sha256_ptr_vec P q j) sig k.key.key = 1 := by
    intro q j sig
    unfold EccPublicKey.VerifySignature_ptr
    by_cases hc : q.isNone = true ∨ j = 0
    · rw [if_pos hc]
      simp only [Bool.false_eq_true, false_iff]
      rintro ⟨h1, h2, _⟩
      rcases hc with hc | hc
      · cases q with
        | none => exact h1 rfl
        | some f => exact Bool.noConfusion hc
      · exact h2 hc
    · rw [if_neg hc, EccNativeKey.VerifySignature_iff]
      have h1 : q ≠ none := by
        intro hq
        exact hc (Or.inl (by rw [hq]; rfl))
      have h2 : j ≠ 0 := fun hj => hc (Or.inr hj)
      constructor
      · intro h
        exact ⟨h1, h2, h⟩
      · intro h
        exact h.2.2
  have bf : ∀ b : Bool, ¬ b = true → b = false := by
    intro b hb
    cases b with
    | false => rfl
    | true => exact absurd rfl hb
  refine ⟨hv data signature, hs s signature, hp p n signature,
    fun dgst h => ECDSA_verify_eq_one E dgst signature k.key.key h,
    ⟨?_, ?_, ?_⟩, ⟨?_, ?_, ?_⟩, ?_, ⟨?_, ?_, ?_, ?_⟩⟩
  · intro h
    apply bf
    intro ht
    have := ((hv data signature).mp ht).2.2.2.2
    rcases h with h | h <;> rw [h] at this <;> exact absurd this (by decide)
  · intro h
    apply bf
    intro ht
    have := ((hs s signature).mp ht).2.2.2.2
    rcases h with h | h <;> rw [h] at this <;> exact absurd this (by decide)
  · intro h
    apply bf
    intro ht
    have := ((hp p n signature).mp ht).2.2.2.2.2
    rcases h with h | h <;> rw [h] at this <;> exact absurd this (by decide)
  · exact bf _ (fun ht => ((hv data []).mp ht).2.1 rfl)
  · exact bf _ (fun ht => ((hs s []).mp ht).2.1 rfl)
  · exact bf _ (fun ht => ((hp p n []).mp ht).2.2.1 rfl)
  · intro hlen
    refine ⟨bf _ ?_, bf _ ?_, bf _ ?_⟩
    · intro ht
      have := ((hv data signature).mp ht).2.2.1
      omega
    · intro ht
      have := ((hs s signature).mp ht).2.2.1
      omega
    · intro ht
      have := ((hp p n signature).mp ht).2.2.2.1
      omega
  · exact bf _ (fun ht => ((hv [] signature).mp ht).1 rfl)
  · exact bf _ (fun ht => ((hs [] signature).mp ht).1 rfl)
  · exact bf _ (fun ht => ((hp none n signature).mp ht).1 rfl)
  · exact bf _ (fun ht => ((hp p 0 signature).mp ht).2.1 rfl)

theorem CheckEcKey_eq_true (E : EccBackend) (key : EC_KEY) :
    CheckEcKey E key = true ↔ EC_KEY_check_key E key = 1 := by
  unfold CheckEcKey
  exact beq_iff_eq

theorem EccNativeKey.LoadSubjectPublicKeyInfo_iff (E : EccBackend) (input : List Byte)
    (k : EccNativeKey) :
    EccNativeKey.LoadSubjectPublicKeyInfo E input = some k ↔
      input ≠ [] ∧ ∃ pkey ec_key group,
        d2i_PUBKEY E (vecData input 0) input.length = some pkey ∧
        EVP_PKEY_base_id pkey = EVP_PKEY_EC ∧ EVP_PKEY_get1_EC_KEY pkey = some ec_key ∧
        EC_KEY_get0_group ec_key = some group ∧
        EC_GROUP_get_curve_name group = NID_secp256k1 ∧
        EC_KEY_check_key E ec_key = 1 ∧ k = ⟨some (SetEcKeyFlags ec_key), false⟩ := by
  unfold EccNativeKey.LoadSubjectPublicKeyInfo EccNativeKey.InitFromSubjectPublicKeyInfo
    kSecp256k1Id
  cases input with
  | nil => simp
  | cons x t =>
    simp only [List.isEmpty_cons, Bool.false_eq_true, if_false, ne_eq, not_false_eq_true,
      true_and, reduceCtorEq]
    cases h1 : d2i_PUBKEY E (vecData (x :: t) 0) (x :: t).length with
    | none => simp
    | some pkey =>
      simp only
      by_cases h2 : EVP_PKEY_base_id pkey = EVP_PKEY_EC
      · simp only [h2, ne_eq, not_true_eq_false, if_false]
        cases h3 : EVP_PKEY_get1_EC_KEY pkey with
        | none => simp [h3]
        | some ec_key =>
          simp only
          cases h4 : EC_KEY_get0_group ec_key with
          | none => simp [h3, h4]
          | some group =>
            simp only
            by_cases h5 : EC_GROUP_get_curve_name group = NID_secp256k1
            · simp only [h5, ne_eq, not_true_eq_false, if_false]
              cases h6 : CheckEcKey E ec_key with
              | false =>
                have h7 : ¬ EC_KEY_check_key E ec_key = 1 := by
                  rw [← CheckEcKey_eq_true, h6]
                  exact Bool.noConfusion
                simp [h2, h3, h4, h7]
              | true =>
                have h7 : EC_KEY_check_key E ec_key = 1 := (CheckEcKey_eq_true E _).mp h6
                simp only [Bool.not_true, Bool.false_eq_true, if_false, Option.some.injEq]
                constructor
                · intro hk
                  exact ⟨pkey, ec_key, group, rfl, h2, h3, h4, h5, h7, hk.symm⟩
                · rintro ⟨pkey2, ec2, g2, hp, _, he, _, _, _, hk⟩
                  cases hp
                  rw [h3] at he
                  cases he
                  exact hk.symm
            · simp only [h5, ne_eq, not_false_eq_true, if_true]
              simp only [Bool.not_false, if_true, reduceCtorEq, false_iff]
              rintro ⟨pkey2, ec2, g2, hp, _, he, hg, hn, _⟩
              cases hp
              rw [h3] at he
              cases he
              rw [h4] at hg
              cases hg
              exact h5 hn
      · simp only [h2, ne_eq, not_false_eq_true, if_true]
        simp only [Bool.not_false, if_true, reduceCtorEq, false_iff]
        rintro ⟨pkey2, ec2, g2, hp, hb, _⟩
        cases hp
        exact h2 hb

theorem EccNativeKey.LoadPrivateKeyInfo_iff (E : EccBackend) (input : List Byte)
    (k : EccNativeKey) :
    EccNativeKey.LoadPrivateKeyInfo E input = some k ↔
      input ≠ [] ∧ ∃ pkey ec_key group,
        d2i_AutoPrivateKey E (vecData input 0) input.length = some pkey ∧
        EVP_PKEY_base_id pkey = EVP_PKEY_EC ∧ EVP_PKEY_get1_EC_KEY pkey = some ec_key ∧
        EC_KEY_get0_group ec_key = some group ∧
        EC_GROUP_get_curve_name group = NID_secp256k1 ∧
        EC_KEY_check_key E ec_key = 1 ∧ k = ⟨some (SetEcKeyFlags ec_key), true⟩ := by
  unfold EccNativeKey.LoadPrivateKeyInfo EccNativeKey.InitFromPrivateKeyInfo
    kSecp256k1Id
  cases input with
  | nil => simp
  | cons x t =>
    simp only [List.isEmpty_cons, Bool.false_eq_true, if_false, ne_eq, not_false_eq_true,
      true_and, reduceCtorEq]
    cases h1 : d2i_AutoPrivateKey E (vecData (x :: t) 0) (x :: t).length with
    | none => simp
    | some pkey =>
      simp only
      by_cases h2 : EVP_PKEY_base_id pkey = EVP_PKEY_EC
      · simp only [h2, ne_eq, not_true_eq_false, if_false]
        cases h3 : EVP_PKEY_get1_EC_KEY pkey with
        | none => simp [h3]
        | some ec_key =>
          simp only
          cases h4 : EC_KEY_get0_group ec_key with
          | none => simp [h3, h4]
          | some group =>
            simp only
            by_cases h5 : EC_GROUP_get_curve_name group = NID_secp256k1
            · simp only [h5, ne_eq, not_true_eq_false, if_false]
              cases h6 : CheckEcKey E ec_key with
              | false =>
                have h7 : ¬ EC_KEY_check_key E ec_key = 1 := by
                  rw [← CheckEcKey_eq_true, h6]
                  exact Bool.noConfusion
                simp [h2, h3, h4, h7]
              | true =>
                have h7 : EC_KEY_check_key E ec_key = 1 := (CheckEcKey_eq_true E _).mp h6
                simp only [Bool.not_true, Bool.false_eq_true, if_false, Option.some.injEq]
                constructor
                · intro hk
                  exact ⟨pkey, ec_key, group, rfl, h2, h3, h4, h5, h7, hk.symm⟩
                · rintro ⟨pkey2, ec2, g2, hp, _, he, _, _, _, hk⟩
                  cases hp
                  rw [h3] at he
                  cases he
                  exact hk.symm
            · simp only [h5, ne_eq, not_false_eq_true, if_true]
              simp only [Bool.not_false, if_true, reduceCtorEq, false_iff]
              rintro ⟨pkey2, ec2, g2, hp, _, he, hg, hn, _⟩
              cases hp
              rw [h3] at he
              cases he
              rw [h4] at hg
              cases hg
              exact h5 hn
      · simp only [h2, ne_eq, not_false_eq_true, if_true]
        simp only [Bool.not_false, if_true, reduceCtorEq, false_iff]
        rintro ⟨pkey2, ec2, g2, hp, hb, _⟩
        cases hp
        exact h2 hb

theorem EccNativeKey.LoadAsPoint_iff (E : EccBackend) (input : List Byte)
    (k : EccNativeKey) :
    EccNativeKey.LoadAsPoint E input = some k ↔
      input ≠ [] ∧ ∃ key0 key,
        EC_KEY_new_by_curve_name NID_secp256k1 = some key0 ∧
        EC_KEY_oct2key E key0 (vecData input 0) input.length = some key ∧
        EC_KEY_check_key E key = 1 ∧ k = ⟨some (SetEcKeyFlags key), false⟩ := by
  unfold EccNativeKey.LoadAsPoint EccNativeKey.InitFromPoint kSecp256k1Id
  by_cases hin : input = []
  · subst hin
    simp
  · have he : input.isEmpty = false := by
      cases input with
      | nil => exact absurd rfl hin
      | cons x t => rfl
    simp only [he, Bool.false_eq_true, if_false, ne_eq, hin, not_false_eq_true, true_and]
    cases h0 : EC_KEY_new_by_curve_name NID_secp256k1 with
    | none => simp
    | some key0 =>
      simp only
      cases h1 : EC_KEY_oct2key E key0 (vecData input 0) input.length with
      | none => simp [h1]
      | some key =>
        simp only
        cases h6 : CheckEcKey E key with
        | false =>
          have h7 : ¬ EC_KEY_check_key E key = 1 := by
            rw [← CheckEcKey_eq_true, h6]
            exact Bool.noConfusion
          simp [h1, h7]
        | true =>
          have h7 : EC_KEY_check_key E key = 1 := (CheckEcKey_eq_true E _).mp h6
          simp only [Bool.not_true, Bool.false_eq_true, if_false, Option.some.injEq]
          constructor
          · intro hk
            exact ⟨key0, key, rfl, h1, h7, hk.symm⟩
          · rintro ⟨k0, k1, hk0, hk1, _, hk⟩
            cases hk0
            rw [h1] at hk1
            cases hk1
            exact hk.symm

theorem EccNativeKey.LoadAsScalar_iff (E : EccBackend) (input : List Byte)
    (k : EccNativeKey) :
    EccNativeKey.LoadAsScalar E input = some k ↔
      input ≠ [] ∧ ∃ key0 key1 group priv_scalar pub_point key2,
        EC_KEY_new_by_curve_name NID_secp256k1 = some key0 ∧
        EC_KEY_oct2priv key0 (vecData input 0) input.length = some key1 ∧
        EC_KEY_get0_group key1 = some group ∧
        EC_KEY_get0_private_key key1 = some priv_scalar ∧
        EC_POINT_mul E group priv_scalar = some pub_point ∧
        EC_KEY_set_public_key key1 pub_point = some key2 ∧
        EC_KEY_check_key E key2 = 1 ∧ k = ⟨some (SetEcKeyFlags key2), true⟩ := by
  unfold EccNativeKey.LoadAsScalar EccNativeKey.InitFromScalar kSecp256k1Id
  by_cases hin : input = []
  · subst hin
    simp
  · have he : input.isEmpty = false := by
      cases input with
      | nil => exact absurd rfl hin
      | cons x t => rfl
    simp only [he, Bool.false_eq_true, if_false, ne_eq, hin, not_false_eq_true, true_and]
    cases h0 : EC_KEY_new_by_curve_name NID_secp256k1 with
    | none => simp
    | some key0 =>
      simp only
      cases h1 : EC_KEY_oct2priv key0 (vecData input 0) input.length with
      | none => simp [h1]
      | some key1 =>
        simp only
        cases h2 : EC_KEY_get0_group key1 with
        | none => simp [h1, h2]
        | some group =>
          simp only
          cases h3 : EC_KEY_get0_private_key key1 with
          | none => simp [h1, h2, h3]
          | some priv_scalar =>
            simp only
            cases h4 : EC_POINT_mul E group priv_scalar with
            | none => simp [h1, h2, h3, h4]
            | some pub_point =>
              simp only
              cases h5 : EC_KEY_set_public_key key1 pub_point with
              | none => simp [h1, h2, h3, h4, h5]
              | some key2 =>
                simp only
                cases h6 : CheckEcKey E key2 with
                | false =>
                  have h7 : ¬ EC_KEY_check_key E key2 = 1 := by
                    rw [← CheckEcKey_eq_true, h6]
                    exact Bool.noConfusion
                  simp [h1, h2, h3, h4, h5, h7]
                | true =>
                  have h7 : EC_KEY_check_key E key2 = 1 := (CheckEcKey_eq_true E _).mp h6
                  simp only [Bool.not_true, Bool.false_eq_true, if_false, Option.some.injEq]
                  constructor
                  · intro hk
                    exact ⟨key0, key1, group, priv_scalar, pub_point, key2, rfl, h1, h2, h3,
                      h4, h5, h7, hk.symm⟩
                  · rintro ⟨a0, a1, g, d, q, a2, e0, e1, e2, e3, e4, e5, _, hk⟩
                    cases e0
                    rw [h1] at e1
                    cases e1
                    rw [h2] at e2
                    cases e2
                    rw [h3] at e3
                    cases e3
                    rw [h4] at e4
                    cases e4
                    rw [h5] at e5
                    cases e5
                    exact hk.symm

/-- C27: each of the four loaders returns a key exactly when every step succeeded: the
input is not empty and parses; for the two key-info forms the parsed key is an
elliptic-curve key and its curve is secp256k1; for a scalar the public point was computed
as scalar times generator and set; and the key-validity check returned 1.  In every other
case the loader returns null.  The key returned is the checked key with its flags set. -/
theorem C27_loader_returns_key_iff_every_step_succeeded (E : EccBackend)
    (input : List Byte) :
    (∀ k, EccPublicKey.LoadSubjectPublicKeyInfo E input = some k ↔
      input ≠ [] ∧ ∃ pkey ec_key group,
        d2i_PUBKEY E (vecData input 0) input.length = some pkey ∧
        EVP_PKEY_base_id pkey = EVP_PKEY_EC ∧ EVP_PKEY_get1_EC_KEY pkey = some ec_key ∧
        EC_KEY_get0_group ec_key = some group ∧
        EC_GROUP_get_curve_name group = NID_secp256k1 ∧
        EC_KEY_check_key E ec_key = 1 ∧ k = ⟨⟨some (SetEcKeyFlags ec_key), false⟩⟩) ∧
    (∀ k, EccPublicKey.LoadPrivateKeyInfo E input = some k ↔
      input ≠ [] ∧ ∃ pkey ec_key group,
        d2i_AutoPrivateKey E (vecData input 0) input.length = some pkey ∧
        EVP_PKEY_base_id pkey = EVP_PKEY_EC ∧ EVP_PKEY_get1_EC_KEY pkey = some ec_key ∧
        EC_KEY_get0_group ec_key = some group ∧
        EC_GROUP_get_curve_name group = NID_secp256k1 ∧
        EC_KEY_check_key E ec_key = 1 ∧ k = ⟨⟨some (SetEcKeyFlags ec_key), true⟩⟩) ∧
    (∀ k, EccPublicKey.LoadAsPoint E input = some k ↔
      input ≠ [] ∧ ∃ key0 key,
        EC_KEY_new_by_curve_name NID_secp256k1 = some key0 ∧
        EC_KEY_oct2key E key0 (vecData input 0) input.length = some key ∧
        EC_KEY_check_key E key = 1 ∧ k = ⟨⟨some (SetEcKeyFlags key), false⟩⟩) ∧
    (∀ k, EccPublicKey.LoadAsScalar E input = some k ↔
      input ≠ [] ∧ ∃ key0 key1 group priv_scalar pub_point key2,
        EC_KEY_new_by_curve_name NID_secp256k1 = some key0 ∧
        EC_KEY_oct2priv key0 (vecData input 0) input.length = some key1 ∧
        EC_KEY_get0_group key1 = some group ∧
        EC_KEY_get0_private_key key1 = some priv_scalar ∧
        EC_POINT_mul E group priv_scalar = some pub_point ∧
        EC_KEY_set_public_key key1 pub_point = some key2 ∧
        EC_KEY_check_key E key2 = 1 ∧ k = ⟨⟨some (SetEcKeyFlags key2), true⟩⟩) ∧
    (∀ k, EccPublicKey.LoadAsScalar E input = some k →
      ∃ Q, E.mul_generator NID_secp256k1 (bn.BN_bin2bn (vecData input 0) input.length)
          = some Q ∧
        E.check_key NID_secp256k1 Q (some (bn.BN_bin2bn (vecData input 0) input.length))
          = true ∧
        k.key.key = some ⟨some NID_secp256k1, some Q,
          some (bn.BN_bin2bn (vecData input 0) input.length), POINT_CONVERSION_COMPRESSED,
          OPENSSL_EC_NAMED_CURVE⟩) ∧
    (EccPublicKey.LoadSubjectPublicKeyInfo E [] = none ∧
      EccPublicKey.LoadPrivateKeyInfo E [] = none ∧
      EccPublicKey.LoadAsPoint E [] = none ∧ EccPublicKey.LoadAsScalar E [] = none) := by
  have h1 : ∀ k, EccPublicKey.LoadSubjectPublicKeyInfo E input = some k ↔
      ∃ a, EccNativeKey.LoadSubjectPublicKeyInfo E input = some a ∧ k = ⟨a⟩ := by
    intro k
    unfold EccPublicKey.LoadSubjectPublicKeyInfo
    cases EccNativeKey.LoadSubjectPublicKeyInfo E input with
    | none => simp
    | some a =>
      simp only [Option.some.injEq, exists_eq_left']
      exact ⟨fun h => h.symm, fun h => h.symm⟩
  have h2 : ∀ k, EccPublicKey.LoadPrivateKeyInfo E input = some k ↔
      ∃ a, EccNativeKey.LoadPrivateKeyInfo E input = some a ∧ k = ⟨a⟩ := by
    intro k
    unfold EccPublicKey.LoadPrivateKeyInfo
    cases EccNativeKey.LoadPrivateKeyInfo E input with
    | none => simp
    | some a =>
      simp only [Option.some.injEq, exists_eq_left']
      exact ⟨fun h => h.symm, fun h => h.symm⟩
  have h3 : ∀ k, EccPublicKey.LoadAsPoint E input = some k ↔
      ∃ a, EccNativeKey.LoadAsPoint E input = some a ∧ k = ⟨a⟩ := by
    intro k
    unfold EccPublicKey.LoadAsPoint
    cases EccNativeKey.LoadAsPoint E input with
    | none => simp
    | some a =>
      simp only [Option.some.injEq, exists_eq_left']
      exact ⟨fun h => h.symm, fun h => h.symm⟩
  have h4 : ∀ k, EccPublicKey.LoadAsScalar E input = some k ↔
      ∃ a, EccNativeKey.LoadAsScalar E input = some a ∧ k = ⟨a⟩ := by
    intro k
    unfold EccPublicKey.LoadAsScalar
    cases EccNativeKey.LoadAsScalar E input with
    | none => simp
    | some a =>
      simp only [Option.some.injEq, exists_eq_left']
      exact ⟨fun h => h.symm, fun h => h.symm⟩
  have c4 : ∀ k, EccPublicKey.LoadAsScalar E input = some k ↔
      input ≠ [] ∧ ∃ key0 key1 group priv_scalar pub_point key2,
        EC_KEY_new_by_curve_name NID_secp256k1 = some key0 ∧
        EC_KEY_oct2priv key0 (vecData input 0) input.length = some key1 ∧
        EC_KEY_get0_group key1 = some group ∧
        EC_KEY_get0_private_key key1 = some priv_scalar ∧
        EC_POINT_mul E group priv_scalar = some pub_point ∧
        EC_KEY_set_public_key key1 pub_point = some key2 ∧
        EC_KEY_check_key E key2 = 1 ∧ k = ⟨⟨some (SetEcKeyFlags key2), true⟩⟩ := by
    intro k
    rw [h4]
    constructor
    · rintro ⟨a, ha, rfl⟩
      obtain ⟨hne, k0, k1, g, d, q, k2, e0, e1, e2, e3, e4, e5, e6, rfl⟩ :=
        (EccNativeKey.LoadAsScalar_iff E input a).mp ha
      exact ⟨hne, k0, k1, g, d, q, k2, e0, e1, e2, e3, e4, e5, e6, rfl⟩
    · rintro ⟨hne, k0, k1, g, d, q, k2, e0, e1, e2, e3, e4, e5, e6, rfl⟩
      exact ⟨_, (EccNativeKey.LoadAsScalar_iff E input _).mpr
        ⟨hne, k0, k1, g, d, q, k2, e0, e1, e2, e3, e4, e5, e6, rfl⟩, rfl⟩
  refine ⟨?_, ?_, ?_, c4, ?_, ⟨rfl, rfl, rfl, rfl⟩⟩
  · intro k
    rw [h1]
    constructor
    · rintro ⟨a, ha, rfl⟩
      obtain ⟨hne, p, e, g, e1, e2, e3, e4, e5, e6, rfl⟩ :=
        (EccNativeKey.LoadSubjectPublicKeyInfo_iff E input a).mp ha
      exact ⟨hne, p, e, g, e1, e2, e3, e4, e5, e6, rfl⟩
    · rintro ⟨hne, p, e, g, e1, e2, e3, e4, e5, e6, rfl⟩
      exact ⟨_, (EccNativeKey.LoadSubjectPublicKeyInfo_iff E input _).mpr
        ⟨hne, p, e, g, e1, e2, e3, e4, e5, e6, rfl⟩, rfl⟩
  · intro k
    rw [h2]
    constructor
    · rintro ⟨a, ha, rfl⟩
      obtain ⟨hne, p, e, g, e1, e2, e3, e4, e5, e6, rfl⟩ :=
        (EccNativeKey.LoadPrivateKeyInfo_iff E input a).mp ha
      exact ⟨hne, p, e, g, e1, e2, e3, e4, e5, e6, rfl⟩
    · rintro ⟨hne, p, e, g, e1, e2, e3, e4, e5, e6, rfl⟩
      exact ⟨_, (EccNativeKey.LoadPrivateKeyInfo_iff E input _).mpr
        ⟨hne, p, e, g, e1, e2, e3, e4, e5, e6, rfl⟩, rfl⟩
  · intro k
    rw [h3]
    constructor
    · rintro ⟨a, ha, rfl⟩
      obtain ⟨hne, k0, k1, e1, e2, e3, rfl⟩ := (EccNativeKey.LoadAsPoint_iff E input a).mp ha
      exact ⟨hne, k0, k1, e1, e2, e3, rfl⟩
    · rintro ⟨hne, k0, k1, e1, e2, e3, rfl⟩
      exact ⟨_, (EccNativeKey.LoadAsPoint_iff E input _).mpr ⟨hne, k0, k1, e1, e2, e3, rfl⟩,
        rfl⟩
  · intro k hk
    obtain ⟨hne, k0, k1, g, d, q, k2, e0, e1, e2, e3, e4, e5, e6, rfl⟩ := (c4 k).mp hk
    unfold EC_KEY_new_by_curve_name at e0
    cases e0
    unfold EC_KEY_oct2priv at e1
    simp only [Option.some.injEq] at e1
    subst e1
    unfold EC_KEY_get0_group at e2
    simp only [Option.some.injEq] at e2
    subst e2
    unfold EC_KEY_get0_private_key at e3
    simp only [Option.some.injEq] at e3
    subst e3
    unfold EC_KEY_set_public_key at e5
    simp only [Option.some.injEq] at e5
    subst e5
    unfold EC_POINT_mul at e4
    refine ⟨q, e4, ?_, rfl⟩
    have hc := (CheckEcKey_eq_true E _).mpr e6
    obtain ⟨g0, Q0, hg, hQ, hck⟩ := (CheckEcKey_iff E _ _ _ _ _).mp hc
    cases hg
    cases hQ
    exact hck

theorem bn2bin_length : ∀ len a, (bn.bn2bin len a).length = len := by
  intro len
  induction len with
  | zero => intro a; rfl
  | succ n ih =>
    intro a
    simp [bn.bn2bin, ih]

theorem digits_length_le (a len : Nat) (h : a < 256 ^ len) :
    (Nat.digits 256 a).length ≤ len := by
  by_contra hc
  have hlen : len + 1 ≤ (Nat.digits 256 a).length := by omega
  have ha : a ≠ 0 := by
    intro h0
    rw [h0] at hlen
    simp at hlen
  have h1 := Nat.base_pow_length_digits_le 256 a (by decide) ha
  have h2 : 256 ^ (len + 1) ≤ 256 ^ (Nat.digits 256 a).length :=
    Nat.pow_le_pow_right (by decide) hlen
  have h3 : 256 ^ (len + 1) = 256 * 256 ^ len := by ring
  omega

theorem BN_bin2bn_bn2bin (len a : Nat) (h : a < 256 ^ len) (past : Byte) :
    bn.BN_bin2bn (vecData (bn.bn2bin len a) past) len = a := by
  have hd : (Nat.digits 256 a).length ≤ len := digits_length_le a len h
  have hb := encode.BN_bin2bn_vecData (bn.bn2bin len a) past
  rw [bn2bin_length] at hb
  rw [hb, encode.bn2bin_eq len a hd, encode.bigEndianValue_replicate_zero_append,
    encode.bigEndianValue_minimalBigEndian]

theorem EC_KEY_priv2buf_eq (E : EccBackend) (hE : E.Lawful) (Q : EC_POINT) (d : Nat)
    (hc : E.check_key NID_secp256k1 Q (some d) = true) (pub : Option EC_POINT) (cf af : Int) :
    EC_KEY_priv2buf E (some ⟨some NID_secp256k1, pub, some d, cf, af⟩) = bn.bn2bin 32 d := by
  have hlt : d < 2 ^ 256 := by
    have := hE.check_key_scalar _ _ _ hc
    rwa [hE.order_bits_secp256k1] at this
  have hd : (Nat.digits 256 d).length ≤ 32 :=
    digits_length_le d 32 (by
      have : (256 : Nat) ^ 32 = 2 ^ 256 := by norm_num
      rw [this]
      exact hlt)
  have hnb : ¬ 32 < bn.BN_num_bytes d := by
    rw [encode.BN_num_bytes_eq]
    omega
  unfold EC_KEY_priv2buf
  simp only [hE.order_bits_secp256k1]
  have h32 : (256 + 7) / 8 = 32 := by norm_num
  rw [h32]
  unfold bn.BN_bn2binpad
  rw [if_neg hnb]
  simp

/-- The key `EccPrivateKey::New` returns. -/
theorem EccPrivateKey.New_key (E : EccBackend) (seed : Nat) (k : EccPrivateKey)
    (hk : EccPrivateKey.New E seed = some k) :
    ∃ d Q, E.check_key NID_secp256k1 Q (some d) = true ∧
      k = ⟨⟨⟨some ⟨some NID_secp256k1, some Q, some d, POINT_CONVERSION_COMPRESSED,
        OPENSSL_EC_NAMED_CURVE⟩, true⟩⟩⟩ := by
  unfold EccPrivateKey.New at hk
  cases hnat : EccNativeKey.New E seed with
  | none =>
    rw [hnat] at hk
    exact Option.noConfusion hk
  | some nk =>
    rw [hnat] at hk
    obtain ⟨d, Q, _, hc, hnk⟩ := (EccNativeKey.New_eq_some E seed nk).mp hnat
    refine ⟨d, Q, hc, ?_⟩
    rw [← Option.some.inj hk, hnk]

/-- C28: for a private key `k` returned by `EccPrivateKey::New` and each compression
flag `c`, `SerializeAsPublicPoint(c)` has 33 bytes when `c` is true and 65 when it is
false, `EccPublicKey::LoadAsPoint` of those bytes returns a key, and that key serialises
(with `c`, and with the other flag too) to the bytes `k` serialises to; and
`LoadAsScalar(k.SerializeAsPrivateScalar())` returns a key whose
`SerializeAsPrivateScalar()` gives the same 32 bytes. -/
theorem C28_serialized_key_loads_back (E : EccBackend) (hE : E.Lawful) (seed : Nat)
    (k : EccPrivateKey) (hk : EccPrivateKey.New E seed = some k) (c : Bool) :
    (k.toEccPublicKey.SerializeAsPublicPoint E c).length = (if c then 33 else 65) ∧
    (∃ q, EccPublicKey.LoadAsPoint E (k.toEccPublicKey.SerializeAsPublicPoint E c) = some q ∧
      q.SerializeAsPublicPoint E c = k.toEccPublicKey.SerializeAsPublicPoint E c ∧
      ∀ c2, q.SerializeAsPublicPoint E c2 = k.toEccPublicKey.SerializeAsPublicPoint E c2) ∧
    (k.SerializeAsPrivateScalar E).length = 32 ∧
    (∃ r, EccPrivateKey.LoadAsScalar E (k.SerializeAsPrivateScalar E) = some r ∧
      r.SerializeAsPrivateScalar E = k.SerializeAsPrivateScalar E ∧
      (∃ q, EccPublicKey.LoadAsScalar E (k.SerializeAsPrivateScalar E) = some q ∧
        q = r.toEccPublicKey)) := by
  obtain ⟨d, Q, hc, rfl⟩ := EccPrivateKey.New_key E seed k hk
  have hpub := hE.check_key_public _ _ _ hc
  have hser : ∀ (b : Bool) (priv : Option Nat) (ip : Bool),
      EccPublicKey.SerializeAsPublicPoint E
        ⟨⟨some ⟨some NID_secp256k1, some Q, priv, POINT_CONVERSION_COMPRESSED,
          OPENSSL_EC_NAMED_CURVE⟩, ip⟩⟩ b
        = E.point2oct NID_secp256k1 Q (OpenSslPointConversionForm b) := by
    intro b priv ip
    unfold EccPublicKey.SerializeAsPublicPoint EccNativeKey.SerializeAsPublicPoint
      EC_KEY_key2buf
    simp only
    split
    · next h0 => exact (List.length_eq_zero.mp h0).symm
    · rfl
  have hlen := hE.point2oct_length Q _ hc
  have hform : OpenSslPointConversionForm c = POINT_CONVERSION_COMPRESSED
      ∨ OpenSslPointConversionForm c = POINT_CONVERSION_UNCOMPRESSED := by
    cases c
    · exact Or.inr rfl
    · exact Or.inl rfl
  have hl : (E.point2oct NID_secp256k1 Q (OpenSslPointConversionForm c)).length
      = (if c then 33 else 65) := by
    cases c
    · exact hlen.2
    · exact hlen.1
  have hrt := hE.oct2point_point2oct _ Q _ (OpenSslPointConversionForm c) hc hform
  have hsc : EccPrivateKey.SerializeAsPrivateScalar E
      ⟨⟨⟨some ⟨some NID_secp256k1, some Q, some d, POINT_CONVERSION_COMPRESSED,
        OPENSSL_EC_NAMED_CURVE⟩, true⟩⟩⟩ = bn.bn2bin 32 d := by
    unfold EccPrivateKey.SerializeAsPrivateScalar EccNativeKey.SerializeAsPrivateScalar
    simp only
    rw [EC_KEY_priv2buf_eq E hE Q d hc]
    rw [if_neg (by rw [bn2bin_length]; decide)]
  have hlt : d < 256 ^ 32 := by
    have := hE.check_key_scalar _ _ _ hc
    rw [hE.order_bits_secp256k1] at this
    have h2 : (256 : Nat) ^ 32 = 2 ^ 256 := by norm_num
    rw [h2]
    exact this
  have hval : bn.BN_bin2bn (vecData (bn.bn2bin 32 d) 0) (bn.bn2bin 32 d).length = d := by
    rw [bn2bin_length, BN_bin2bn_bn2bin 32 d hlt]
  have hne : bn.bn2bin 32 d ≠ [] := by
    intro h0
    have := bn2bin_length 32 d
    rw [h0] at this
    exact absurd this (by decide)
  have hgen : ∀ s : List Byte, s ≠ [] → bn.BN_bin2bn (vecData s 0) s.length = d →
      EccNativeKey.LoadAsScalar E s
        = some ⟨some ⟨some NID_secp256k1, some Q, some d, POINT_CONVERSION_COMPRESSED,
          OPENSSL_EC_NAMED_CURVE⟩, true⟩ := by
    intro s hs hv
    rw [EccNativeKey.LoadAsScalar_iff]
    refine ⟨hs,
      ⟨some NID_secp256k1, none, none, POINT_CONVERSION_UNCOMPRESSED, OPENSSL_EC_NAMED_CURVE⟩,
      ⟨some NID_secp256k1, none, some d, POINT_CONVERSION_UNCOMPRESSED,
        OPENSSL_EC_NAMED_CURVE⟩,
      NID_secp256k1, d, Q,
      ⟨some NID_secp256k1, some Q, some d, POINT_CONVERSION_UNCOMPRESSED,
        OPENSSL_EC_NAMED_CURVE⟩,
      rfl, ?_, rfl, rfl, hE.check_key_mul _ _ _ hc, rfl, ?_, rfl⟩
    · unfold EC_KEY_oct2priv
      simp only
      rw [hv]
    · rw [← CheckEcKey_eq_true, CheckEcKey_iff]
      exact ⟨_, _, rfl, rfl, hc⟩
  have hnat := hgen (bn.bn2bin 32 d) hne hval
  have hgenp : ∀ s : List Byte, s ≠ [] → E.oct2point NID_secp256k1 s = some Q →
      EccNativeKey.LoadAsPoint E s
        = some ⟨some ⟨some NID_secp256k1, some Q, none, POINT_CONVERSION_COMPRESSED,
          OPENSSL_EC_NAMED_CURVE⟩, false⟩ := by
    intro s hs hv
    rw [EccNativeKey.LoadAsPoint_iff]
    refine ⟨hs,
      ⟨some NID_secp256k1, none, none, POINT_CONVERSION_UNCOMPRESSED, OPENSSL_EC_NAMED_CURVE⟩,
      ⟨some NID_secp256k1, some Q, none, (((vecData s 0 0).val / 2 * 2 : Nat) : Int),
        OPENSSL_EC_NAMED_CURVE⟩, rfl, ?_, ?_, rfl⟩
    · unfold EC_KEY_oct2key
      simp only
      rw [bytesAt_vecData, hv]
    · rw [← CheckEcKey_eq_true, CheckEcKey_iff]
      exact ⟨_, _, rfl, rfl, hpub⟩
  have hnep : E.point2oct NID_secp256k1 Q (OpenSslPointConversionForm c) ≠ [] := by
    intro h0
    rw [h0] at hl
    cases c <;> exact absurd hl (by decide)
  have hnatp := hgenp _ hnep hrt
  refine ⟨?_, ?_, ?_, ?_⟩
  · rw [hser]
    exact hl
  · refine ⟨⟨⟨some ⟨some NID_secp256k1, some Q, none, POINT_CONVERSION_COMPRESSED,
      OPENSSL_EC_NAMED_CURVE⟩, false⟩⟩, ?_, ?_, ?_⟩
    · rw [hser]
      unfold EccPublicKey.LoadAsPoint
      rw [hnatp]
    · rw [hser, hser]
    · intro c2
      rw [hser, hser]
  · rw [hsc]
    exact bn2bin_length 32 d
  · refine ⟨⟨⟨⟨some ⟨some NID_secp256k1, some Q, some d, POINT_CONVERSION_COMPRESSED,
      OPENSSL_EC_NAMED_CURVE⟩, true⟩⟩⟩, ?_, rfl, _, ?_, rfl⟩
    · rw [hsc]
      unfold EccPrivateKey.LoadAsScalar
      rw [hnat]
    · rw [hsc]
      unfold EccPublicKey.LoadAsScalar
      rw [hnat]

theorem C28_serialized_key_loads_back_witness :
    EccPrivateKey.New standInEcc 6
      = some ⟨⟨⟨some ⟨some 714, some (.affine 7 0), some 7, 2, 1⟩, true⟩⟩⟩ ∧
    (EccPublicKey.SerializeAsPublicPoint standInEcc
      ⟨⟨some ⟨some 714, some (.affine 7 0), some 7, 2, 1⟩, true⟩⟩ true).length = 33 ∧
    (EccPrivateKey.SerializeAsPrivateScalar standInEcc
      ⟨⟨⟨some ⟨some 714, some (.affine 7 0), some 7, 2, 1⟩, true⟩⟩⟩).length = 32 :=
  ⟨by decide,
   (C28_serialized_key_loads_back standInEcc standInEcc_lawful 6
      ⟨⟨⟨some ⟨some 714, some (.affine 7 0), some 7, 2, 1⟩, true⟩⟩⟩ (by decide) true).1,
   (C28_serialized_key_loads_back standInEcc standInEcc_lawful 6
      ⟨⟨⟨some ⟨some 714, some (.affine 7 0), some 7, 2, 1⟩, true⟩⟩⟩ (by decide) true).2.2.1⟩

/-- The model evaluated on the stand-in backend: loaders that succeed and loaders
that fail, and a signature that is rejected. -/
theorem Ecc_standIn_examples :
    EccPublicKey.LoadAsScalar standInEcc [7]
      = some ⟨⟨some ⟨some 714, some (.affine 7 0), some 7, 2, 1⟩, true⟩⟩ ∧
    EccPublicKey.LoadAsScalar standInEcc [0] = none ∧
    EccPublicKey.LoadAsPoint standInEcc (2 :: (List.replicate 31 0 ++ [7]))
      = some ⟨⟨some ⟨some 714, some (.affine 7 0), none, 2, 1⟩, false⟩⟩ ∧
    EccPublicKey.LoadAsPoint standInEcc [2, 7] = none ∧
    EccPublicKey.LoadSubjectPublicKeyInfo standInEcc [7]
      = some ⟨⟨some ⟨some 714, some (.affine 7 0), none, 2, 1⟩, false⟩⟩ ∧
    EccPublicKey.LoadSubjectPublicKeyInfo standInEcc [7, 7] = none ∧
    EccPublicKey.LoadPrivateKeyInfo standInEcc [7]
      = some ⟨⟨some ⟨some 714, some (.affine 7 0), some 7, 2, 1⟩, true⟩⟩ ∧
    EccPublicKey.VerifySignature standIn standInEcc
      ⟨⟨some ⟨some 714, some (.affine 7 0), none, 2, 1⟩, false⟩⟩ [1, 2, 3]
      (7 :: ([1, 2, 3] ++ List.replicate 29 0)) = true ∧
    EccPublicKey.VerifySignature standIn standInEcc
      ⟨⟨some ⟨some 714, some (.affine 7 0), none, 2, 1⟩, false⟩⟩ [1, 2, 4]
      (7 :: ([1, 2, 3] ++ List.replicate 29 0)) = false ∧
    EccPublicKey.VerifySignature standIn standInEcc
      ⟨⟨some ⟨some 714, some (.affine 8 0), none, 2, 1⟩, false⟩⟩ [1, 2, 3]
      (7 :: ([1, 2, 3] ++ List.replicate 29 0)) = false := by
  decide

end crypto

namespace encode

/-! ## Lemmas on the hexadecimal codec -/

set_option maxRecDepth 100000 in
theorem nibble_high : ∀ (n : Fin 256) (v : Fin 16),
    ((n.val &&& 0xF) ||| ((v.val <<< 4) &&& 0xF0)) = n.val % 16 + 16 * v.val := by
  decide

set_option maxRecDepth 100000 in
theorem nibble_low : ∀ (n : Fin 256) (v : Fin 16),
    ((n.val &&& 0xF0) ||| (v.val &&& 0xF)) = n.val / 16 * 16 + v.val := by
  decide

theorem char_le_iff (a b : Char) : a ≤ b ↔ a.toNat ≤ b.toNat := Iff.rfl

theorem hexDigitValue_lt (c : Char) (v : Nat) (h : hexDigitValue c = some v) : v < 16 := by
  unfold hexDigitValue at h
  have h0 : '0'.toNat = 48 := by decide
  have h9 : '9'.toNat = 57 := by decide
  have hA : 'A'.toNat = 65 := by decide
  have hF : 'F'.toNat = 70 := by decide
  have ha : 'a'.toNat = 97 := by decide
  have hf : 'f'.toNat = 102 := by decide
  split at h
  · next hc =>
    rw [char_le_iff, char_le_iff] at hc
    cases h
    omega
  · split at h
    · next hc =>
      rw [char_le_iff, char_le_iff] at hc
      cases h
      omega
    · split at h
      · next hc =>
        rw [char_le_iff, char_le_iff] at hc
        cases h
        omega
      · exact Option.noConfusion h

theorem toByte_val_of_lt (v : Nat) (h : v < 256) : (toByte v).val = v :=
  Nat.mod_eq_of_lt h

theorem HexDecodeCharacter_eq (c : Char) (nibble : Byte) (high : Bool) :
    HexDecodeCharacter c nibble high
      = match hexDigitValue c with
        | none => (false, nibble)
        | some v =>
          (true, toByte (if high then nibble.val % 16 + 16 * v
            else nibble.val / 16 * 16 + v)) := by
  have key : ∀ v, v < 16 →
      (if high then (true, toByte ((nibble.val &&& 0xF) ||| (((toByte v).val <<< 4) &&& 0xF0)))
        else (true, toByte ((nibble.val &&& 0xF0) ||| ((toByte v).val &&& 0xF))))
      = (true, toByte (if high then nibble.val % 16 + 16 * v
            else nibble.val / 16 * 16 + v)) := by
    intro v hv
    rw [toByte_val_of_lt v (by omega)]
    cases high
    · simp only [Bool.false_eq_true, if_false]
      rw [nibble_low nibble ⟨v, hv⟩]
    · simp only [if_true]
      rw [nibble_high nibble ⟨v, hv⟩]
  cases hv : hexDigitValue c with
  | none =>
    unfold hexDigitValue at hv
    unfold HexDecodeCharacter isdigit
    split at hv
    · exact Option.noConfusion hv
    · next h1 =>
      split at hv
      · exact Option.noConfusion hv
      · next h2 =>
        split at hv
        · exact Option.noConfusion hv
        · next h3 =>
          simp only [h1, h2, h3, decide_False, Bool.false_eq_true, if_false]
  | some v =>
    have hlt := hexDigitValue_lt c v hv
    unfold hexDigitValue at hv
    unfold HexDecodeCharacter isdigit
    split at hv
    · next h1 =>
      cases hv
      simp only [h1, and_self, decide_True, if_true]
      exact key _ hlt
    · next h1 =>
      split at hv
      · next h2 =>
        cases hv
        simp only [h1, h2, and_self, decide_False, decide_True, Bool.false_eq_true, if_false,
          if_true]
        exact key _ hlt
      · next h2 =>
        split at hv
        · next h3 =>
          cases hv
          simp only [h1, h2, h3, and_self, decide_False, Bool.false_eq_true, if_false, if_true]
          exact key _ hlt
        · exact Option.noConfusion hv

theorem isxdigit_iff (c : Char) : isxdigit c = true ↔ (hexDigitValue c).isSome = true := by
  unfold isxdigit hexDigitValue
  by_cases h1 : '0' ≤ c ∧ c ≤ '9'
  · simp [h1]
  · by_cases h2 : 'A' ≤ c ∧ c ≤ 'F'
    · simp [h1, h2]
    · by_cases h3 : 'a' ≤ c ∧ c ≤ 'f'
      · simp [h1, h2, h3]
      · simp [h1, h2, h3]

theorem HexDecodeCharacter_fst (c : Char) (nibble : Byte) (high : Bool) :
    (HexDecodeCharacter c nibble high).1 = (hexDigitValue c).isSome := by
  rw [HexDecodeCharacter_eq]
  cases hexDigitValue c <;> rfl

theorem HexDecodeInternal_loop_fst (hex : Nat → Char) (ds : Nat) (reverse : Bool) :
    ∀ (n i : Nat) (data : List Byte),
      (HexDecodeInternal_loop hex ds reverse n i data).1 = true
        ↔ ∀ j, i ≤ j → j < i + 2 * n → (hexDigitValue (hex j)).isSome = true := by
  intro n
  induction n with
  | zero =>
    intro i data
    simp only [HexDecodeInternal_loop, Nat.mul_zero, Nat.add_zero, true_iff]
    intro j h1 h2
    omega
  | succ n ih =>
    intro i data
    rw [HexDecodeInternal_loop]
    simp only [HexDecodeCharacter_fst]
    cases h1 : (hexDigitValue (hex i)).isSome with
    | false =>
      simp only [Bool.not_false, if_true, Bool.false_eq_true, false_iff, not_forall]
      exact ⟨i, Nat.le_refl i, by omega, by rw [h1]; exact Bool.noConfusion⟩
    | true =>
      simp only [Bool.not_true, Bool.false_eq_true, if_false]
      cases h2 : (hexDigitValue (hex (i + 1))).isSome with
      | false =>
        simp only [Bool.not_false, if_true, Bool.false_eq_true, false_iff, not_forall]
        exact ⟨i + 1, by omega, by omega, by rw [h2]; exact Bool.noConfusion⟩
      | true =>
        simp only [Bool.not_true, Bool.false_eq_true, if_false]
        rw [ih]
        constructor
        · intro h j hj1 hj2
          by_cases e1 : j = i
          · rw [e1]; exact h1
          · by_cases e2 : j = i + 1
            · rw [e2]; exact h2
            · exact h j (by omega) (by omega)
        · intro h j hj1 hj2
          exact h j (by omega) (by omega)

theorem getD_set {α : Type} (l : List α) (i p : Nat) (a d : α) :
    (l.set i a).getD p d = if i = p ∧ p < l.length then a else l.getD p d := by
  rw [List.getD_eq_getElem?_getD, List.getD_eq_getElem?_getD, List.getElem?_set]
  by_cases h : i = p
  · subst h
    by_cases hl : i < l.length
    · simp [hl]
    · have : l[i]? = none := List.getElem?_eq_none (by omega)
      simp [hl, this]
  · simp [h]

theorem hexPairValue_eq (h l : Char) (a b : Nat) (h1 : hexDigitValue h = some a)
    (h2 : hexDigitValue l = some b) (n : Nat) :
    toByte ((toByte (n % 16 + 16 * a)).val / 16 * 16 + b) = hexPairValue h l := by
  have ha := hexDigitValue_lt h a h1
  have hn : n % 16 < 16 := Nat.mod_lt _ (by decide)
  unfold hexPairValue
  rw [h1, h2, toByte_val_of_lt _ (by omega)]
  simp only [Option.getD_some]
  congr 1
  omega

theorem HexDecodeInternal_loop_step (hex : Nat → Char) (ds : Nat) (reverse : Bool)
    (n i : Nat) (data : List Byte) (a b : Nat) (h1 : hexDigitValue (hex i) = some a)
    (h2 : hexDigitValue (hex (i + 1)) = some b) :
    HexDecodeInternal_loop hex ds reverse (n + 1) i data
      = HexDecodeInternal_loop hex ds reverse n (i + 2)
          (data.set (if reverse then ds - (i / 2) - 1 else i / 2)
            (hexPairValue (hex i) (hex (i + 1)))) := by
  rw [HexDecodeInternal_loop]
  simp only [HexDecodeCharacter_eq, h1, h2, if_true, Bool.not_true, Bool.false_eq_true,
    if_false]
  generalize (if reverse = true then ds - i / 2 - 1 else i / 2) = didx
  by_cases hr : didx < data.length
  · rw [getD_set, if_pos ⟨rfl, hr⟩, List.set_set, hexPairValue_eq _ _ a b h1 h2]
  · have hs : ∀ x : Byte, data.set didx x = data := by
      intro x
      apply List.ext_getElem?
      intro k
      rw [List.getElem?_set]
      by_cases hk : didx = k
      · subst hk
        have : data[didx]? = none := List.getElem?_eq_none (by omega)
        simp [this]
        omega
      · simp [hk]
    rw [hs, hs, hs]

theorem HexDecodeInternal_loop_forward (hex : Nat → Char) (ds : Nat) :
    ∀ (n m : Nat) (data : List Byte),
      (∀ j, 2 * m ≤ j → j < 2 * m + 2 * n → (hexDigitValue (hex j)).isSome = true) →
      (HexDecodeInternal_loop hex ds false n (2 * m) data).2.length = data.length ∧
      ∀ p, (HexDecodeInternal_loop hex ds false n (2 * m) data).2.getD p 0
        = if m ≤ p ∧ p < m + n ∧ p < data.length then
            hexPairValue (hex (2 * p)) (hex (2 * p + 1))
          else data.getD p 0 := by
  intro n
  induction n with
  | zero =>
    intro m data _
    refine ⟨rfl, ?_⟩
    intro p
    rw [if_neg (by omega)]
    rfl
  | succ n ih =>
    intro m data hv
    obtain ⟨a, ha⟩ := Option.isSome_iff_exists.mp (hv (2 * m) (by omega) (by omega))
    obtain ⟨b, hb⟩ := Option.isSome_iff_exists.mp (hv (2 * m + 1) (by omega) (by omega))
    rw [HexDecodeInternal_loop_step hex ds false n (2 * m) data a b ha hb]
    simp only [Bool.false_eq_true, if_false]
    have h2 : 2 * m / 2 = m := by omega
    have h3 : 2 * m + 2 = 2 * (m + 1) := by omega
    rw [h2, h3]
    obtain ⟨hl, hg⟩ := ih (m + 1) (data.set m (hexPairValue (hex (2 * m)) (hex (2 * m + 1))))
      (fun j hj1 hj2 => hv j (by omega) (by omega))
    refine ⟨by rw [hl, List.length_set], ?_⟩
    intro p
    rw [hg, List.length_set, getD_set]
    by_cases hp : m = p
    · subst hp
      by_cases hlen : m < data.length
      · rw [if_neg (by omega), if_pos ⟨rfl, hlen⟩, if_pos ⟨Nat.le_refl m, by omega, hlen⟩]
      · rw [if_neg (by omega), if_neg (by omega), if_neg (by omega)]
    · by_cases hc : m + 1 ≤ p ∧ p < m + 1 + n ∧ p < data.length
      · rw [if_pos hc, if_pos ⟨by omega, by omega, hc.2.2⟩]
      · rw [if_neg hc, if_neg (by omega), if_neg (by omega)]

theorem HexDecodeInternal_loop_reverse (hex : Nat → Char) (ds : Nat) :
    ∀ (n m : Nat) (data : List Byte), m + n ≤ ds →
      (∀ j, 2 * m ≤ j → j < 2 * m + 2 * n → (hexDigitValue (hex j)).isSome = true) →
      (HexDecodeInternal_loop hex ds true n (2 * m) data).2.length = data.length ∧
      ∀ p, (HexDecodeInternal_loop hex ds true n (2 * m) data).2.getD p 0
        = if ds - (m + n) ≤ p ∧ p < ds - m ∧ p < data.length then
            hexPairValue (hex (2 * (ds - 1 - p))) (hex (2 * (ds - 1 - p) + 1))
          else data.getD p 0 := by
  intro n
  induction n with
  | zero =>
    intro m data _ _
    refine ⟨rfl, ?_⟩
    intro p
    rw [if_neg (by omega)]
    rfl
  | succ n ih =>
    intro m data hmn hv
    obtain ⟨a, ha⟩ := Option.isSome_iff_exists.mp (hv (2 * m) (by omega) (by omega))
    obtain ⟨b, hb⟩ := Option.isSome_iff_exists.mp (hv (2 * m + 1) (by omega) (by omega))
    rw [HexDecodeInternal_loop_step hex ds true n (2 * m) data a b ha hb]
    simp only [if_true]
    have h2 : 2 * m / 2 = m := by omega
    have h3 : 2 * m + 2 = 2 * (m + 1) := by omega
    rw [h2, h3]
    obtain ⟨hl, hg⟩ := ih (m + 1)
      (data.set (ds - m - 1) (hexPairValue (hex (2 * m)) (hex (2 * m + 1)))) (by omega)
      (fun j hj1 hj2 => hv j (by omega) (by omega))
    refine ⟨by rw [hl, List.length_set], ?_⟩
    intro p
    rw [hg, List.length_set, getD_set]
    by_cases hp : ds - m - 1 = p
    · subst hp
      have e : ds - 1 - (ds - m - 1) = m := by omega
      by_cases hlen : ds - m - 1 < data.length
      · rw [if_neg (by omega), if_pos ⟨rfl, hlen⟩, if_pos ⟨by omega, by omega, hlen⟩, e]
      · rw [if_neg (by omega), if_neg (by omega), if_neg (by omega)]
    · by_cases hc : ds - (m + 1 + n) ≤ p ∧ p < ds - (m + 1) ∧ p < data.length
      · rw [if_pos hc, if_pos ⟨by omega, by omega, hc.2.2⟩]
      · rw [if_neg hc, if_neg (by omega)]
        by_cases hc2 : ds - (m + (n + 1)) ≤ p ∧ p < ds - m ∧ p < data.length
        · exfalso
          omega
        · rw [if_neg hc2]

theorem foldl_set2 {α : Type} (a b : Nat → α) (hex : List α) (d : α) :
    ∀ k, ((List.range k).foldl (fun h i => (h.set (i * 2) (a i)).set (i * 2 + 1) (b i))
        hex).length = hex.length ∧
      ∀ j, ((List.range k).foldl (fun h i => (h.set (i * 2) (a i)).set (i * 2 + 1) (b i))
        hex).getD j d
        = if j < 2 * k ∧ j < hex.length then (if j % 2 = 0 then a (j / 2) else b (j / 2))
          else hex.getD j d := by
  intro k
  induction k with
  | zero =>
    refine ⟨rfl, ?_⟩
    intro j
    rw [if_neg (by omega)]
    rfl
  | succ k ih =>
    obtain ⟨hl, hg⟩ := ih
    rw [List.range_succ, List.foldl_append]
    simp only [List.foldl_cons, List.foldl_nil]
    refine ⟨by rw [List.length_set, List.length_set, hl], ?_⟩
    intro j
    rw [getD_set, List.length_set, getD_set, hl, hg]
    by_cases h1 : k * 2 + 1 = j
    · subst h1
      by_cases hlen : k * 2 + 1 < hex.length
      · rw [if_pos ⟨rfl, hlen⟩, if_pos ⟨by omega, hlen⟩, if_neg (by omega)]
        congr 1
        omega
      · rw [if_neg (by omega), if_neg (by omega), if_neg (by omega), if_neg (by omega)]
    · rw [if_neg (by omega)]
      by_cases h2 : k * 2 = j
      · subst h2
        by_cases hlen : k * 2 < hex.length
        · rw [if_pos ⟨rfl, hlen⟩, if_pos ⟨by omega, hlen⟩, if_pos (by omega)]
          congr 1
          omega
        · rw [if_neg (by omega), if_neg (by omega), if_neg (by omega)]
      · rw [if_neg (by omega)]
        by_cases h3 : j < 2 * k ∧ j < hex.length
        · have h4 : j < 2 * (k + 1) ∧ j < hex.length := ⟨by omega, h3.2⟩
          simp only [if_pos h3, if_pos h4]
        · have h4 : ¬ (j < 2 * (k + 1) ∧ j < hex.length) := by omega
          simp only [if_neg h3, if_neg h4]

theorem ext_getD {α : Type} (l1 l2 : List α) (d : α) (hl : l1.length = l2.length)
    (h : ∀ p, p < l1.length → l1.getD p d = l2.getD p d) : l1 = l2 := by
  apply List.ext_getElem hl
  intro p h1 h2
  have := h p h1
  rwa [List.getD_eq_getElem _ _ h1, List.getD_eq_getElem _ _ h2] at this

theorem getD_map_range {α : Type} (f : Nat → α) (n p : Nat) (d : α) :
    ((List.range n).map f).getD p d = if p < n then f p else d := by
  by_cases h : p < n
  · rw [if_pos h, List.getD_eq_getElem _ _ (by simpa using h)]
    simp
  · rw [if_neg h, List.getD_eq_default _ _ (by simpa using h)]

set_option maxRecDepth 100000 in
theorem byte_nibbles : ∀ x : Fin 256,
    (x.val >>> 4) &&& 0xF = x.val / 16 ∧ x.val &&& 0xF = x.val % 16 := by
  decide

theorem getD_reverse {α : Type} (l : List α) (p : Nat) (d : α) (h : p < l.length) :
    l.reverse.getD p d = l.getD (l.length - 1 - p) d := by
  rw [List.getD_eq_getElem _ _ (by simpa using h), List.getD_eq_getElem _ _ (by omega),
    List.getElem_reverse]

theorem bytesAt_len (p : Nat → Byte) (n : Nat) : (bytesAt p n).length = n := by
  simp [bytesAt]

theorem vecData_bytesAt (data : Nat → Byte) (n t : Nat) (h : t < n) :
    vecData (bytesAt data n) 0 t = data t := by
  unfold vecData bytesAt
  rw [getD_map_range, if_pos h]

theorem hexSpelling_length (b : List Byte) : (hexSpelling b).length = 2 * b.length := by
  simp [hexSpelling]

theorem HexEncodeInternal_eq (data : Nat → Byte) (size : Nat) (hex : List Char)
    (hl : hex.length = 2 * size) (reverse : Bool) :
    HexEncodeInternal data size hex reverse
      = (true, hexSpelling (if reverse then (bytesAt data size).reverse
          else bytesAt data size)) := by
  unfold HexEncodeInternal
  cases reverse with
  | false =>
    simp only [Bool.false_eq_true, if_false]
    congr 1
    obtain ⟨h1, h2⟩ := foldl_set2
      (fun i => kLowerHexSet.getD (((data i).val >>> 4) &&& 0xF) (Char.ofNat 0))
      (fun i => kLowerHexSet.getD ((data i).val &&& 0xF) (Char.ofNat 0)) hex (Char.ofNat 0)
      size
    apply ext_getD _ _ (Char.ofNat 0)
    · rw [h1, hl, hexSpelling_length, bytesAt_len]
    · intro p hp
      rw [h1, hl] at hp
      rw [h2, if_pos ⟨hp, by omega⟩]
      unfold hexSpelling
      rw [getD_map_range, bytesAt_len, if_pos hp, vecData_bytesAt _ _ _ (by omega),
        (byte_nibbles (data (p / 2))).1, (byte_nibbles (data (p / 2))).2]
      rfl
  | true =>
    simp only [if_true]
    congr 1
    obtain ⟨h1, h2⟩ := foldl_set2
      (fun i => kLowerHexSet.getD (((data (size - i - 1)).val >>> 4) &&& 0xF) (Char.ofNat 0))
      (fun i => kLowerHexSet.getD ((data (size - i - 1)).val &&& 0xF) (Char.ofNat 0)) hex
      (Char.ofNat 0) size
    apply ext_getD _ _ (Char.ofNat 0)
    · rw [h1, hl, hexSpelling_length, List.length_reverse, bytesAt_len]
    · intro p hp
      rw [h1, hl] at hp
      rw [h2, if_pos ⟨hp, by omega⟩]
      unfold hexSpelling
      rw [getD_map_range, List.length_reverse, bytesAt_len, if_pos hp]
      have hv : vecData (bytesAt data size).reverse 0 (p / 2) = data (size - p / 2 - 1) := by
        unfold vecData
        rw [getD_reverse _ _ _ (by rw [bytesAt_len]; omega), bytesAt_len]
        have := vecData_bytesAt data size (size - 1 - p / 2) (by omega)
        unfold vecData at this
        rw [this]
        congr 1
        omega
      rw [hv, (byte_nibbles (data (size - p / 2 - 1))).1,
        (byte_nibbles (data (size - p / 2 - 1))).2]
      rfl

theorem HexEncode_eq (b : List Byte) (reverse : Bool) :
    HexEncode b reverse = hexSpelling (if reverse then b.reverse else b) := by
  unfold HexEncode
  cases hb : b with
  | nil => cases reverse <;> rfl
  | cons x t =>
    rw [← hb]
    have he : b.isEmpty = false := by rw [hb]; rfl
    simp only [he, Bool.false_eq_true, if_false]
    rw [HexEncodeInternal_eq _ _ _ (by simp; omega)]
    simp only [Bool.not_true, Bool.false_eq_true, if_false]
    have hbytes : bytesAt (vecData b 0) b.length = b := by
      apply ext_getD _ _ (0 : Byte)
      · rw [bytesAt_len]
      · intro p hp
        rw [bytesAt_len] at hp
        unfold bytesAt
        rw [getD_map_range, if_pos hp]
        rfl
    rw [hbytes]

theorem strChars_lt (s : List Char) (j : Nat) (h : j < s.length) : strChars s j = s[j] := by
  unfold strChars
  exact List.getD_eq_getElem _ _ h

theorem valid_chars_iff (s : List Char) (n : Nat) (hn : n ≤ s.length) :
    (∀ j, 0 ≤ j → j < n → (hexDigitValue (strChars s j)).isSome = true)
      ↔ ∀ c ∈ s.take n, (hexDigitValue c).isSome = true := by
  constructor
  · intro h c hc
    obtain ⟨j, hj, hcj⟩ := List.mem_iff_getElem.mp hc
    have hjn : j < n := by
      rw [List.length_take] at hj
      omega
    have := h j (Nat.zero_le j) hjn
    rw [strChars_lt s j (by omega)] at this
    rw [← hcj, List.getElem_take]
    exact this
  · intro h j _ hj
    rw [strChars_lt s j (by omega)]
    apply h
    have hjt : j < (s.take n).length := by
      rw [List.length_take]
      omega
    have e : (s.take n)[j] = s[j] := by simp
    rw [← e]
    exact List.getElem_mem hjt

theorem and_one_ne_zero_iff (n : Nat) : n &&& 1 ≠ 0 ↔ n % 2 = 1 := by
  rw [Nat.and_one_is_mod]
  omega

theorem IsHexString_iff (s : List Char) :
    IsHexString s = true
      ↔ s.length % 2 = 0 ∧ ∀ c ∈ s, (hexDigitValue c).isSome = true := by
  unfold IsHexString
  cases hs : s with
  | nil => simp
  | cons x t =>
    rw [← hs]
    have he : s.isEmpty = false := by rw [hs]; rfl
    simp only [he, Bool.false_eq_true, if_false]
    by_cases hodd : s.length &&& 1 ≠ 0
    · rw [if_pos hodd]
      have := (and_one_ne_zero_iff s.length).mp hodd
      simp only [Bool.false_eq_true, false_iff, not_and]
      intro h0
      omega
    · rw [if_neg hodd]
      have hev : s.length % 2 = 0 := by
        have := (and_one_ne_zero_iff s.length).not.mp hodd
        omega
      simp only [List.all_eq_true, isxdigit_iff, hev, true_and]

/-- What the vector-returning `HexDecode` computes. -/
theorem HexDecode_eq (s : List Char) (reverse : Bool) :
    HexDecode s reverse
      = if s.length % 2 = 0 ∧ (∀ c ∈ s, (hexDigitValue c).isSome = true) then
          (if reverse then (hexPairs s).reverse else hexPairs s)
        else [] := by
  unfold HexDecode
  cases hs : s with
  | nil => cases reverse <;> simp [hexPairs]
  | cons x t =>
    rw [← hs]
    have he : s.isEmpty = false := by rw [hs]; rfl
    simp only [he, Bool.false_eq_true, if_false]
    by_cases hodd : s.length &&& 1 ≠ 0
    · rw [if_pos hodd]
      have := (and_one_ne_zero_iff s.length).mp hodd
      rw [if_neg (by omega)]
    · rw [if_neg hodd]
      have hev : s.length % 2 = 0 := by
        have := (and_one_ne_zero_iff s.length).not.mp hodd
        omega
      unfold HexDecodeInternal
      have hn : (s.length + 1) / 2 = s.length / 2 := by omega
      simp only [hn]
      have h0 : (0 : Nat) = 2 * 0 := rfl
      have hfst := HexDecodeInternal_loop_fst (strChars s) (s.length / 2) reverse
        (s.length / 2) 0 (List.replicate (s.length / 2) 0)
      have h2n : 0 + 2 * (s.length / 2) = s.length := by omega
      rw [h2n, valid_chars_iff s s.length (Nat.le_refl _), List.take_length] at hfst
      by_cases hv : ∀ c ∈ s, (hexDigitValue c).isSome = true
      · have hc : s.length % 2 = 0 ∧ ∀ c ∈ s, (hexDigitValue c).isSome = true := ⟨hev, hv⟩
        rw [if_pos hc]
        have hok := hfst.mpr hv
        rw [hok]
        simp only [Bool.not_true, Bool.false_eq_true, if_false]
        have hvalid : ∀ j, 2 * 0 ≤ j → j < 2 * 0 + 2 * (s.length / 2) →
            (hexDigitValue (strChars s j)).isSome = true := by
          intro j _ hj
          have := (valid_chars_iff s s.length (Nat.le_refl _)).mpr
            (by rw [List.take_length]; exact hv)
          exact this j (Nat.zero_le j) (by omega)
        cases reverse with
        | false =>
          simp only [Bool.false_eq_true, if_false]
          obtain ⟨hl, hg⟩ := HexDecodeInternal_loop_forward (strChars s) (s.length / 2)
            (s.length / 2) 0 (List.replicate (s.length / 2) 0) hvalid
          rw [← h0] at hl hg
          apply ext_getD _ _ (0 : Byte)
          · rw [hl, List.length_replicate]
            simp [hexPairs]
          · intro p hp
            rw [hl, List.length_replicate] at hp
            rw [hg, List.length_replicate, if_pos ⟨Nat.zero_le p, by omega, hp⟩]
            unfold hexPairs
            rw [getD_map_range, if_pos hp]
        | true =>
          simp only [if_true]
          obtain ⟨hl, hg⟩ := HexDecodeInternal_loop_reverse (strChars s) (s.length / 2)
            (s.length / 2) 0 (List.replicate (s.length / 2) 0) (by omega) hvalid
          rw [← h0] at hl hg
          have hpl : (hexPairs s).length = s.length / 2 := by simp [hexPairs]
          apply ext_getD _ _ (0 : Byte)
          · rw [hl, List.length_replicate, List.length_reverse, hpl]
          · intro p hp
            rw [hl, List.length_replicate] at hp
            rw [hg, List.length_replicate, if_pos ⟨by omega, by omega, hp⟩,
              getD_reverse _ _ _ (by rw [hpl]; exact hp), hpl]
            unfold hexPairs
            rw [getD_map_range, if_pos (by omega)]
      · have hnv : ¬ (s.length % 2 = 0 ∧ ∀ c ∈ s, (hexDigitValue c).isSome = true) :=
          fun h => hv h.2
        rw [if_neg hnv]
        have hfalse : (HexDecodeInternal_loop (strChars s) (s.length / 2) reverse
            (s.length / 2) 0 (List.replicate (s.length / 2) 0)).1 = false := by
          cases hb : (HexDecodeInternal_loop (strChars s) (s.length / 2) reverse
            (s.length / 2) 0 (List.replicate (s.length / 2) 0)).1 with
          | false => rfl
          | true => exact absurd (hfst.mp hb) hv
        rw [hfalse]
        rfl

set_option maxRecDepth 100000 in
theorem lowerHexDigit_facts : ∀ n, n < 16 →
    (lowerHexDigit n ∈ kLowerHexSet ∧ hexDigitValue (lowerHexDigit n) = some n) := by
  decide

set_option maxRecDepth 100000 in
theorem hexPairValue_lowerHexDigit : ∀ x : Fin 256,
    hexPairValue (lowerHexDigit (x.val / 16)) (lowerHexDigit (x.val % 16)) = x := by
  decide

theorem hexSpelling_getD (b : List Byte) (j : Nat) (h : j < 2 * b.length) :
    strChars (hexSpelling b) j
      = if j % 2 = 0 then lowerHexDigit ((vecData b 0 (j / 2)).val / 16)
        else lowerHexDigit ((vecData b 0 (j / 2)).val % 16) := by
  unfold strChars hexSpelling
  rw [getD_map_range, if_pos h]

theorem hexSpelling_mem (b : List Byte) (c : Char) (h : c ∈ hexSpelling b) :
    c ∈ kLowerHexSet ∧ (hexDigitValue c).isSome = true := by
  unfold hexSpelling at h
  obtain ⟨j, _, hj⟩ := List.mem_map.mp h
  have h16 : ∀ x : Byte, x.val / 16 < 16 ∧ x.val % 16 < 16 := by
    intro x
    have := x.isLt
    omega
  split at hj
  · have := lowerHexDigit_facts _ (h16 (vecData b 0 (j / 2))).1
    rw [hj] at this
    exact ⟨this.1, by rw [this.2]; rfl⟩
  · have := lowerHexDigit_facts _ (h16 (vecData b 0 (j / 2))).2
    rw [hj] at this
    exact ⟨this.1, by rw [this.2]; rfl⟩

theorem hexPairs_hexSpelling (b : List Byte) : hexPairs (hexSpelling b) = b := by
  apply ext_getD _ _ (0 : Byte)
  · simp [hexPairs, hexSpelling_length]
  · intro p hp
    have hp2 : p < b.length := by
      simpa [hexPairs, hexSpelling_length] using hp
    unfold hexPairs
    rw [getD_map_range, hexSpelling_length, if_pos (by omega),
      hexSpelling_getD b (2 * p) (by omega), hexSpelling_getD b (2 * p + 1) (by omega),
      if_pos (by omega), if_neg (by omega)]
    have e1 : 2 * p / 2 = p := by omega
    have e2 : (2 * p + 1) / 2 = p := by omega
    rw [e1, e2, hexPairValue_lowerHexDigit]
    rfl

theorem HexDecode_hexSpelling (b : List Byte) (reverse : Bool) :
    HexDecode (hexSpelling b) reverse = if reverse then b.reverse else b := by
  rw [HexDecode_eq, hexSpelling_length, hexPairs_hexSpelling]
  have hc : 2 * b.length % 2 = 0 ∧ ∀ c ∈ hexSpelling b, (hexDigitValue c).isSome = true :=
    ⟨by omega, fun c hc => (hexSpelling_mem b c hc).2⟩
  rw [if_pos hc]

/-- C31: for every byte sequence `b` and each value of the reverse flag, decoding the
encoding of `b` gives `b` back; the encoding has `2 * len(b)` characters, each one of
`0123456789abcdef`; and encoding with the flag set is encoding the bytes in reverse
order.  The pointer-and-size overload of `HexEncode` gives the same string. -/
theorem C31_HexDecode_HexEncode (b : List Byte) (r : Bool) :
    HexDecode (HexEncode b r) r = b ∧
    (HexEncode b r).length = 2 * b.length ∧
    (∀ c ∈ HexEncode b r, c ∈ "0123456789abcdef".toList) ∧
    HexEncode b true = HexEncode b.reverse false ∧
    (∀ past, HexEncode_ptr (vecData b past) b.length r = HexEncode b r) := by
  refine ⟨?_, ?_, ?_, ?_, ?_⟩
  · rw [HexEncode_eq, HexDecode_hexSpelling]
    cases r
    · rfl
    · simp
  · rw [HexEncode_eq, hexSpelling_length]
    cases r
    · rfl
    · simp
  · intro c hc
    rw [HexEncode_eq] at hc
    exact (hexSpelling_mem _ c hc).1
  · rw [HexEncode_eq, HexEncode_eq]
    rfl
  · intro past
    rw [HexEncode_eq]
    unfold HexEncode_ptr
    cases hb : b with
    | nil => cases r <;> rfl
    | cons x t =>
      rw [← hb]
      have hne : b.length ≠ 0 := by rw [hb]; simp
      rw [if_neg hne]
      simp only
      rw [HexEncodeInternal_eq _ _ _ (by simp; omega), bytesAt_vecData]
      rfl

theorem char_ge_128 (c : Char) (h : 128 ≤ c.toNat) (k : Char) (hk : k.toNat < 128) :
    ¬ c ≤ k := by
  intro hle
  rw [char_le_iff] at hle
  omega

theorem hexDigitValue_none_of_ge (c : Char) (h : 128 ≤ c.toNat) : hexDigitValue c = none := by
  unfold hexDigitValue
  have h1 := char_ge_128 c h '9' (by decide)
  have h2 := char_ge_128 c h 'F' (by decide)
  have h3 := char_ge_128 c h 'f' (by decide)
  simp [h1, h2, h3]

set_option maxRecDepth 100000 in
theorem hexDigitValue_isSome_iff_mem (c : Char) :
    (hexDigitValue c).isSome = true ↔ c ∈ "0123456789abcdefABCDEF".toList := by
  have key : ∀ n, n < 128 → ((hexDigitValue (Char.ofNat n)).isSome = true
      ↔ Char.ofNat n ∈ "0123456789abcdefABCDEF".toList) := by decide
  have hall : ∀ x ∈ "0123456789abcdefABCDEF".toList, x.toNat < 128 := by decide
  by_cases hlt : c.toNat < 128
  · have hc : c = Char.ofNat c.toNat := (Char.ofNat_toNat c).symm
    rw [hc]
    exact key c.toNat hlt
  · rw [hexDigitValue_none_of_ge c (by omega)]
    constructor
    · intro h
      exact Bool.noConfusion h
    · intro h
      exact absurd (hall c h) hlt

set_option maxRecDepth 100000 in
theorem hexDigitValue_case (c : Char) :
    hexDigitValue c.toUpper = hexDigitValue c ∧ hexDigitValue c.toLower = hexDigitValue c := by
  have key : ∀ n, n < 128 →
      (hexDigitValue (Char.ofNat n).toUpper = hexDigitValue (Char.ofNat n) ∧
        hexDigitValue (Char.ofNat n).toLower = hexDigitValue (Char.ofNat n)) := by decide
  by_cases hlt : c.toNat < 128
  · have hc : c = Char.ofNat c.toNat := (Char.ofNat_toNat c).symm
    rw [hc]
    exact key c.toNat hlt
  · have hu : c.toUpper = c := by
      unfold Char.toUpper
      have : ¬ (c.toNat ≥ 97 ∧ c.toNat ≤ 122) := by omega
      simp only [if_neg this]
    have hl : c.toLower = c := by
      unfold Char.toLower
      have : ¬ (c.toNat ≥ 65 ∧ c.toNat ≤ 90) := by omega
      simp only [if_neg this]
    rw [hu, hl]
    exact ⟨rfl, rfl⟩

theorem strChars_map (s : List Char) (f : Char → Char) (j : Nat) (h : j < s.length) :
    strChars (s.map f) j = f (strChars s j) := by
  rw [strChars_lt _ _ (by simpa using h), strChars_lt _ _ h, List.getElem_map]

theorem HexDecode_map (s : List Char) (f : Char → Char) (reverse : Bool)
    (hf : ∀ c, hexDigitValue (f c) = hexDigitValue c) :
    HexDecode (s.map f) reverse = HexDecode s reverse := by
  rw [HexDecode_eq, HexDecode_eq, List.length_map]
  have hp : hexPairs (s.map f) = hexPairs s := by
    unfold hexPairs
    rw [List.length_map]
    apply List.map_congr_left
    intro p hp
    have hp2 : p < s.length / 2 := List.mem_range.mp hp
    rw [strChars_map s f _ (by omega), strChars_map s f _ (by omega)]
    unfold hexPairValue
    rw [hf, hf]
  have hv : (∀ c ∈ s.map f, (hexDigitValue c).isSome = true)
      ↔ ∀ c ∈ s, (hexDigitValue c).isSome = true := by
    constructor
    · intro h c hc
      have := h (f c) (List.mem_map_of_mem f hc)
      rwa [hf] at this
    · intro h c hc
      obtain ⟨x, hx, rfl⟩ := List.mem_map.mp hc
      rw [hf]
      exact h x hx
  rw [hp]
  simp only [hv]

/-- C32: for a non-empty string `s`, the vector-returning `HexDecode` is non-empty exactly
when `IsHexString(s)`, that is when `s` has even length and every character is one of
`0123456789abcdefABCDEF`; it then has `len(s)/2` bytes; the upper-case and the lower-case
spelling of `s` decode to what `s` decodes to; and for an odd length or a character that
is not a hexadecimal digit the result is empty. -/
theorem C32_HexDecode_nonempty_iff_IsHexString (s : List Char) (hs : s ≠ []) (r : Bool) :
    (HexDecode s r ≠ [] ↔ IsHexString s = true) ∧
    (IsHexString s = true
      ↔ s.length % 2 = 0 ∧ ∀ c ∈ s, c ∈ "0123456789abcdefABCDEF".toList) ∧
    (IsHexString s = true → (HexDecode s r).length = s.length / 2) ∧
    HexDecode (s.map Char.toUpper) r = HexDecode s r ∧
    HexDecode (s.map Char.toLower) r = HexDecode s r ∧
    (s.length % 2 = 1 → HexDecode s r = []) ∧
    ((∃ c ∈ s, c ∉ "0123456789abcdefABCDEF".toList) → HexDecode s r = []) := by
  have hlen : (if r then (hexPairs s).reverse else hexPairs s).length = s.length / 2 := by
    cases r <;> simp [hexPairs]
  have hpos : 0 < s.length := by
    cases s with
    | nil => exact absurd rfl hs
    | cons x t => simp
  refine ⟨?_, ?_, ?_, ?_, ?_, ?_, ?_⟩
  · rw [IsHexString_iff, HexDecode_eq]
    constructor
    · intro h
      by_contra hc
      rw [if_neg hc] at h
      exact h rfl
    · intro h
      rw [if_pos h]
      intro h0
      rw [h0] at hlen
      simp at hlen
      omega
  · rw [IsHexString_iff]
    constructor
    · intro h
      exact ⟨h.1, fun c hc => (hexDigitValue_isSome_iff_mem c).mp (h.2 c hc)⟩
    · intro h
      exact ⟨h.1, fun c hc => (hexDigitValue_isSome_iff_mem c).mpr (h.2 c hc)⟩
  · intro h
    rw [HexDecode_eq, if_pos ((IsHexString_iff s).mp h)]
    exact hlen
  · exact HexDecode_map s Char.toUpper r (fun c => (hexDigitValue_case c).1)
  · exact HexDecode_map s Char.toLower r (fun c => (hexDigitValue_case c).2)
  · intro hodd
    rw [HexDecode_eq, if_neg (by omega)]
  · rintro ⟨c, hc, hn⟩
    rw [HexDecode_eq, if_neg]
    intro h
    exact hn ((hexDigitValue_isSome_iff_mem c).mp (h.2 c hc))

theorem C32_HexDecode_nonempty_iff_IsHexString_witness :
    "4a4B".toList ≠ [] ∧ IsHexString "4a4B".toList = true ∧
    HexDecode "4a4B".toList false ≠ [] ∧
    (HexDecode "4a4B".toList false).length = "4a4B".toList.length / 2 :=
  ⟨by decide, by decide,
   (C32_HexDecode_nonempty_iff_IsHexString "4a4B".toList (by decide) false).1.mpr (by decide),
   (C32_HexDecode_nonempty_iff_IsHexString "4a4B".toList (by decide) false).2.2.1
     (by decide)⟩

end encode

namespace crypto

end crypto

namespace encode

open bn

/-! ## Further claims on the Base58 codec -/

theorem IsBase58String_Base58Encode (b : List Byte) (past : Byte) :
    IsBase58String (Base58Encode b past) = true := by
  rw [Base58Encode_eq, IsBase58String_iff]
  intro c hc
  rcases List.mem_append.mp hc with h1 | h2
  · rw [(List.mem_replicate.mp h1).2]
    decide
  · obtain ⟨d, hd, rfl⟩ := List.mem_map.mp h2
    have f := ToBase58Char_facts d (base58Digits_lt _ d hd)
    rw [← f.2.2.1]
    exact f.1

set_option maxRecDepth 100000 in
theorem ValueToBase58Char_facts : ∀ v : Fin 256,
    (v.val < 58 → Base58CharToValue (ValueToBase58Char v) = v ∧
      IsBase58Character (ValueToBase58Char v) = true ∧
      ValueToBase58Char v ∈ kBase58CharSet) ∧
    (58 ≤ v.val → ValueToBase58Char v = Char.ofNat 0) := by
  decide

set_option maxRecDepth 100000 in
theorem ValueToBase58Char_Base58CharToValue :
    ∀ c ∈ kBase58CharSet, ValueToBase58Char (Base58CharToValue c) = c := by
  decide

/-- C36: `Base58CharToValue` and `ValueToBase58Char` are inverse to each other on their
valid domains: for `v < 58` the character of `v` has the value `v`; a character accepted
by `IsBase58Character` has a value below 58 whose character it is; for `v >= 58`
`ValueToBase58Char` returns the NUL character; and for every character that is not
accepted `Base58CharToValue` returns 0xff. -/
theorem C36_value_and_character_are_inverse (v : Byte) (c : Char) :
    (v.val < 58 → Base58CharToValue (ValueToBase58Char v) = v ∧
      IsBase58Character (ValueToBase58Char v) = true) ∧
    (IsBase58Character c = true → (Base58CharToValue c).val < 58 ∧
      ValueToBase58Char (Base58CharToValue c) = c) ∧
    (58 ≤ v.val → ValueToBase58Char v = Char.ofNat 0) ∧
    (IsBase58Character c = false → Base58CharToValue c = toByte 0xff) := by
  refine ⟨?_, ?_, (ValueToBase58Char_facts v).2, ?_⟩
  · intro hv
    exact ⟨((ValueToBase58Char_facts v).1 hv).1, ((ValueToBase58Char_facts v).1 hv).2.1⟩
  · intro hc
    have hm := IsBase58Character_mem c hc
    exact ⟨(alphabet_value_facts c hm).1, ValueToBase58Char_Base58CharToValue c hm⟩
  · intro hc
    by_contra hne
    have := (IsBase58Character_iff_value c).mpr hne
    rw [hc] at this
    exact Bool.noConfusion this

theorem encodeLeadingZeros_reads_eq (b : List Byte) (past : Byte) :
    ∀ fuel lz, b.length + 1 ≤ lz + fuel → lz ≤ b.length →
      encodeLeadingZeros_reads (vecData b past) b.length fuel lz
        = List.range' lz (leadingCount 0 (b.drop lz) + 1) := by
  intro fuel
  induction fuel with
  | zero =>
    intro lz h1 h2
    omega
  | succ fuel ih =>
    intro lz h1 h2
    rw [encodeLeadingZeros_reads]
    by_cases hlt : lz < b.length
    · have hd : b.drop lz = b[lz] :: b.drop (lz + 1) := List.drop_eq_getElem_cons hlt
      have hv : vecData b past lz = b[lz] := vecData_lt b past lz hlt
      by_cases hz : b[lz] = 0
      · rw [if_pos ⟨by rw [hv, hz], hlt⟩, ih (lz + 1) (by omega) (by omega), hd, hz,
          leadingCount_cons_self]
        rfl
      · rw [if_neg (by rw [hv]; exact fun h => hz h.1), hd, leadingCount_cons_ne _ _ _ hz]
        rfl
    · have : lz = b.length := by omega
      rw [if_neg (fun h => hlt h.2)]
      subst this
      simp [leadingCount]

theorem leadingCount_lt_of_ne {α : Type} [DecidableEq α] (a : α) (l : List α)
    (h : ∃ x ∈ l, x ≠ a) : leadingCount a l < l.length := by
  rcases Nat.lt_or_ge (leadingCount a l) l.length with h1 | h1
  · exact h1
  · exfalso
    have he : leadingCount a l = l.length := Nat.le_antisymm (leadingCount_le a l) h1
    have hr := leadingCount_eq_length a l he
    obtain ⟨x, hx, hne⟩ := h
    rw [hr] at hx
    exact hne (List.mem_replicate.mp hx).2

theorem leadingCount_of_all {α : Type} [DecidableEq α] (a : α) (l : List α)
    (h : ∀ x ∈ l, x = a) : leadingCount a l = l.length := by
  induction l with
  | nil => rfl
  | cons y l ih =>
    have hy : y = a := h y (List.mem_cons_self y l)
    subst hy
    rw [leadingCount_cons_self, ih (fun x hx => h x (List.mem_cons_of_mem _ hx))]
    rfl

theorem Base58Encode_reads_eq (b : List Byte) (past : Byte) (hb : b ≠ []) :
    Base58Encode_reads b past
      = if leadingCount 0 b = b.length then List.range' 0 (b.length + 1)
        else List.range' 0 (leadingCount 0 b + 1) ++ List.range b.length := by
  have he : b.isEmpty = false := by
    cases b with
    | nil => exact absurd rfl hb
    | cons x t => rfl
  have hne : b.length ≠ 0 := by
    cases b with
    | nil => exact absurd rfl hb
    | cons x t => simp
  unfold Base58Encode_reads Base58Encode_ptr_reads
  simp only [he, Bool.false_eq_true, if_false, hne]
  rw [encodeLeadingZeros_reads_eq b past _ 0 (by omega) (by omega),
    encodeLeadingZeros_eq b past _ 0 (by omega) (by omega)]
  simp only [List.drop_zero, Nat.zero_add]
  by_cases hall : leadingCount 0 b = b.length
  · rw [if_pos hall, if_pos hall, hall]
  · rw [if_neg hall, if_neg hall]

/-- C37, refuted: for an input whose bytes are all zero, `Base58Encode` reads the byte at
index `n`, one past the `n` bytes of the input, because the leading-zero loop tests
`data[leading_zeros] == 0` before `leading_zeros < size`; already for the one-byte input
`{0}` it reads index 1.  For an input with a non-zero byte every index read is below `n`,
and no index above `n` is ever read.  The value returned does not depend on the byte read
past the end. -/
theorem C37_Base58Encode_reads_past_all_zero_input :
    (Base58Encode_reads [0] 7 = [0, 1] ∧ Base58Encode [0] 7 = ['1']) ∧
    (∀ (b : List Byte) (past : Byte), b ≠ [] → (∀ x ∈ b, x = 0) →
      b.length ∈ Base58Encode_reads b past) ∧
    (∀ (b : List Byte) (past : Byte), (∃ x ∈ b, x ≠ 0) →
      ∀ i ∈ Base58Encode_reads b past, i < b.length) ∧
    (∀ (b : List Byte) (past : Byte), ∀ i ∈ Base58Encode_reads b past, i ≤ b.length) ∧
    (∀ (b : List Byte) (past past2 : Byte), Base58Encode b past = Base58Encode b past2) := by
  refine ⟨⟨by decide, by decide⟩, ?_, ?_, ?_, ?_⟩
  · intro b past hb hall
    rw [Base58Encode_reads_eq b past hb, if_pos (leadingCount_of_all 0 b hall)]
    rw [List.mem_range']
    exact ⟨b.length, by omega, by omega⟩
  · intro b past hex i hi
    have hb : b ≠ [] := by
      intro h0
      obtain ⟨x, hx, _⟩ := hex
      rw [h0] at hx
      exact absurd hx (List.not_mem_nil x)
    have hlt := leadingCount_lt_of_ne 0 b hex
    rw [Base58Encode_reads_eq b past hb, if_neg (by omega)] at hi
    rcases List.mem_append.mp hi with h1 | h1
    · rw [List.mem_range'] at h1
      obtain ⟨j, hj, rfl⟩ := h1
      omega
    · exact List.mem_range.mp h1
  · intro b past i hi
    by_cases hb : b = []
    · subst hb
      exact absurd hi (List.not_mem_nil i)
    · have hle := leadingCount_le 0 b
      rw [Base58Encode_reads_eq b past hb] at hi
      split at hi
      · rw [List.mem_range'] at hi
        obtain ⟨j, hj, rfl⟩ := hi
        omega
      · rcases List.mem_append.mp hi with h1 | h1
        · rw [List.mem_range'] at h1
          obtain ⟨j, hj, rfl⟩ := h1
          omega
        · exact Nat.le_of_lt (List.mem_range.mp h1)
  · intro b past past2
    rw [Base58Encode_eq, Base58Encode_eq]

/-- C38: for every byte sequence `b`, `IsBase58String(Base58Encode(b))` holds: each
remainder of a division by 58 is below 58, so is every value the division loop collects,
`ToBase58Char` of such a value is a character of the alphabet, and the character '-' does
not occur in an encoding. -/
theorem C38_Base58Encode_is_Base58 (b : List Byte) (past : Byte) :
    IsBase58String (Base58Encode b past) = true ∧
    (∀ acc : Nat, BN_get_word (BN_div acc 58).2 % 2 ^ 32 < 58) ∧
    (∀ v ∈ encodeDivLoop (BN_bin2bn (vecData b past) b.length)
      (BN_bin2bn (vecData b past) b.length) [], v.val < 58) ∧
    (∀ v : Byte, v.val < 58 → ToBase58Char v ≠ '-' ∧ ToBase58Char v ∈ kBase58CharSet) ∧
    '-' ∉ Base58Encode b past := by
  have hvalid := IsBase58String_Base58Encode b past
  refine ⟨hvalid, ?_, ?_, ?_, ?_⟩
  · intro acc
    have h1 : acc % 58 < 58 := Nat.mod_lt _ (by decide)
    have h2 : (58 : Nat) < 2 ^ 64 := by norm_num
    simp only [BN_div, BN_get_word]
    rw [if_pos (by omega)]
    have h3 : (58 : Nat) < 2 ^ 32 := by norm_num
    rw [Nat.mod_eq_of_lt (by omega)]
    exact h1
  · intro v hv
    rw [encodeDivLoop_eq _ _ _ (Nat.le_refl _), List.nil_append] at hv
    obtain ⟨d, hd, rfl⟩ := List.mem_map.mp hv
    have hlt : d < 58 := Nat.digits_lt_base (by decide) hd
    show d % 256 < 58
    omega
  · intro v hv
    have f := ToBase58Char_facts v.val hv
    have hv2 : toByte v.val = v := by
      apply Fin.ext
      show v.val % 256 = v.val
      exact Nat.mod_eq_of_lt v.isLt
    rw [hv2] at f
    refine ⟨?_, IsBase58Character_mem _ f.1⟩
    intro hm
    have := f.1
    rw [hm] at this
    exact absurd this (by decide)
  · intro hm
    have := (IsBase58String_iff _).mp hvalid '-' hm
    exact absurd this (by decide)

end encode

namespace crypto

/-! ## The digester when native calls fail -/

theorem EVP_faulty_ok (P : Primitives) (c o : EVP_MD_CTX) (p : Nat → Byte) (n : Nat) :
    EVP_DigestInit_faulty NativeFault.ok c = EVP_DigestInit c ∧
    EVP_MD_CTX_copy_faulty NativeFault.ok o c = EVP_MD_CTX_copy o c ∧
    EVP_DigestUpdate_faulty NativeFault.ok c p n = EVP_DigestUpdate c p n ∧
    EVP_DigestFinal_faulty P NativeFault.ok c = EVP_DigestFinal P c :=
  ⟨rfl, rfl, rfl, rfl⟩

theorem NativeDigester.native_faulty_ok (P : Primitives) (d : NativeDigester) (p : Nat → Byte)
    (n : Nat) :
    NativeDigester.Save_faulty NativeFault.ok d = NativeDigester.Save d ∧
    NativeDigester.Restore_faulty NativeFault.ok d = NativeDigester.Restore d ∧
    NativeDigester.Reset_faulty NativeFault.ok d = NativeDigester.Reset d ∧
    NativeDigester.Update_faulty NativeFault.ok NativeFault.ok d p n
      = NativeDigester.Update d p n ∧
    NativeDigester.Finalize_faulty P NativeFault.ok NativeFault.ok d
      = NativeDigester.Finalize P d :=
  ⟨rfl, rfl, rfl, rfl, rfl⟩

theorem Digester.faulty_ok (P : Primitives) (d : Digester) (x : Byte) (data : List Byte)
    (p : Option (Nat → Byte)) (n : Nat) :
    Digester.Reset_faulty NativeFault.ok d = Digester.Reset d ∧
    Digester.Update_datum_faulty NativeFault.ok NativeFault.ok d x = Digester.Update_datum d x ∧
    Digester.Update_faulty NativeFault.ok NativeFault.ok d data = Digester.Update d data ∧
    Digester.Update_ptr_faulty NativeFault.ok NativeFault.ok d p n = Digester.Update_ptr d p n ∧
    Digester.Finalize_faulty P NativeFault.ok NativeFault.ok d = Digester.Finalize P d ∧
    Digester.Finalize_ptr_faulty P NativeFault.ok NativeFault.ok d = Digester.Finalize_ptr P d :=
  ⟨rfl, rfl, rfl, rfl, rfl, rfl⟩

theorem NativeDigester.Consistent_iff (d : NativeDigester) :
    d.Consistent = true ↔
      ¬(d.ready = true ∧ d.has_backup = true) ∧
        (d.has_backup = true → d.backup_ctx.isSome = true) := by
  obtain ⟨c, b, r, h⟩ := d
  cases r <;> cases h <;> simp [NativeDigester.Consistent]

theorem NativeDigester.Reset_faulty_consistent (f : NativeFault) (d : NativeDigester) :
    (NativeDigester.Reset_faulty f d).2.Consistent = true := by
  obtain ⟨c, b, r, h⟩ := d
  cases hf : f.fails <;>
    simp [NativeDigester.Reset_faulty, EVP_DigestInit_faulty, EVP_DigestInit,
      NativeDigester.Consistent, hf]

theorem NativeDigester.Update_faulty_consistent (f1 f2 : NativeFault) (d : NativeDigester)
    (p : Nat → Byte) (n : Nat) (hd : d.Consistent = true) :
    (NativeDigester.Update_faulty f1 f2 d p n).2.Consistent = true := by
  obtain ⟨c, b, r, h⟩ := d
  cases r <;> cases h <;> cases hf1 : f1.fails <;> cases hf2 : f2.fails <;>
    cases c <;> cases b <;> by_cases hn : n = 0 <;>
    simp_all [NativeDigester.Update_faulty, NativeDigester.Restore_faulty,
      NativeDigester.Reset_faulty, EVP_DigestInit_faulty, EVP_DigestInit,
      EVP_MD_CTX_copy_faulty, EVP_MD_CTX_copy, EVP_DigestUpdate_faulty, EVP_DigestUpdate,
      NativeDigester.Consistent]

theorem NativeDigester.Finalize_faulty_consistent (P : Primitives) (f1 f2 : NativeFault)
    (d : NativeDigester) (hd : d.Consistent = true) :
    (NativeDigester.Finalize_faulty P f1 f2 d).2.Consistent = true := by
  obtain ⟨c, b, r, h⟩ := d
  cases r <;> cases h <;> cases hf1 : f1.fails <;> cases hf2 : f2.fails <;>
    cases c <;> cases b <;>
    simp_all [NativeDigester.Finalize_faulty, NativeDigester.Restore_faulty,
      NativeDigester.Reset_faulty, NativeDigester.Save_faulty, EVP_DigestInit_faulty,
      EVP_DigestInit, EVP_MD_CTX_copy_faulty, EVP_MD_CTX_copy, EVP_DigestFinal_faulty,
      EVP_DigestFinal, NativeDigester.Consistent]

theorem Digester.call_faulty_consistent (P : Primitives) (d : Digester) (c : FaultyCall)
    (hd : d.digester.Consistent = true) :
    (Digester.call_faulty P d c).1.digester.Consistent = true := by
  cases c with
  | Count => exact hd
  | Reset f => exact NativeDigester.Reset_faulty_consistent f d.digester
  | Update_datum f1 f2 x =>
    have := NativeDigester.Update_faulty_consistent f1 f2 d.digester (vecData [x] 0) 1 hd
    simp only [Digester.call_faulty, Digester.Update_datum_faulty]
    split <;> exact this
  | Update f1 f2 data =>
    have := NativeDigester.Update_faulty_consistent f1 f2 d.digester (vecData data 0)
      data.length hd
    simp only [Digester.call_faulty, Digester.Update_faulty]
    split
    · exact hd
    · split <;> exact this
  | Update_ptr f1 f2 data n =>
    simp only [Digester.call_faulty, Digester.Update_ptr_faulty]
    split
    · exact hd
    · cases data with
      | none => exact hd
      | some p =>
        have := NativeDigester.Update_faulty_consistent f1 f2 d.digester p n hd
        simp only
        split <;> exact this
  | Finalize f1 f2 =>
    have := NativeDigester.Finalize_faulty_consistent P f1 f2 d.digester hd
    simp only [Digester.call_faulty, Digester.Finalize_faulty]
    split
    · exact this
    · split
      · exact this
      · split <;> exact this
  | Finalize_ptr f1 f2 =>
    have := NativeDigester.Finalize_faulty_consistent P f1 f2 d.digester hd
    simp only [Digester.call_faulty, Digester.Finalize_ptr_faulty]
    split
    · exact this
    · split
      · exact this
      · split <;> exact this

theorem Digester.run_faulty_consistent (P : Primitives) (cs : List FaultyCall) :
    ∀ d : Digester, d.digester.Consistent = true →
      (Digester.run_faulty P d cs).1.digester.Consistent = true := by
  induction cs with
  | nil => intro d hd; exact hd
  | cons c cs ih =>
    intro d hd
    exact ih _ (Digester.call_faulty_consistent P d c hd)

theorem Digester.New_consistent (algorithm : DigestAlgorithm) (d0 : Digester)
    (h : Digester.New algorithm = some d0) :
    d0.digester.Consistent = true ∧ d0.algorithm = algorithm := by
  unfold Digester.New at h
  split at h
  · exact absurd h (by simp)
  · have hn : NativeDigester.New = some ⟨some [], none, true, false⟩ := rfl
    rw [hn] at h
    simp only [Option.some.injEq] at h
    subst h
    exact ⟨rfl, rfl⟩

theorem NativeDigester.SameFuture_refl (d : NativeDigester) : NativeDigester.SameFuture d d :=
  ⟨rfl, rfl, fun _ => rfl, fun _ => rfl⟩

theorem NativeDigester.SameFuture_Reset (f : NativeFault) (d e : NativeDigester) :
    NativeDigester.SameFuture (NativeDigester.Reset_faulty f d).2
      (NativeDigester.Reset_faulty f e).2 := by
  obtain ⟨c, b, r, h⟩ := d
  obtain ⟨c2, b2, r2, h2⟩ := e
  cases hf : f.fails <;>
    simp [NativeDigester.Reset_faulty, EVP_DigestInit_faulty, EVP_DigestInit,
      NativeDigester.SameFuture, hf]

theorem NativeDigester.SameFuture_Update (f1 f2 : NativeFault) (d e : NativeDigester)
    (p : Nat → Byte) (n : Nat) (h : NativeDigester.SameFuture d e) :
    (NativeDigester.Update_faulty f1 f2 d p n).1 = (NativeDigester.Update_faulty f1 f2 e p n).1 ∧
    NativeDigester.SameFuture (NativeDigester.Update_faulty f1 f2 d p n).2
      (NativeDigester.Update_faulty f1 f2 e p n).2 := by
  obtain ⟨c, b, r, hb⟩ := d
  obtain ⟨c2, b2, r2, hb2⟩ := e
  obtain ⟨h1, h2, h3, h4⟩ := h
  simp only at h1 h2 h3 h4
  subst h1 h2
  cases r <;> cases hb
  · cases hf1 : f1.fails <;> cases hf2 : f2.fails <;> by_cases hn : n = 0 <;>
      simp [NativeDigester.Update_faulty, NativeDigester.Reset_faulty, EVP_DigestInit_faulty,
        EVP_DigestInit, EVP_DigestUpdate_faulty, EVP_DigestUpdate,
        NativeDigester.SameFuture, hf1, hf2, hn]
  · have hbb := h4 rfl
    subst hbb
    cases hf1 : f1.fails <;> cases hf2 : f2.fails <;> by_cases hn : n = 0 <;> cases b <;>
      simp [NativeDigester.Update_faulty, NativeDigester.Restore_faulty,
        EVP_MD_CTX_copy_faulty, EVP_MD_CTX_copy, EVP_DigestUpdate_faulty, EVP_DigestUpdate,
        NativeDigester.SameFuture, hf1, hf2, hn]
  · have hcc := h3 rfl
    subst hcc
    cases hf2 : f2.fails <;> by_cases hn : n = 0 <;> cases c <;>
      simp [NativeDigester.Update_faulty, EVP_DigestUpdate_faulty, EVP_DigestUpdate,
        NativeDigester.SameFuture, hf2, hn]
  · have hcc := h3 rfl
    have hbb := h4 rfl
    subst hcc hbb
    exact ⟨rfl, NativeDigester.SameFuture_refl _⟩

theorem NativeDigester.SameFuture_Finalize (P : Primitives) (f1 f2 : NativeFault)
    (d e : NativeDigester) (h : NativeDigester.SameFuture d e) :
    (NativeDigester.Finalize_faulty P f1 f2 d).1 = (NativeDigester.Finalize_faulty P f1 f2 e).1 ∧
    NativeDigester.SameFuture (NativeDigester.Finalize_faulty P f1 f2 d).2
      (NativeDigester.Finalize_faulty P f1 f2 e).2 := by
  obtain ⟨c, b, r, hb⟩ := d
  obtain ⟨c2, b2, r2, hb2⟩ := e
  obtain ⟨h1, h2, h3, h4⟩ := h
  simp only at h1 h2 h3 h4
  subst h1 h2
  cases r <;> cases hb
  · cases hf1 : f1.fails <;> cases hf2 : f2.fails <;>
      simp [NativeDigester.Finalize_faulty, NativeDigester.Reset_faulty, EVP_DigestInit_faulty,
        EVP_DigestInit, EVP_DigestFinal_faulty, EVP_DigestFinal,
        NativeDigester.SameFuture, hf1, hf2]
  · have hbb := h4 rfl
    subst hbb
    cases hf1 : f1.fails <;> cases hf2 : f2.fails <;> cases b <;>
      simp [NativeDigester.Finalize_faulty, NativeDigester.Restore_faulty,
        EVP_MD_CTX_copy_faulty, EVP_MD_CTX_copy, EVP_DigestFinal_faulty, EVP_DigestFinal,
        NativeDigester.SameFuture, hf1, hf2]
  · have hcc := h3 rfl
    subst hcc
    cases hf1 : f1.fails <;> cases hf2 : f2.fails <;> cases c <;>
      simp [NativeDigester.Finalize_faulty, NativeDigester.Save_faulty,
        EVP_MD_CTX_copy_faulty, EVP_MD_CTX_copy, EVP_DigestFinal_faulty, EVP_DigestFinal,
        NativeDigester.SameFuture, hf1, hf2]
  · have hcc := h3 rfl
    have hbb := h4 rfl
    subst hcc hbb
    exact ⟨rfl, NativeDigester.SameFuture_refl _⟩

theorem Digester.SameFuture_call (P : Primitives) (d e : Digester) (c : FaultyCall)
    (h : Digester.SameFuture d e) :
    (Digester.call_faulty P d c).2 = (Digester.call_faulty P e c).2 ∧
    Digester.SameFuture (Digester.call_faulty P d c).1 (Digester.call_faulty P e c).1 := by
  obtain ⟨a, l, k, n⟩ := d
  obtain ⟨a2, l2, k2, n2⟩ := e
  obtain ⟨h1, h2, h3, h4⟩ := h
  simp only at h1 h2 h3 h4
  subst h1 h2 h3
  cases c with
  | Count => exact ⟨rfl, rfl, rfl, rfl, h4⟩
  | Reset f =>
    exact ⟨rfl, rfl, rfl, rfl, NativeDigester.SameFuture_Reset f n n2⟩
  | Update_datum f1 f2 x =>
    obtain ⟨e1, e2⟩ := NativeDigester.SameFuture_Update f1 f2 n n2 (vecData [x] 0) 1 h4
    simp only [Digester.call_faulty, Digester.Update_datum_faulty, ← e1]
    cases (NativeDigester.Update_faulty f1 f2 n (vecData [x] 0) 1).1 <;>
      exact ⟨rfl, rfl, rfl, rfl, e2⟩
  | Update f1 f2 data =>
    obtain ⟨e1, e2⟩ :=
      NativeDigester.SameFuture_Update f1 f2 n n2 (vecData data 0) data.length h4
    simp only [Digester.call_faulty, Digester.Update_faulty, ← e1]
    cases data.isEmpty
    · cases (NativeDigester.Update_faulty f1 f2 n (vecData data 0) data.length).1 <;>
        exact ⟨rfl, rfl, rfl, rfl, e2⟩
    · exact ⟨rfl, rfl, rfl, rfl, h4⟩
  | Update_ptr f1 f2 data m =>
    simp only [Digester.call_faulty, Digester.Update_ptr_faulty]
    by_cases hm : m = 0
    · rw [if_pos hm, if_pos hm]
      exact ⟨rfl, rfl, rfl, rfl, h4⟩
    · rw [if_neg hm, if_neg hm]
      cases data with
      | none => exact ⟨rfl, rfl, rfl, rfl, h4⟩
      | some p =>
        obtain ⟨e1, e2⟩ := NativeDigester.SameFuture_Update f1 f2 n n2 p m h4
        simp only [← e1]
        cases (NativeDigester.Update_faulty f1 f2 n p m).1 <;>
          exact ⟨rfl, rfl, rfl, rfl, e2⟩
  | Finalize f1 f2 =>
    obtain ⟨e1, e2⟩ := NativeDigester.SameFuture_Finalize P f1 f2 n n2 h4
    simp only [Digester.call_faulty, Digester.Finalize_faulty, ← e1]
    cases (NativeDigester.Finalize_faulty P f1 f2 n).1 with
    | none => exact ⟨rfl, rfl, rfl, rfl, e2⟩
    | some w =>
      simp only
      split
      · exact ⟨rfl, rfl, rfl, rfl, e2⟩
      · split <;> exact ⟨rfl, rfl, rfl, rfl, e2⟩
  | Finalize_ptr f1 f2 =>
    obtain ⟨e1, e2⟩ := NativeDigester.SameFuture_Finalize P f1 f2 n n2 h4
    simp only [Digester.call_faulty, Digester.Finalize_ptr_faulty, ← e1]
    split
    · exact ⟨rfl, rfl, rfl, rfl, e2⟩
    · cases (NativeDigester.Finalize_faulty P f1 f2 n).1 with
      | none => exact ⟨rfl, rfl, rfl, rfl, e2⟩
      | some w =>
        simp only
        split <;> exact ⟨rfl, rfl, rfl, rfl, e2⟩

theorem Digester.SameFuture_run (P : Primitives) (cs : List FaultyCall) :
    ∀ d e : Digester, Digester.SameFuture d e →
      (Digester.run_faulty P d cs).2 = (Digester.run_faulty P e cs).2 := by
  induction cs with
  | nil => intro d e _; rfl
  | cons c cs ih =>
    intro d e h
    obtain ⟨h1, h2⟩ := Digester.SameFuture_call P d e c h
    simp only [Digester.run_faulty]
    rw [h1, ih _ _ h2]

theorem NativeDigester.Update_faulty_fails (f1 f2 : NativeFault) (d : NativeDigester)
    (p : Nat → Byte) (n : Nat) (hc : d.Consistent = true) (hn : n ≠ 0)
    (hreach : d.ready = true ∨ f1.fails = false) (hfail : f2.fails = true) :
    (NativeDigester.Update_faulty f1 f2 d p n).1 = false ∧
    (NativeDigester.Update_faulty f1 f2 d p n).2.ready = false ∧
    (NativeDigester.Update_faulty f1 f2 d p n).2.has_backup = false := by
  obtain ⟨c, b, r, h⟩ := d
  cases r <;> cases h
  · have hf1 : f1.fails = false := by simpa using hreach
    simp [NativeDigester.Update_faulty, NativeDigester.Reset_faulty, EVP_DigestInit_faulty,
      EVP_DigestInit, EVP_DigestUpdate_faulty, hf1, hfail, hn]
  · have hf1 : f1.fails = false := by simpa using hreach
    have hb : b.isSome = true := by simpa [NativeDigester.Consistent] using hc
    obtain ⟨m, rfl⟩ := Option.isSome_iff_exists.mp hb
    simp [NativeDigester.Update_faulty, NativeDigester.Restore_faulty, EVP_MD_CTX_copy_faulty,
      EVP_MD_CTX_copy, EVP_DigestUpdate_faulty, hf1, hfail, hn]
  · simp [NativeDigester.Update_faulty, EVP_DigestUpdate_faulty, hfail, hn]
  · simp [NativeDigester.Consistent] at hc

theorem Digester.Finalize_faulty_invalid (P : Primitives) (a : DigestAlgorithm) (l k : Nat)
    (c b : EVP_MD_CTX) :
    (Digester.Finalize_faulty P NativeFault.ok NativeFault.ok ⟨a, l, k, ⟨c, b, false, false⟩⟩).1
      = Digester.finish P a (P.SHA256 []) := by
  have hn : NativeDigester.Finalize_faulty P NativeFault.ok NativeFault.ok ⟨c, b, false, false⟩
      = (P.SHA256 [], ⟨none, b, false, false⟩) := rfl
  simp only [Digester.Finalize_faulty, hn]
  cases P.SHA256 [] with
  | none => rfl
  | some w =>
    simp only [Digester.finish]
    split
    · rfl
    · split <;> rfl

/-- C34: let `d` be a digester obtained from `Digester::New` by any sequence of calls, in
which any OpenSSL call may have failed.  If `EVP_DigestUpdate` is reached inside
`Digester::Update(data, data_size)` on `d` with a non-null `data` and `data_size > 0`, that
is `d` is ready or the call made by `Restore()` or `Reset()` did not fail, and
`EVP_DigestUpdate` fails, then `Update` returns false, `Count()` is unchanged and the
digester is Invalid: neither `_ready` nor `_has_backup` is set.  What any later sequence
of calls returns is then the same as for a digester of the same algorithm and count whose
two contexts hold anything else, so no digest of the earlier bytes can be obtained; a
`Finalize()` made next returns the digest of the empty input.  The overloads of `Update`
for a vector and for one byte are the pointer overload on their bytes.  On any digester,
`Update` with a null `data` and `data_size > 0` returns false and leaves the object as it
was. -/
theorem C34_failed_native_update_leaves_Invalid (P : Primitives)
    (algorithm : DigestAlgorithm) (d0 d : Digester) (cs : List FaultyCall)
    (f1 f2 : NativeFault) (p : Nat → Byte) (n : Nat)
    (hnew : Digester.New algorithm = some d0)
    (hd : (Digester.run_faulty P d0 cs).1 = d)
    (hn : 0 < n)
    (hreach : d.digester.ready = true ∨ f1.fails = false)
    (hfail : f2.fails = true) :
    (Digester.Update_ptr_faulty f1 f2 d (some p) n).1 = false ∧
    (Digester.Update_ptr_faulty f1 f2 d (some p) n).2.Count = d.Count ∧
    (Digester.Update_ptr_faulty f1 f2 d (some p) n).2.digester.ready = false ∧
    (Digester.Update_ptr_faulty f1 f2 d (some p) n).2.digester.has_backup = false ∧
    (∀ (c b : EVP_MD_CTX) (calls : List FaultyCall),
      (Digester.run_faulty P (Digester.Update_ptr_faulty f1 f2 d (some p) n).2 calls).2 =
        (Digester.run_faulty P
          ⟨d.algorithm, d.digest_length, d.Count, ⟨c, b, false, false⟩⟩ calls).2) ∧
    (Digester.Finalize_faulty P NativeFault.ok NativeFault.ok
        (Digester.Update_ptr_faulty f1 f2 d (some p) n).2).1
      = Digester.finish P d.algorithm (P.SHA256 []) ∧
    (∀ data : List Byte, Digester.Update_faulty f1 f2 d data
      = Digester.Update_ptr_faulty f1 f2 d (some (vecData data 0)) data.length) ∧
    (∀ datum : Byte, Digester.Update_datum_faulty f1 f2 d datum
      = Digester.Update_ptr_faulty f1 f2 d (some (vecData [datum] 0)) 1) ∧
    (∀ (g1 g2 : NativeFault) (e : Digester) (m : Nat), 0 < m →
      Digester.Update_ptr_faulty g1 g2 e none m = (false, e) ∧
      Digester.Update_ptr e none m = (false, e)) := by
  have hc : d.digester.Consistent = true := by
    rw [← hd]
    exact Digester.run_faulty_consistent P cs d0 (Digester.New_consistent algorithm d0 hnew).1
  have hn0 : n ≠ 0 := by omega
  obtain ⟨k1, k2, k3⟩ := NativeDigester.Update_faulty_fails f1 f2 d.digester p n hc hn0
    hreach hfail
  have hupd : Digester.Update_ptr_faulty f1 f2 d (some p) n
      = (false, { d with digester := (NativeDigester.Update_faulty f1 f2 d.digester p n).2 }) := by
    simp only [Digester.Update_ptr_faulty, if_neg hn0, k1, Bool.not_false, if_true]
  rw [hupd]
  refine ⟨rfl, rfl, k2, k3, ?_, ?_, ?_, ?_, ?_⟩
  · intro c b calls
    apply Digester.SameFuture_run
    refine ⟨rfl, rfl, rfl, k2, k3, ?_, ?_⟩
    · intro h
      rw [k2] at h
      exact Bool.noConfusion h
    · intro h
      rw [k3] at h
      exact Bool.noConfusion h
  · generalize hN : NativeDigester.Update_faulty f1 f2 d.digester p n = N at k2 k3
    obtain ⟨r, N⟩ := N
    obtain ⟨c, b, rd, hb⟩ := N
    simp only at k2 k3
    subst k2 k3
    exact Digester.Finalize_faulty_invalid P d.algorithm d.digest_length d.byte_count c b
  · intro data
    cases data with
    | nil => rfl
    | cons x t =>
      simp [Digester.Update_faulty, Digester.Update_ptr_faulty]
  · intro datum
    simp [Digester.Update_datum_faulty, Digester.Update_ptr_faulty]
  · intro g1 g2 e m hm
    have hm0 : m ≠ 0 := by omega
    simp [Digester.Update_ptr_faulty, Digester.Update_ptr, hm0]

theorem C34_failed_native_update_leaves_Invalid_witness :
    Digester.New kSha256 = some ⟨kSha256, 32, 0, ⟨some [], none, true, false⟩⟩ ∧
    (Digester.run_faulty standIn ⟨kSha256, 32, 0, ⟨some [], none, true, false⟩⟩
        [FaultyCall.Update NativeFault.ok NativeFault.ok [1, 2, 3]]).1
      = ⟨kSha256, 32, 3, ⟨some [1, 2, 3], none, true, false⟩⟩ ∧
    (Digester.Update_ptr_faulty NativeFault.ok ⟨true, id⟩
        ⟨kSha256, 32, 3, ⟨some [1, 2, 3], none, true, false⟩⟩ (some (vecData [4] 0)) 1)
      = (false, ⟨kSha256, 32, 3, ⟨some [1, 2, 3], none, false, false⟩⟩) ∧
    (Digester.Finalize_faulty standIn NativeFault.ok NativeFault.ok
        (Digester.Update_ptr_faulty NativeFault.ok ⟨true, id⟩
          ⟨kSha256, 32, 3, ⟨some [1, 2, 3], none, true, false⟩⟩ (some (vecData [4] 0)) 1).2).1
      = Digester.finish standIn kSha256 (standIn.SHA256 []) :=
  ⟨by decide, by decide, by decide,
   (C34_failed_native_update_leaves_Invalid standIn kSha256
      ⟨kSha256, 32, 0, ⟨some [], none, true, false⟩⟩
      ⟨kSha256, 32, 3, ⟨some [1, 2, 3], none, true, false⟩⟩
      [FaultyCall.Update NativeFault.ok NativeFault.ok [1, 2, 3]]
      NativeFault.ok ⟨true, id⟩ (vecData [4] 0) 1
      (by decide) (by decide) (by decide) (Or.inl rfl) rfl).2.2.2.2.2.1⟩

/-! ## The private-key flag and the address checksum -/

theorem EccNativeKey.New_is_private (E : EccBackend) (seed : Nat) (k : EccNativeKey)
    (h : EccNativeKey.New E seed = some k) : k.is_private = true := by
  obtain ⟨d, Q, _, _, hk⟩ := (EccNativeKey.New_eq_some E seed k).mp h
  rw [hk]

theorem EccNativeKey.Load_is_private (E : EccBackend) (input : List Byte) (k : EccNativeKey) :
    (EccNativeKey.LoadPrivateKeyInfo E input = some k → k.is_private = true) ∧
    (EccNativeKey.LoadAsScalar E input = some k → k.is_private = true) ∧
    (EccNativeKey.LoadSubjectPublicKeyInfo E input = some k → k.is_private = false) ∧
    (EccNativeKey.LoadAsPoint E input = some k → k.is_private = false) := by
  refine ⟨?_, ?_, ?_, ?_⟩
  · intro h
    obtain ⟨_, _, _, _, _, _, _, _, _, _, hk⟩ :=
      (EccNativeKey.LoadPrivateKeyInfo_iff E input k).mp h
    rw [hk]
  · intro h
    obtain ⟨_, _, _, _, _, _, _, _, _, _, _, _, _, _, hk⟩ :=
      (EccNativeKey.LoadAsScalar_iff E input k).mp h
    rw [hk]
  · intro h
    obtain ⟨_, _, _, _, _, _, _, _, _, _, hk⟩ :=
      (EccNativeKey.LoadSubjectPublicKeyInfo_iff E input k).mp h
    rw [hk]
  · intro h
    obtain ⟨_, _, _, _, _, _, hk⟩ := (EccNativeKey.LoadAsPoint_iff E input k).mp h
    rw [hk]

/-- C40: every `EccPrivateKey` returned by `New`, `LoadPrivateKeyInfo` or `LoadAsScalar`
wraps a native key whose `_is_private` flag is true, so the assertion in the constructor
and the assertions `DASSERT(_is_private)` of `SerializePrivateKeyInfo`,
`SerializeAsPrivateScalar` and `GenerateSignature` hold for it, and so do the other two
assertions of `GenerateSignature` whenever one of the three overloads of
`EccPrivateKey::GenerateSignature` reaches it; an `EccPublicKey` returned by
`LoadSubjectPublicKeyInfo` or `LoadAsPoint` has the flag false.  The factories do return
keys: the last part evaluates them on the stand-in backend. -/
theorem C40_private_key_factories_set_is_private (E : EccBackend) (seed : Nat)
    (input : List Byte) :
    (∀ k : EccPrivateKey,
      (EccPrivateKey.New E seed = some k ∨ EccPrivateKey.LoadPrivateKeyInfo E input = some k ∨
        EccPrivateKey.LoadAsScalar E input = some k) →
      k.key.is_private = true ∧
      EccPrivateKey.constructor_asserts k.key = true ∧
      k.key.SerializePrivateKeyInfo_asserts = true ∧
      k.key.SerializeAsPrivateScalar_asserts = true ∧
      (∀ data : List Char, data.isEmpty = false →
        k.key.GenerateSignature_asserts (some (strData data)) data.length = true) ∧
      (∀ data : List Byte, data.isEmpty = false →
        k.key.GenerateSignature_asserts (some (vecData data 0)) data.length = true) ∧
      (∀ (data : Option (Nat → Byte)) (data_size : Nat), ¬(data.isNone ∨ data_size = 0) →
        k.key.GenerateSignature_asserts data data_size = true)) ∧
    (∀ k : EccPublicKey,
      (EccPublicKey.LoadSubjectPublicKeyInfo E input = some k ∨
        EccPublicKey.LoadAsPoint E input = some k) →
      k.key.is_private = false) ∧
    ((EccPrivateKey.New standInEcc 6).isSome = true ∧
      (EccPrivateKey.LoadPrivateKeyInfo standInEcc [7]).isSome = true ∧
      (EccPrivateKey.LoadAsScalar standInEcc [7]).isSome = true ∧
      (EccPublicKey.LoadSubjectPublicKeyInfo standInEcc [7]).isSome = true ∧
      (EccPublicKey.LoadAsPoint standInEcc (2 :: (List.replicate 31 0 ++ [7]))).isSome
        = true) := by
  refine ⟨?_, ?_, by decide⟩
  · intro k hk
    have hp : k.key.is_private = true := by
      rcases hk with h | h | h
      · unfold EccPrivateKey.New at h
        cases hn : EccNativeKey.New E seed with
        | none => rw [hn] at h; exact absurd h (by simp)
        | some nk =>
          rw [hn] at h
          simp only [Option.some.injEq] at h
          subst h
          exact EccNativeKey.New_is_private E seed nk hn
      · unfold EccPrivateKey.LoadPrivateKeyInfo at h
        cases hn : EccNativeKey.LoadPrivateKeyInfo E input with
        | none => rw [hn] at h; exact absurd h (by simp)
        | some nk =>
          rw [hn] at h
          simp only [Option.some.injEq] at h
          subst h
          exact (EccNativeKey.Load_is_private E input nk).1 hn
      · unfold EccPrivateKey.LoadAsScalar at h
        cases hn : EccNativeKey.LoadAsScalar E input with
        | none => rw [hn] at h; exact absurd h (by simp)
        | some nk =>
          rw [hn] at h
          simp only [Option.some.injEq] at h
          subst h
          exact (EccNativeKey.Load_is_private E input nk).2.1 hn
    refine ⟨hp, hp, hp, hp, ?_, ?_, ?_⟩
    · intro data hdata
      have hl : data.length > 0 := by
        cases data with
        | nil => exact absurd hdata (by simp)
        | cons x t => simp
      simp [EccNativeKey.GenerateSignature_asserts, hp, hl]
    · intro data hdata
      have hl : data.length > 0 := by
        cases data with
        | nil => exact absurd hdata (by simp)
        | cons x t => simp
      simp [EccNativeKey.GenerateSignature_asserts, hp, hl]
    · intro data n hdn
      cases data with
      | none => exact absurd (Or.inl rfl) hdn
      | some p =>
        have hl : n > 0 := by
          rcases Nat.eq_zero_or_pos n with h0 | h0
          · exact absurd (Or.inr h0) hdn
          · exact h0
        simp [EccNativeKey.GenerateSignature_asserts, hp, hl]
  · intro k hk
    rcases hk with h | h
    · unfold EccPublicKey.LoadSubjectPublicKeyInfo at h
      cases hn : EccNativeKey.LoadSubjectPublicKeyInfo E input with
      | none => rw [hn] at h; exact absurd h (by simp)
      | some nk =>
        rw [hn] at h
        simp only [Option.some.injEq] at h
        subst h
        exact (EccNativeKey.Load_is_private E input nk).2.2.1 hn
    · unfold EccPublicKey.LoadAsPoint at h
      cases hn : EccNativeKey.LoadAsPoint E input with
      | none => rw [hn] at h; exact absurd h (by simp)
      | some nk =>
        rw [hn] at h
        simp only [Option.some.injEq] at h
        subst h
        exact (EccNativeKey.Load_is_private E input nk).2.2.2 hn

end crypto

namespace wallet

open crypto

theorem take_eq_of_getD (a b : List Byte) (n : Nat) (ha : n ≤ a.length) (hb : n ≤ b.length)
    (h : ∀ i, i < n → b.getD i 0 = a.getD i 0) : b.take n = a.take n := by
  apply List.ext_getElem
  · simp [Nat.min_eq_left ha, Nat.min_eq_left hb]
  · intro i h1 h2
    have hi : i < n := by
      simp only [List.length_take] at h1
      omega
    have := h i hi
    rw [List.getD_eq_getElem _ _ (by omega), List.getD_eq_getElem _ _ (by omega)] at this
    simpa using this

/-- C39: if the 25-byte address `a` is accepted by `IsValidAddress` and the 25-byte `b`
agrees with `a` on bytes 0..20 and differs from it in at least one of bytes 21..24, then
`IsValidAddress(b)` is false; so an accepted address is determined by its first 21 bytes,
the network id and the key hash. -/
theorem C39_only_one_checksum_is_accepted (P : Primitives) (a b : List Byte)
    (ha : PkhAddress.IsValidAddress P a = true) (hb : b.length = 25)
    (hagree : ∀ i, i < 21 → b.getD i 0 = a.getD i 0)
    (hdiff : ∃ i, 21 ≤ i ∧ i < 25 ∧ b.getD i 0 ≠ a.getD i 0) :
    PkhAddress.IsValidAddress P b = false ∧
    (∀ c : List Byte, PkhAddress.IsValidAddress P c = true → c.take 21 = a.take 21 →
      c = a) := by
  obtain ⟨hla, hsa⟩ := (IsValidAddress_eq_true_iff P a).mp ha
  have huniq : ∀ c : List Byte, PkhAddress.IsValidAddress P c = true →
      c.take 21 = a.take 21 → c = a := by
    intro c hc ht
    obtain ⟨_, hsc⟩ := (IsValidAddress_eq_true_iff P c).mp hc
    rw [← List.take_append_drop 21 c, ← List.take_append_drop 21 a, hsc, hsa, ht]
  refine ⟨?_, huniq⟩
  cases hv : PkhAddress.IsValidAddress P b with
  | false => rfl
  | true =>
    exfalso
    have ht : b.take 21 = a.take 21 :=
      take_eq_of_getD a b 21 (by omega) (by omega) hagree
    have hba := huniq b hv ht
    obtain ⟨i, _, _, hne⟩ := hdiff
    exact hne (by rw [hba])

theorem C39_only_one_checksum_is_accepted_witness :
    PkhAddress.IsValidAddress standIn
        [1, 2, 3, 4, 5, 0, 0, 0, 0, 0, 0, 0, 0, 0, 0, 0, 0, 0, 0, 0, 0, 1, 2, 3, 4] = true ∧
    PkhAddress.IsValidAddress standIn
        [1, 2, 3, 4, 5, 0, 0, 0, 0, 0, 0, 0, 0, 0, 0, 0, 0, 0, 0, 0, 0, 1, 2, 3, 5] = false :=
  ⟨by decide,
   (C39_only_one_checksum_is_accepted standIn
      [1, 2, 3, 4, 5, 0, 0, 0, 0, 0, 0, 0, 0, 0, 0, 0, 0, 0, 0, 0, 0, 1, 2, 3, 4]
      [1, 2, 3, 4, 5, 0, 0, 0, 0, 0, 0, 0, 0, 0, 0, 0, 0, 0, 0, 0, 0, 1, 2, 3, 5]
      (by decide) (by decide) (by decide) ⟨24, by decide, by decide, by decide⟩).1⟩

end wallet

namespace crypto

end crypto

end btc
